import Mathlib

/-!
# DataSheet: selection, navigation, clipboard and copydown

A shallow embedding of `src/DataSheet.js`.  JavaScript values are modelled as
follows.

* A grid position read from an object such as `this.state.start` is a `Num`:
  an integer, or `none` when the field is missing (`undefined`, and `NaN` once
  arithmetic has touched it).  Comparisons with a missing number are false.
* Text is a list of characters.
* `data` is an array of arrays of cell records; a lookup outside an array is
  `undefined` (`none`), and reading a property of `undefined` throws.
* Callbacks handed in through `props` are recorded as a list of `Call`s.
-/

namespace DataSheet

/-! ## Data model -/

/-- Text: a JavaScript string, as its sequence of characters. -/
abbrev Text := List Char

/-- Number held in a coordinate field: `none` stands for `undefined` / `NaN`. -/
abbrev Num := Option Int

/-- Cell record of the caller, with the flags the sheet reads. -/
structure Cell where
  value : Text
  readOnly : Bool
  component : Bool
  forceComponent : Bool
deriving DecidableEq, Repr

/-- Location `{ i, j }`: row `i`, column `j`. -/
structure Loc where
  i : Int
  j : Int
deriving DecidableEq, Repr

/-- The `data` prop: rows of cells. -/
abbrev Grid := List (List Cell)

/-- Outcome of running a piece of code that may throw or may not return. -/
inductive Run (α : Type) where
  | done (a : α)
  | typeError
  | outOfFuel
deriving DecidableEq, Repr

/-- Array read `xs[k]` for an integer index: `undefined` outside the array. -/
def index {α : Type} (xs : List α) (k : Int) : Option α :=
  if k < 0 then none else xs.get? k.toNat

/-- Row read `data[i]`. -/
def rowAt (data : Grid) (i : Int) : Option (List Cell) := index data i

/-- Guarded cell read `data[i] && data[i][j]`. -/
def cellAt (data : Grid) (i j : Int) : Option Cell :=
  match rowAt data i with
  | none => none
  | some row => index row j

/-! ## Navigation: `searchForNextSelectablePos` -/

/-- Local `previousRow`: reads `data[0].length`, which throws on an empty `data`. -/
def previousRow (data : Grid) (location : Loc) : Option Loc :=
  match data.head? with
  | none => none
  | some row0 => some ⟨location.i - 1, (row0.length : Int) - 1⟩

/-- Local `nextRow`. -/
def nextRow (location : Loc) : Loc := ⟨location.i + 1, 0⟩

/-- Local `advanceOffset`. -/
def advanceOffset (offsets location : Loc) : Loc :=
  ⟨location.i + offsets.i, location.j + offsets.j⟩

/-- Local `isCellDefined`. -/
def isCellDefined (data : Grid) (location : Loc) : Bool :=
  (cellAt data location.i location.j).isSome

/-- The condition `isCellDefined(l) && !isCellNavigable(data[l.i][l.j], l.i, l.j)`. -/
def definedNotNavigable (isCellNavigable : Cell → Int → Int → Bool) (data : Grid)
    (location : Loc) : Bool :=
  match cellAt data location.i location.j with
  | none => false
  | some cell => !isCellNavigable cell location.i location.j

/-- The `while` loop of `searchForNextSelectablePos`; `none` when the fuel runs out. -/
def skipLoop (isCellNavigable : Cell → Int → Int → Bool) (data : Grid) (offsets : Loc) :
    Nat → Loc → Option Loc
  | 0, _ => none
  | fuel + 1, newLocation =>
    if definedNotNavigable isCellNavigable data newLocation then
      skipLoop isCellNavigable data offsets fuel (advanceOffset offsets newLocation)
    else some newLocation

/-- The final `if / else if / else` of `searchForNextSelectablePos`; `recurse` is the
recursive call. -/
def settle (isCellNavigable : Cell → Int → Int → Bool) (data : Grid)
    (recurse : Loc → Run (Option Loc)) (newLocation : Loc) : Run (Option Loc) :=
  if definedNotNavigable isCellNavigable data newLocation then recurse newLocation
  else if isCellDefined data newLocation then .done (some newLocation)
  else .done none

/-- The method `searchForNextSelectablePos`.  Each loop iteration and each recursive call
uses fuel; `Run.outOfFuel` is returned when it runs out. -/
def searchForNextSelectablePos (fuel : Nat) (isCellNavigable : Cell → Int → Int → Bool)
    (data : Grid) (start offsets : Loc) (jumpRow : Bool) : Run (Option Loc) :=
  match fuel with
  | 0 => .outOfFuel
  | fuel + 1 =>
    match skipLoop isCellNavigable data offsets fuel (advanceOffset offsets start) with
    | none => .outOfFuel
    | some newLocation =>
      if !isCellDefined data newLocation then
        if !jumpRow then .done none
        else if offsets.j < 0 then
          match previousRow data newLocation with
          | none => .typeError
          | some wrapped =>
            settle isCellNavigable data
              (fun l => searchForNextSelectablePos fuel isCellNavigable data l offsets jumpRow)
              wrapped
        else
          settle isCellNavigable data
            (fun l => searchForNextSelectablePos fuel isCellNavigable data l offsets jumpRow)
            (nextRow newLocation)
      else
        settle isCellNavigable data
          (fun l => searchForNextSelectablePos fuel isCellNavigable data l offsets jumpRow)
          newLocation

/-! ## Numbers with a missing value -/

/-- `a <= b`: false when either side is missing. -/
def jsLe (a b : Num) : Bool :=
  match a, b with
  | some x, some y => decide (x ≤ y)
  | _, _ => false

/-- `a < b`: false when either side is missing. -/
def jsLt (a b : Num) : Bool :=
  match a, b with
  | some x, some y => decide (x < y)
  | _, _ => false

/-- `a >= b`. -/
def jsGe (a b : Num) : Bool := jsLe b a

/-- `a > b`. -/
def jsGt (a b : Num) : Bool := jsLt b a

/-- `a === b` on numbers: a missing value equals nothing. -/
def jsEq (a b : Num) : Bool :=
  match a, b with
  | some x, some y => decide (x = y)
  | _, _ => false

/-- `Math.min(a, b)`. -/
def jsMin (a b : Num) : Num :=
  match a, b with
  | some x, some y => some (min x y)
  | _, _ => none

/-- `Math.max(a, b)`. -/
def jsMax (a b : Num) : Num :=
  match a, b with
  | some x, some y => some (max x y)
  | _, _ => none

/-- `a + b`. -/
def jsAdd (a b : Num) : Num :=
  match a, b with
  | some x, some y => some (x + y)
  | _, _ => none

/-- `a - b`. -/
def jsSub (a b : Num) : Num :=
  match a, b with
  | some x, some y => some (x - y)
  | _, _ => none

/-- `Math.abs(a)`. -/
def jsAbs (a : Num) : Num := a.map fun x => |x|

/-- Truthiness of a number: defined and non-zero. -/
def jsTruthy (a : Num) : Bool :=
  match a with
  | some x => decide (x ≠ 0)
  | none => false

/-- ToUint32, the bit pattern the bitwise operators work on: the number modulo `2 ^ 32`;
a missing value becomes `0`. -/
def toUint32 (a : Num) : Nat :=
  match a with
  | some x => (x % 4294967296).toNat
  | none => 0

/-- Bitwise `a | b` on numbers: the 32-bit patterns are or-ed and the result is read as a
signed 32-bit integer, in `[-2 ^ 31, 2 ^ 31)`. -/
def jsBitOr (a b : Num) : Int :=
  let bits := toUint32 a ||| toUint32 b
  if bits < 2147483648 then (bits : Int) else (bits : Int) - 4294967296

/-! ## Utilities: `isEmpty`, `range`, `defaultParsePaste` -/

/-- Position object held in the state: `{ i, j }`, either field possibly `NaN`. -/
structure Pos where
  i : Num
  j : Num
deriving DecidableEq, Repr

/-- The object `{ i, j }` built from two integers. -/
def Pos.ofInts (i j : Int) : Pos := ⟨some i, some j⟩

/-- Field read `p.i` on a position that may be the empty object `{}`. -/
def coordI (p : Option Pos) : Num := p.bind Pos.i

/-- Field read `p.j` on a position that may be the empty object `{}`. -/
def coordJ (p : Option Pos) : Num := p.bind Pos.j

/-- `isEmpty` on a position object: `none` is `{}`. -/
def isEmpty (p : Option Pos) : Bool := p.isNone

/-- The `for` loop of `range`: `inc ? push : unshift` while the bound test holds. -/
def rangeLoop (inc : Bool) (end_ : Int) : Nat → Int → List Int → List Int
  | 0, _, array => array
  | fuel + 1, i, array =>
    if (if inc then decide (i ≤ end_) else decide (i ≥ end_)) then
      rangeLoop inc end_ fuel (if inc then i + 1 else i - 1)
        (if inc then array ++ [i] else i :: array)
    else array

/-- `range(start, end)`: with a missing bound the loop test fails at once; otherwise
the loop runs `|end - start| + 1` times. -/
def range (start end_ : Num) : List Int :=
  match start, end_ with
  | some a, some b => rangeLoop (decide (b - a > 0)) b ((b - a).natAbs + 1) a []
  | _, _ => []

/-- Tab character. -/
def TAB : Char := Char.ofNat 9

/-- Line feed character. -/
def LF : Char := Char.ofNat 10

/-- Carriage return character. -/
def CR : Char := Char.ofNat 13

/-- `Array.prototype.join(sep)` on texts. -/
def join (sep : Text) : List Text → Text
  | [] => []
  | [x] => x
  | x :: y :: rest => x ++ sep ++ join sep (y :: rest)

/-- Puts `x` in front of the first piece of a split. -/
def prependToHead (x : Text) : List Text → List Text
  | [] => [x]
  | piece :: rest => (x ++ piece) :: rest

/-- `row.split('\t')`. -/
def splitTab : Text → List Text
  | [] => [[]]
  | c :: cs => if c = TAB then [] :: splitTab cs else prependToHead [c] (splitTab cs)

/-- `str.split(/\r\n|\n|\r/)`: at a carriage return the alternative `\r\n` is tried
first. -/
def splitLines : Text → List Text
  | [] => [[]]
  | [c] => if c = CR ∨ c = LF then [[], []] else [[c]]
  | c :: d :: ds =>
    if c = CR ∧ d = LF then [] :: splitLines ds
    else if c = CR ∨ c = LF then [] :: splitLines (d :: ds)
    else prependToHead [c] (splitLines (d :: ds))

/-- `defaultParsePaste`. -/
def defaultParsePaste (str : Text) : List (List Text) :=
  (splitLines str).map splitTab

/-! ## Props, state and callbacks -/

/-- Entry `{ cell, row, col, value }` of the list handed to `onCellsChanged`. -/
structure Change where
  cell : Cell
  row : Int
  col : Int
  value : Text
deriving DecidableEq, Repr

/-- Entry `{ row, col, value }` of the additions handed to `onCellsChanged`. -/
structure Addition where
  row : Num
  col : Num
  value : Text
deriving DecidableEq, Repr

/-- Entry `{ cell, data }` handed to `onPaste`. -/
structure Pasted where
  cell : Option Cell
  data : Text
deriving DecidableEq, Repr

/-- Call made on a callback of the props, or a write to the clipboard. -/
inductive Call where
  | onCellsChanged (changes : List Change) (additions : Option (List Addition))
  | onPaste (changes : List (List Pasted))
  | onChange (cell : Cell) (row col : Int) (value : Text)
  | onSelect (start end_ : Option Pos)
  | setClipboard (text : Text)
deriving DecidableEq, Repr

/-- The props the core reads.  A callback is recorded by whether it is supplied; the
renderers and the predicate are functions. `selected` is `some` exactly when the key
`selected` is in the props, holding its `start` and `end`. -/
structure Props where
  data : Grid
  onCellsChanged : Bool
  onPaste : Bool
  onChange : Bool
  onSelect : Bool
  selected : Option (Option Pos × Option Pos)
  isCellNavigable : Option (Cell → Int → Int → Bool)
  dataRenderer : Option (Option Cell → Int → Int → Option Text)
  valueRenderer : Option Cell → Int → Int → Text
  parsePaste : Option (Text → List (List Text))

/-- Copydown target `{}`, `{ i: d }` or `{ j: d }`: each key may be absent, and a present
key holds a number or `NaN`. -/
structure CopydownTarget where
  i : Option Num
  j : Option Num
deriving DecidableEq, Repr

/-- The empty target `{}`. -/
def CopydownTarget.empty : CopydownTarget := ⟨none, none⟩

/-- `isEmpty` on a copydown target. -/
def CopydownTarget.isEmpty (t : CopydownTarget) : Bool := t.i.isNone && t.j.isNone

/-- Component state. -/
structure State where
  start : Option Pos
  end_ : Option Pos
  selecting : Bool
  copydownDragging : Bool
  copydownTarget : CopydownTarget
  forceEdit : Bool
  editing : Option Pos
  clear : Option Pos
deriving DecidableEq, Repr

/-- `this.defaultState`. -/
def defaultState : State :=
  { start := none, end_ := none, selecting := false, copydownDragging := false,
    copydownTarget := CopydownTarget.empty, forceEdit := false, editing := none,
    clear := none }

/-- `isSelectionControlled`. -/
def isSelectionControlled (props : Props) : Bool := props.selected.isSome

/-- `getState`: under a controlled selection the corners come from the props. -/
def getState (props : Props) (state : State) : State :=
  match props.selected with
  | some (start, end_) => { state with start := start, end_ := end_ }
  | none => state

/-- Object handed to `_setState`: each key may be absent. -/
structure Patch where
  start : Option (Option Pos)
  end_ : Option (Option Pos)
  selecting : Option Bool
  copydownDragging : Option Bool
  copydownTarget : Option CopydownTarget
  forceEdit : Option Bool
  editing : Option (Option Pos)
  clear : Option (Option Pos)

/-- Patch with no key. -/
def Patch.none : Patch := ⟨.none, .none, .none, .none, .none, .none, .none, .none⟩

/-- `this.setState(patch)`: the keys present overwrite the state. -/
def setState (state : State) (p : Patch) : State :=
  { start := p.start.getD state.start
    end_ := p.end_.getD state.end_
    selecting := p.selecting.getD state.selecting
    copydownDragging := p.copydownDragging.getD state.copydownDragging
    copydownTarget := p.copydownTarget.getD state.copydownTarget
    forceEdit := p.forceEdit.getD state.forceEdit
    editing := p.editing.getD state.editing
    clear := p.clear.getD state.clear }

/-- `_setState`: under a controlled selection a patch carrying `start` or `end` is
reported through `onSelect` and only the other keys reach the state. -/
def _setState (props : Props) (state : State) (p : Patch) : State × List Call :=
  if isSelectionControlled props && (p.start.isSome || p.end_.isSome) then
    let selected := props.selected.getD (.none, .none)
    let start := p.start.getD selected.1
    let end_ := p.end_.getD selected.2
    (setState state { p with start := .none, end_ := .none },
      if props.onSelect then [Call.onSelect start end_] else [])
  else (setState state p, [])

/-- `onRevert`. -/
def onRevert (props : Props) (state : State) : State × List Call :=
  _setState props state { Patch.none with editing := some .none }

/-! ## Selection predicates -/

/-- `isSelected(i, j)`. -/
def isSelected (props : Props) (state : State) (i j : Int) : Bool :=
  let s := getState props state
  let posX := jsGe (some j) (coordJ s.start) && jsLe (some j) (coordJ s.end_)
  let negX := jsLe (some j) (coordJ s.start) && jsGe (some j) (coordJ s.end_)
  let posY := jsGe (some i) (coordI s.start) && jsLe (some i) (coordI s.end_)
  let negY := jsLe (some i) (coordI s.start) && jsGe (some i) (coordI s.end_)
  (posX && posY) || (negX && posY) || (negX && negY) || (posX && negY)

/-- `isSingleSelected(i, j)`. -/
def isSingleSelected (props : Props) (state : State) (i j : Int) : Bool :=
  let s := getState props state
  jsEq (some i) (coordI s.start) && jsEq (some i) (coordI s.end_) &&
    jsEq (some j) (coordJ s.start) && jsEq (some j) (coordJ s.end_)

/-! ## Clipboard: `handleCopy`, `handlePaste` -/

/-- Runs `f` over a list in order, stopping at the first failure. -/
def Run.mapList {α β : Type} (f : α → Run β) : List α → Run (List β)
  | [] => .done []
  | a :: rest =>
    match f a with
    | .done b =>
      match Run.mapList f rest with
      | .done bs => .done (b :: bs)
      | .typeError => .typeError
      | .outOfFuel => .outOfFuel
    | .typeError => .typeError
    | .outOfFuel => .outOfFuel

/-- Effective text of a cell in `handleCopy`: the value of `dataRenderer`, unless there is
no `dataRenderer` or it gives `''`, `null` or `undefined`; then that of `valueRenderer`. -/
def effectiveText (props : Props) (cell : Option Cell) (i j : Int) : Text :=
  let value := match props.dataRenderer with
    | some dataRenderer => dataRenderer cell i j
    | none => none
  match value with
  | none => props.valueRenderer cell i j
  | some [] => props.valueRenderer cell i j
  | some v => v

/-- Body of the inner `map` of `handleCopy`: the text copied for position `(i, j)`.
`data[i][j]` throws when `data` has no row `i`; the cell itself may be `undefined`. -/
def copyCell (props : Props) (i j : Int) : Run Text :=
  match rowAt props.data i with
  | none => .typeError
  | some row => .done (effectiveText props (index row j) i j)

/-- `handleCopy`: nothing happens while a cell is being edited; otherwise the rows of the
selection are tab-joined, the lines newline-joined, and the text set on the clipboard. -/
def handleCopy (props : Props) (state : State) : Run (List Call) :=
  if isEmpty state.editing then
    let s := getState props state
    match Run.mapList (fun i =>
        match Run.mapList (fun j => copyCell props i j)
            (range (coordJ s.start) (coordJ s.end_)) with
        | .done texts => .done (join [TAB] texts)
        | .typeError => .typeError
        | .outOfFuel => .outOfFuel)
        (range (coordI s.start) (coordI s.end_)) with
    | .done lines => .done [Call.setClipboard (join [LF] lines)]
    | .typeError => .typeError
    | .outOfFuel => .outOfFuel
  else .done []

/-- Guarded read `data[i] && data[i][j]` at a position whose fields may be `NaN`. -/
def cellAtNum (data : Grid) (i j : Num) : Option Cell :=
  match i, j with
  | some r, some c => cellAt data r c
  | _, _ => none

/-- What the `forEach` loops of `handlePaste` carry: the lists built so far and the
variable `end`. -/
structure PasteAcc where
  changes : List Change
  additions : List Addition
  pasted : List (List Pasted)
  calls : List Call
  end_ : Pos

/-- Inner `forEach` of the `onCellsChanged` branch, from column offset `j` on. -/
def pasteCellsRow (data : Grid) (start : Pos) (i : Nat) :
    List Text → Nat → PasteAcc → PasteAcc
  | [], _, acc => acc
  | value :: rest, j, acc =>
    let e : Pos := ⟨jsAdd start.i (some (i : Int)), jsAdd start.j (some (j : Int))⟩
    let acc2 : PasteAcc :=
      match e.i, e.j with
      | some r, some c =>
        match cellAt data r c with
        | none => { acc with additions := acc.additions ++ [⟨e.i, e.j, value⟩], end_ := e }
        | some cell =>
          if !cell.readOnly then
            { acc with changes := acc.changes ++ [⟨cell, r, c, value⟩], end_ := e }
          else { acc with end_ := e }
      | _, _ => { acc with additions := acc.additions ++ [⟨e.i, e.j, value⟩], end_ := e }
    pasteCellsRow data start i rest (j + 1) acc2

/-- Outer `forEach` of the `onCellsChanged` branch, from row offset `i` on. -/
def pasteCellsRows (data : Grid) (start : Pos) :
    List (List Text) → Nat → PasteAcc → PasteAcc
  | [], _, acc => acc
  | row :: rest, i, acc =>
    pasteCellsRows data start rest (i + 1) (pasteCellsRow data start i row 0 acc)

/-- Inner `forEach` of the `onPaste` branch: returns `rowData` and the variable `end`. -/
def pasteDataRow (data : Grid) (start : Pos) (i : Nat) :
    List Text → Nat → List Pasted × Pos → List Pasted × Pos
  | [], _, acc => acc
  | pastedData :: rest, j, acc =>
    let e : Pos := ⟨jsAdd start.i (some (i : Int)), jsAdd start.j (some (j : Int))⟩
    pasteDataRow data start i rest (j + 1) (acc.1 ++ [⟨cellAtNum data e.i e.j, pastedData⟩], e)

/-- Outer `forEach` of the `onPaste` branch. -/
def pasteDataRows (data : Grid) (start : Pos) :
    List (List Text) → Nat → PasteAcc → PasteAcc
  | [], _, acc => acc
  | row :: rest, i, acc =>
    let r := pasteDataRow data start i row 0 ([], acc.end_)
    pasteDataRows data start rest (i + 1) { acc with pasted := acc.pasted ++ [r.1], end_ := r.2 }

/-- Inner `forEach` of the `onChange` branch. -/
def pasteChangeRow (data : Grid) (start : Pos) (i : Nat) :
    List Text → Nat → PasteAcc → PasteAcc
  | [], _, acc => acc
  | value :: rest, j, acc =>
    let e : Pos := ⟨jsAdd start.i (some (i : Int)), jsAdd start.j (some (j : Int))⟩
    let acc2 : PasteAcc :=
      match e.i, e.j with
      | some r, some c =>
        match cellAt data r c with
        | some cell =>
          if !cell.readOnly then
            { acc with calls := acc.calls ++ [Call.onChange cell r c value], end_ := e }
          else { acc with end_ := e }
        | none => { acc with end_ := e }
      | _, _ => { acc with end_ := e }
    pasteChangeRow data start i rest (j + 1) acc2

/-- Outer `forEach` of the `onChange` branch. -/
def pasteChangeRows (data : Grid) (start : Pos) :
    List (List Text) → Nat → PasteAcc → PasteAcc
  | [], _, acc => acc
  | row :: rest, i, acc =>
    pasteChangeRows data start rest (i + 1) (pasteChangeRow data start i row 0 acc)

/-- The corner `start` as `handlePaste` rebinds it: the per-axis minimum. -/
def pasteStart (start end_ : Option Pos) : Pos :=
  ⟨jsMin (coordI start) (coordI end_), jsMin (coordJ start) (coordJ end_)⟩

/-- The corner `end` as `handlePaste` rebinds it; `start` here is already the rebound
one. -/
def pasteEnd (start : Pos) (end_ : Option Pos) : Pos :=
  ⟨jsMax start.i (coordI end_), jsMax start.j (coordJ end_)⟩

/-- The variable `pasteData` of `handlePaste`: the clipboard text parsed by
`this.props.parsePaste || defaultParsePaste`, or `[]` without a clipboard interface. -/
def pasteDataOf (props : Props) (clipboard : Option Text) : List (List Text) :=
  match clipboard with
  | some text => (props.parsePaste.getD defaultParsePaste) text
  | none => []

/-- `handlePaste`; `clipboard` is the text read from the event, `none` when neither
clipboard interface is there.  Nothing happens while a cell is being edited. -/
def handlePaste (props : Props) (state : State) (clipboard : Option Text) :
    State × List Call :=
  if isEmpty state.editing then
    let s := getState props state
    let start := pasteStart s.start s.end_
    let end_ := pasteEnd start s.end_
    let pasteData := pasteDataOf props clipboard
    let acc0 : PasteAcc := ⟨[], [], [], [], end_⟩
    let result : PasteAcc × List Call :=
      if props.onCellsChanged then
        let acc := pasteCellsRows props.data start pasteData 0 acc0
        (acc, if acc.additions.length ≠ 0 then
                [Call.onCellsChanged acc.changes (some acc.additions)]
              else [Call.onCellsChanged acc.changes none])
      else if props.onPaste then
        let acc := pasteDataRows props.data start pasteData 0 acc0
        (acc, [Call.onPaste acc.pasted])
      else if props.onChange then
        let acc := pasteChangeRows props.data start pasteData 0 acc0
        (acc, acc.calls)
      else (acc0, [])
    let after := _setState props state { Patch.none with end_ := some (some result.1.end_) }
    (after.1, result.2 ++ after.2)
  else (state, [])

/-! ## Clearing: `getSelectedCells`, `clearSelectedCells` -/

/-- Entry `{ cell, row, col }` of the list built by `getSelectedCells`. -/
structure SelectedCell where
  cell : Cell
  row : Int
  col : Int
deriving DecidableEq, Repr

/-- `getSelectedCells`: the existing cells of the rectangle with their positions. -/
def getSelectedCells (data : Grid) (start end_ : Option Pos) : List SelectedCell :=
  ((range (coordI start) (coordI end_)).map fun row =>
    (range (coordJ start) (coordJ end_)).filterMap fun col =>
      (cellAt data row col).map fun cell => (⟨cell, row, col⟩ : SelectedCell)).flatten

/-- The list `cells` of `clearSelectedCells`: the selected cells that are not read-only,
each with value `''`. -/
def clearedCells (data : Grid) (start end_ : Option Pos) : List Change :=
  ((getSelectedCells data start end_).filter fun c => !c.cell.readOnly).map
    fun c => (⟨c.cell, c.row, c.col, []⟩ : Change)

/-- `clearSelectedCells`: `cells` goes to `onCellsChanged` in one call, else to `onChange`
one cell at a time (on the next tick); then `onRevert`. -/
def clearSelectedCells (props : Props) (state : State) (start end_ : Option Pos) :
    State × List Call :=
  let cells := clearedCells props.data start end_
  if props.onCellsChanged then
    let after := onRevert props state
    (after.1, [Call.onCellsChanged cells none] ++ after.2)
  else if props.onChange then
    let after := onRevert props state
    (after.1, (cells.map fun c => Call.onChange c.cell c.row c.col c.value) ++ after.2)
  else (state, [])

/-! ## Mouse events and copydown -/

/-- Local `calculateCopydownTarget` of `onMouseOver`, for the corners `start`, `end` of
`this.state` and the hovered cell `(i, j)`. -/
def calculateCopydownTarget (start end_ : Option Pos) (i j : Int) : CopydownTarget :=
  let smallestI := jsMin (coordI start) (coordI end_)
  let largestI := jsMax (coordI start) (coordI end_)
  let smallestJ := jsMin (coordJ start) (coordJ end_)
  let largestJ := jsMax (coordJ start) (coordJ end_)
  let iWithinSelection := jsGe (some i) smallestI && jsLe (some i) largestI
  let jWithinSelection := jsGe (some j) smallestJ && jsLe (some j) largestJ
  if iWithinSelection && jWithinSelection then CopydownTarget.empty
  else
    let deltaI := if jsLt (some i) smallestI then jsSub (some i) smallestI
      else jsSub (some i) largestI
    let deltaJ := if jsLt (some j) smallestJ then jsSub (some j) smallestJ
      else jsSub (some j) largestJ
    if iWithinSelection then ⟨none, some deltaJ⟩
    else if jWithinSelection then ⟨some deltaI, none⟩
    else if jsGe (jsAbs deltaI) (jsAbs deltaJ) then ⟨some deltaI, none⟩
    else ⟨none, some deltaJ⟩

/-- `onMouseDown(i, j, e)`, with the two flags read from the event.  The document
listeners it registers are not part of the state. -/
def onMouseDown (props : Props) (state : State) (i j : Int)
    (shiftKey fromCopydownHandle : Bool) : State × List Call :=
  let isNowEditingSameCell := !isEmpty state.editing &&
    jsEq (coordI state.editing) (some i) && jsEq (coordJ state.editing) (some j)
  let editing : Option Pos :=
    if isEmpty state.editing || !jsEq (coordI state.editing) (some i) ||
        !jsEq (coordJ state.editing) (some j) then none
    else state.editing
  _setState props state
    { selecting := some (!isNowEditingSameCell && !fromCopydownHandle)
      copydownDragging := some fromCopydownHandle
      start := some (if shiftKey || fromCopydownHandle then state.start
        else some (Pos.ofInts i j))
      end_ := some (if fromCopydownHandle then state.end_ else some (Pos.ofInts i j))
      editing := some editing
      forceEdit := some isNowEditingSameCell
      copydownTarget := none
      clear := none }

/-- `onMouseOver(i, j)`: both updates read the state as it was when the handler began. -/
def onMouseOver (props : Props) (state : State) (i j : Int) : State × List Call :=
  let first : State × List Call :=
    if state.selecting && isEmpty state.editing then
      _setState props state { Patch.none with end_ := some (some (Pos.ofInts i j)) }
    else (state, [])
  if state.copydownDragging then
    let target := calculateCopydownTarget state.start state.end_ i j
    let second := _setState props first.1 { Patch.none with copydownTarget := some target }
    (second.1, first.2 ++ second.2)
  else first

/-- The `for` loop of `onMouseUp`, `count` iterations from `x`: reading the target cell
throws when it does not exist; a cell that is not read-only gets a change. -/
def copydownLoop (data : Grid) (isVertical : Bool) (constantCoord : Int) (value : Text) :
    Nat → Int → List Change → Run (List Change)
  | 0, _, changes => .done changes
  | count + 1, x, changes =>
    let row := if isVertical then x else constantCoord
    let col := if isVertical then constantCoord else x
    match cellAt data row col with
    | none => .typeError
    | some cell =>
      copydownLoop data isVertical constantCoord value count (x + 1)
        (if !cell.readOnly then changes ++ [⟨cell, row, col, value⟩] else changes)

/-- `onMouseUp`: a copydown drag with a non-empty target fans the value of the cell at
`this.state.start` over the target range and hands the changes, when there are any, to
`onCellsChanged`; then the drag state is reset.  A thrown `TypeError` leaves the state
as it was. -/
def onMouseUp (props : Props) (state : State) : Run (State × List Call) :=
  let reset : Patch := { Patch.none with
    selecting := some false, copydownDragging := some false,
    copydownTarget := some CopydownTarget.empty }
  if state.copydownDragging && !state.copydownTarget.isEmpty then
    let isVertical := jsTruthy state.copydownTarget.i.join
    match coordI state.start, coordJ state.start with
    | some si, some sj =>
      match cellAt props.data si sj with
      | none => .typeError
      | some source =>
        let constantCoord := if isVertical then sj else si
        let offset := jsBitOr state.copydownTarget.i.join state.copydownTarget.j.join
        let startingPoint :=
          if isVertical then (if offset > 0 then si + 1 else si + offset)
          else (if offset > 0 then sj + 1 else sj + offset)
        let max :=
          if isVertical then (if offset > 0 then si + offset else si - 1)
          else (if offset > 0 then sj + offset else sj - 1)
        match copydownLoop props.data isVertical constantCoord source.value
            (max - startingPoint + 1).toNat startingPoint [] with
        | .done changes =>
          if changes.length ≠ 0 then
            if props.onCellsChanged then
              let after := _setState props state reset
              .done (after.1, [Call.onCellsChanged changes none] ++ after.2)
            else .typeError
          else .done (_setState props state reset)
        | .typeError => .typeError
        | .outOfFuel => .outOfFuel
    | _, _ => .typeError
  else .done (_setState props state reset)

/-! ## Sample data -/

/-- Plain editable cell holding `v`. -/
def mkCell (v : Text) : Cell := ⟨v, false, false, false⟩

/-- Read-only cell holding `v`. -/
def mkReadOnly (v : Text) : Cell := ⟨v, true, false, false⟩

/-- Two rows of two cells, the cell at `(0, 1)` read-only. -/
def gridReadOnly : Grid :=
  [[mkCell ['a'], mkReadOnly ['b']], [mkCell ['c'], mkCell ['d']]]

/-- Three rows of one cell, the top one holding `"x"`. -/
def gridColumn : Grid := [[mkCell ['x']], [mkCell ['y']], [mkCell ['z']]]

/-- Two rows of one cell, `"x"` above a read-only cell. -/
def gridLocked : Grid := [[mkCell ['x']], [mkReadOnly ['y']]]

/-- One row of three cells. -/
def gridRow3 : Grid := [[mkCell ['a'], mkCell ['b'], mkCell ['c']]]

/-- Two rows of two cells, `[["a","b"],["c","d"]]`. -/
def grid2x2 : Grid := [[mkCell ['a'], mkCell ['b']], [mkCell ['c'], mkCell ['d']]]

/-- A header row above one data row, one column. -/
def gridHeader : Grid := [[mkCell ['h']], [mkCell ['x']]]

/-- A single cell. -/
def grid1x1 : Grid := [[mkCell ['x']]]

/-- Navigability predicate rejecting column 1. -/
def notColumn1 : Cell → Int → Int → Bool := fun _ _ j => j != 1

/-- Navigability predicate rejecting the header row 0. -/
def belowHeader : Cell → Int → Int → Bool := fun _ i _ => decide (0 < i)

/-- Navigability predicate rejecting every cell. -/
def rejectAll : Cell → Int → Int → Bool := fun _ _ _ => false

/-! ## Vocabulary of the statements -/

/-- Rectangular grid: `rows` rows, each of `cols` cells. -/
def Rectangular (data : Grid) (rows cols : Nat) : Prop :=
  data.length = rows ∧ ∀ row ∈ data, row.length = cols

/-- Position inside a `rows` by `cols` grid. -/
def InBounds (rows cols : Nat) (l : Loc) : Prop :=
  0 ≤ l.i ∧ l.i < rows ∧ 0 ≤ l.j ∧ l.j < cols

/-- The four unit offsets. -/
def UnitOffset (o : Loc) : Prop :=
  o = ⟨0, 1⟩ ∨ o = ⟨0, -1⟩ ∨ o = ⟨1, 0⟩ ∨ o = ⟨-1, 0⟩

/-- The position `start + k * offsets`. -/
def stepK (start offsets : Loc) (k : Nat) : Loc :=
  ⟨start.i + k * offsets.i, start.j + k * offsets.j⟩

/-- The cell at `l` exists and the navigability predicate accepts it. -/
def NavigableAt (isCellNavigable : Cell → Int → Int → Bool) (data : Grid) (l : Loc) : Prop :=
  ∃ cell, cellAt data l.i l.j = some cell ∧ isCellNavigable cell l.i l.j = true

/-- The integers from `lo` to `hi`, ascending; empty when `hi < lo`. -/
def span (lo hi : Int) : List Int :=
  (List.range (hi + 1 - lo).toNat).map fun (k : Nat) => lo + (k : Int)

/-- Text without tab, carriage return or line feed. -/
def PlainText (t : Text) : Prop := TAB ∉ t ∧ CR ∉ t ∧ LF ∉ t

/-- Props with the value renderer showing the cell value and one batch callback. -/
def sampleProps (data : Grid) : Props :=
  { data := data, onCellsChanged := true, onPaste := false, onChange := false,
    onSelect := false, selected := none, isCellNavigable := none, dataRenderer := none,
    valueRenderer := fun cell _ _ => (cell.map Cell.value).getD [], parsePaste := none }

/-- State with the selection from `(a, b)` to `(c, d)` and nothing else going on. -/
def selectionState (a b c d : Int) : State :=
  { defaultState with start := some (Pos.ofInts a b), end_ := some (Pos.ofInts c d) }

/-- State of a copydown drag from the single selected cell `(r, c)` with the given
target. -/
def copydownState (r c : Int) (target : CopydownTarget) : State :=
  { defaultState with
    start := some (Pos.ofInts r c), end_ := some (Pos.ofInts r c),
    copydownDragging := true, copydownTarget := target }

/-- The fill asked of a copydown release: for `x` from `lo` to `hi` ascending, the
position `(x, c)` of a vertical fill, `(r, x)` of a horizontal one, gets `value` when it
holds a cell that is not read-only. -/
def fillChanges (data : Grid) (vertical : Bool) (r c : Int) (value : Text) (lo hi : Int) :
    List Change :=
  (span lo hi).filterMap fun x =>
    match cellAt data (if vertical then x else r) (if vertical then c else x) with
    | some cell =>
      if cell.readOnly then none
      else some ⟨cell, if vertical then x else r, if vertical then c else x, value⟩
    | none => none

/-- Props with a controlled selection on the single cell `(0, 0)`. -/
def controlledProps (data : Grid) : Props :=
  { sampleProps data with
    selected := some (some (Pos.ofInts 0 0), some (Pos.ofInts 0 0)), onSelect := true }

/-- State with the cell `(0, 0)` selected and being edited. -/
def editingState : State :=
  { selectionState 0 0 0 0 with editing := some (Pos.ofInts 0 0) }

/-- The pasted grid holds `v` at row offset `i`, column offset `j`. -/
def PastedAt (pasteData : List (List Text)) (i j : Nat) (v : Text) : Prop :=
  ∃ row, pasteData[i]? = some row ∧ row[j]? = some v

/-- The values of one pasted row with their offsets, from column offset `j` on. -/
def rowEntries (i : Nat) : List Text → Nat → List (Nat × Nat × Text)
  | [], _ => []
  | v :: rest, j => (i, j, v) :: rowEntries i rest (j + 1)

/-- The values of a pasted grid with their offsets, in row-major order, from row offset
`i` on. -/
def gridEntries : List (List Text) → Nat → List (Nat × Nat × Text)
  | [], _ => []
  | row :: rest, i => rowEntries i row 0 ++ gridEntries rest (i + 1)

/-- The update a pasted value gives at the corner `(r0, c0)`: one when its target holds a
cell that is not read-only. -/
def toChange (data : Grid) (r0 c0 : Int) (e : Nat × Nat × Text) : Option Change :=
  match cellAt data (r0 + e.1) (c0 + e.2.1) with
  | some cell =>
    if cell.readOnly then none else some ⟨cell, r0 + e.1, c0 + e.2.1, e.2.2⟩
  | none => none

/-- The addition a pasted value gives at the corner `(r0, c0)`: one when its target holds
no cell. -/
def toAddition (data : Grid) (r0 c0 : Int) (e : Nat × Nat × Text) : Option Addition :=
  match cellAt data (r0 + e.1) (c0 + e.2.1) with
  | some _ => none
  | none => some ⟨some (r0 + e.1), some (c0 + e.2.1), e.2.2⟩

/-- Row-major order on positions: earlier row, or same row and earlier column. -/
def rowMajorLt (a b : Loc) : Prop :=
  a.i < b.i ∨ (a.i = b.i ∧ a.j < b.j)

/-- `r` is the first in-bounds navigable cell strictly after `start` in row-major order,
or null when there is none. -/
def FirstAfter (isCellNavigable : Cell → Int → Int → Bool) (data : Grid) (rows cols : Nat)
    (start : Loc) (r : Option Loc) : Prop :=
  match r with
  | some l =>
    InBounds rows cols l ∧ NavigableAt isCellNavigable data l ∧ rowMajorLt start l ∧
      ∀ l2, InBounds rows cols l2 → NavigableAt isCellNavigable data l2 →
        rowMajorLt start l2 → ¬ rowMajorLt l2 l
  | none =>
    ∀ l2, InBounds rows cols l2 → NavigableAt isCellNavigable data l2 → ¬ rowMajorLt start l2

/-- `r` is the last in-bounds navigable cell strictly before `start` in row-major order,
or null when there is none. -/
def LastBefore (isCellNavigable : Cell → Int → Int → Bool) (data : Grid) (rows cols : Nat)
    (start : Loc) (r : Option Loc) : Prop :=
  match r with
  | some l =>
    InBounds rows cols l ∧ NavigableAt isCellNavigable data l ∧ rowMajorLt l start ∧
      ∀ l2, InBounds rows cols l2 → NavigableAt isCellNavigable data l2 →
        rowMajorLt l2 start → ¬ rowMajorLt l l2
  | none =>
    ∀ l2, InBounds rows cols l2 → NavigableAt isCellNavigable data l2 → ¬ rowMajorLt l2 start

/-! ## Keyboard navigation and editing -/

/-- Modelled from the spec: the constant `TAB_KEY` of `./keys`, a module that is not among
the sources; the value is the DOM key code of the Tab key the spec names. -/
def TAB_KEY : Nat := 9

/-- Modelled from the spec: the constant `ENTER_KEY` of `./keys`; DOM key code of Enter. -/
def ENTER_KEY : Nat := 13

/-- Modelled from the spec: the constant `DELETE_KEY` of `./keys`; DOM key code of
Delete. -/
def DELETE_KEY : Nat := 46

/-- Modelled from the spec: the constant `ESCAPE_KEY` of `./keys`; DOM key code of
Escape. -/
def ESCAPE_KEY : Nat := 27

/-- Modelled from the spec: the constant `BACKSPACE_KEY` of `./keys`; DOM key code of
Backspace. -/
def BACKSPACE_KEY : Nat := 8

/-- Modelled from the spec: the constant `LEFT_KEY` of `./keys`; DOM key code of the left
arrow. -/
def LEFT_KEY : Nat := 37

/-- Modelled from the spec: the constant `UP_KEY` of `./keys`; DOM key code of the up
arrow. -/
def UP_KEY : Nat := 38

/-- Modelled from the spec: the constant `RIGHT_KEY` of `./keys`; DOM key code of the
right arrow. -/
def RIGHT_KEY : Nat := 39

/-- Modelled from the spec: the constant `DOWN_KEY` of `./keys`; DOM key code of the down
arrow. -/
def DOWN_KEY : Nat := 40

/-- What the handlers read from a keyboard event: `e.which || e.keyCode`, the modifier
flags and `e.isPropagationStopped()`. -/
structure KeyEvent where
  keyCode : Nat
  shiftKey : Bool
  ctrlKey : Bool
  metaKey : Bool
  propagationStopped : Bool
deriving DecidableEq, Repr

/-- `searchForNextSelectablePos` called on the corner `start` of the state, whose fields
may be missing.  With a missing field the first `advanceOffset` gives a position that is
not defined, so the loop is not entered: without row wrap the result is null; with row
wrap `previousRow` / `nextRow` replace the column, and the search goes on from an integer
position when the row is a number. -/
def searchFromPos (fuel : Nat) (isCellNavigable : Cell → Int → Int → Bool) (data : Grid)
    (start : Option Pos) (offsets : Loc) (jumpRow : Bool) : Run (Option Loc) :=
  match coordI start, coordJ start with
  | some i, some j => searchForNextSelectablePos fuel isCellNavigable data ⟨i, j⟩ offsets jumpRow
  | some i, none =>
    if !jumpRow then .done none
    else if offsets.j < 0 then
      match previousRow data ⟨i + offsets.i, 0⟩ with
      | none => .typeError
      | some wrapped =>
        settle isCellNavigable data
          (fun l => searchForNextSelectablePos fuel isCellNavigable data l offsets jumpRow)
          wrapped
    else
      settle isCellNavigable data
        (fun l => searchForNextSelectablePos fuel isCellNavigable data l offsets jumpRow)
        (nextRow ⟨i + offsets.i, 0⟩)
  | none, _ =>
    if !jumpRow then .done none
    else if offsets.j < 0 then
      match data.head? with
      | none => .typeError
      | some _ => .done none
    else .done none

/-- `updateLocationSingleCell`. -/
def updateLocationSingleCell (props : Props) (state : State) (location : Loc) :
    State × List Call :=
  _setState props state
    { Patch.none with
      start := some (some (Pos.ofInts location.i location.j))
      end_ := some (some (Pos.ofInts location.i location.j))
      editing := some none }

/-- `updateLocationMultipleCells`: `data[0].length` throws on an empty `data`. -/
def updateLocationMultipleCells (props : Props) (state : State) (offsets : Loc) :
    Run (State × List Call) :=
  let s := getState props state
  match props.data.head? with
  | none => .typeError
  | some row0 =>
    let oldStartLocation : Pos := ⟨coordI s.start, coordJ s.start⟩
    let newEndLocation : Pos :=
      ⟨jsAdd (coordI s.end_) (some offsets.i),
        jsMin (some ((row0.length : Int) - 1))
          (jsMax (some 0) (jsAdd (coordJ s.end_) (some offsets.j)))⟩
    .done (_setState props state
      { Patch.none with
        start := some (some oldStartLocation)
        end_ := some (some newEndLocation)
        editing := some none })

/-- `handleNavigate(e, offsets, jumpRow)`; of the event only `shiftKey` is read. -/
def handleNavigate (fuel : Nat) (props : Props) (state : State) (shiftKey : Bool)
    (offsets : Loc) (jumpRow : Bool) : Run (State × List Call) :=
  if offsets.i ≠ 0 ∨ offsets.j ≠ 0 then
    let multiSelect := shiftKey && !jumpRow
    let isCellNavigable := props.isCellNavigable.getD (fun _ _ _ => true)
    if multiSelect then updateLocationMultipleCells props state offsets
    else
      match searchFromPos fuel isCellNavigable props.data (getState props state).start
          offsets jumpRow with
      | .done (some newLocation) => .done (updateLocationSingleCell props state newLocation)
      | .done none => .done (state, [])
      | .typeError => .typeError
      | .outOfFuel => .outOfFuel
  else .done (state, [])

/-- `handleKeyboardCellMovement(e, commit)`. -/
def handleKeyboardCellMovement (fuel : Nat) (props : Props) (state : State) (e : KeyEvent)
    (commit : Bool) : Run (State × List Call) :=
  let s := getState props state
  let isEditing := !isEmpty s.editing
  let currentCell := cellAtNum props.data (coordI s.start) (coordJ s.start)
  if isEditing && !commit then .done (state, [])
  else
    let hasComponent := match currentCell with
      | some cell => cell.component
      | none => false
    if hasComponent && isEditing then .done (state, [])
    else if e.keyCode = TAB_KEY then
      handleNavigate fuel props state e.shiftKey ⟨0, if e.shiftKey then -1 else 1⟩ true
    else if e.keyCode = RIGHT_KEY then
      handleNavigate fuel props state e.shiftKey ⟨0, 1⟩ false
    else if e.keyCode = LEFT_KEY then
      handleNavigate fuel props state e.shiftKey ⟨0, -1⟩ false
    else if e.keyCode = UP_KEY then
      handleNavigate fuel props state e.shiftKey ⟨-1, 0⟩ false
    else if e.keyCode = DOWN_KEY then
      handleNavigate fuel props state e.shiftKey ⟨1, 0⟩ false
    else if commit && e.keyCode = ENTER_KEY then
      handleNavigate fuel props state e.shiftKey ⟨if e.shiftKey then -1 else 1, 0⟩ true
    else .done (state, [])

/-- The keys that start an edit by typing: digits, letters, Latin-1 supplement, the
number pad and the equation keys of `handleKey`. -/
def printablePressed (keyCode : Nat) : Bool :=
  let numbersPressed := decide (48 ≤ keyCode) && decide (keyCode ≤ 57)
  let lettersPressed := decide (65 ≤ keyCode) && decide (keyCode ≤ 90)
  let latin1Supplement := decide (160 ≤ keyCode) && decide (keyCode ≤ 255)
  let numPadKeysPressed := decide (96 ≤ keyCode) && decide (keyCode ≤ 105)
  let equationKeysPressed := decide (keyCode ∈ [187, 189, 190, 107, 109, 110])
  numbersPressed || numPadKeysPressed || lettersPressed || latin1Supplement ||
    equationKeysPressed

/-- `handleKey(e)`.  `this.props.data[start.i][start.j]` is read as soon as a cell is
selected and throws when `data` has no row `start.i`. -/
def handleKey (fuel : Nat) (props : Props) (state : State) (e : KeyEvent) :
    Run (State × List Call) :=
  if e.propagationStopped then .done (state, [])
  else
    let s := getState props state
    let isEditing := !isEmpty s.editing
    let noCellsSelected := isEmpty s.start
    let ctrlKeyPressed := e.ctrlKey || e.metaKey
    let deleteKeysPressed := decide (e.keyCode = DELETE_KEY) || decide (e.keyCode = BACKSPACE_KEY)
    let enterKeyPressed := decide (e.keyCode = ENTER_KEY)
    if noCellsSelected then .done (state, [])
    else
      match (coordI s.start).bind (rowAt props.data) with
      | none => .typeError
      | some row =>
        let currentCell : Option Cell := (coordJ s.start).bind (index row)
        if ctrlKeyPressed then .done (state, [])
        else if !isEditing then
          match handleKeyboardCellMovement fuel props state e false with
          | .done moved =>
            if deleteKeysPressed then
              let cleared := clearSelectedCells props moved.1 s.start s.end_
              .done (cleared.1, moved.2 ++ cleared.2)
            else
              match currentCell with
              | some cell =>
                if !cell.readOnly then
                  if enterKeyPressed then
                    let after := _setState props moved.1
                      { Patch.none with
                        editing := some s.start, clear := some none, forceEdit := some true }
                    .done (after.1, moved.2 ++ after.2)
                  else if printablePressed e.keyCode then
                    let after := _setState props moved.1
                      { Patch.none with
                        editing := some s.start, clear := some s.start,
                        forceEdit := some false }
                    .done (after.1, moved.2 ++ after.2)
                  else .done moved
                else .done moved
              | none => .done moved
          | .typeError => .typeError
          | .outOfFuel => .outOfFuel
        else .done (state, [])

/-- `handleComponentKey(e)`; the reaction deferred by `setTimeout` is run at once. -/
def handleComponentKey (fuel : Nat) (props : Props) (state : State) (e : KeyEvent) :
    Run (State × List Call) :=
  if e.keyCode ≠ ENTER_KEY ∧ e.keyCode ≠ ESCAPE_KEY ∧ e.keyCode ≠ TAB_KEY then
    .done (state, [])
  else if !isEmpty state.editing then
    match (coordI state.editing).bind (rowAt props.data) with
    | none => .typeError
    | some row =>
      let currentCell : Option Cell := (coordJ state.editing).bind (index row)
      let offset : Int := if e.shiftKey then -1 else 1
      match currentCell with
      | some cell =>
        if cell.component && !cell.forceComponent then
          if e.keyCode = ENTER_KEY then
            handleNavigate fuel props state e.shiftKey ⟨offset, 0⟩ true
          else if e.keyCode = TAB_KEY then
            handleNavigate fuel props state e.shiftKey ⟨0, offset⟩ true
          else .done (onRevert props state)
        else .done (state, [])
      | none => .done (state, [])
  else .done (state, [])

/-- `onDoubleClick(i, j)`: reading `cell.readOnly` throws when there is no such cell. -/
def onDoubleClick (props : Props) (state : State) (i j : Int) : Run (State × List Call) :=
  match cellAt props.data i j with
  | none => .typeError
  | some cell =>
    if !cell.readOnly then
      .done (_setState props state
        { Patch.none with
          editing := some (some (Pos.ofInts i j)), forceEdit := some true,
          clear := some none })
    else .done (state, [])

/-! ## Events -/

/-- Input event of the component. `key` is a key-down on the grid container
(`handleKey`), `navigate` a key handed over by the cell editor
(`handleKeyboardCellMovement(e, true)`), `componentKey` a key-down caught by
`handleComponentKey`. -/
inductive Event where
  | mouseDown (i j : Int) (shiftKey fromCopydownHandle : Bool)
  | mouseOver (i j : Int)
  | mouseUp
  | doubleClick (i j : Int)
  | key (e : KeyEvent)
  | navigate (e : KeyEvent)
  | componentKey (e : KeyEvent)
  | paste (clipboard : Option Text)
deriving DecidableEq, Repr

/-- The handler an event runs.  The `onSelect` notification that `componentDidUpdate`
sends after an uncontrolled change of `end` is not recorded. -/
def step (fuel : Nat) (props : Props) (state : State) : Event → Run (State × List Call)
  | .mouseDown i j shiftKey fromCopydownHandle =>
    .done (onMouseDown props state i j shiftKey fromCopydownHandle)
  | .mouseOver i j => .done (onMouseOver props state i j)
  | .mouseUp => onMouseUp props state
  | .doubleClick i j => onDoubleClick props state i j
  | .key e => handleKey fuel props state e
  | .navigate e => handleKeyboardCellMovement fuel props state e true
  | .componentKey e => handleComponentKey fuel props state e
  | .paste clipboard => .done (handlePaste props state clipboard)

/-- A consumer of `onSelect` that echoes every notified `{ start, end }` back as the
`selected` prop. -/
def echo (props : Props) : List Call → Props
  | [] => props
  | Call.onSelect start end_ :: rest => echo { props with selected := some (start, end_) } rest
  | _ :: rest => echo props rest

/-- Runs a sequence of events; with `echoing` the props are updated by `echo` after each
event.  Returns the final props and state and all the calls made. -/
def runEvents (fuel : Nat) (echoing : Bool) :
    Props → State → List Event → Run (Props × State × List Call)
  | props, state, [] => .done (props, state, [])
  | props, state, ev :: rest =>
    match step fuel props state ev with
    | .done r =>
      match runEvents fuel echoing (if echoing then echo props r.2 else props) r.1 rest with
      | .done out => .done (out.1, out.2.1, r.2 ++ out.2.2)
      | .typeError => .typeError
      | .outOfFuel => .outOfFuel
    | .typeError => .typeError
    | .outOfFuel => .outOfFuel

/-- The calls other than `onSelect`: the mutations handed to the caller. -/
def mutations (calls : List Call) : List Call :=
  calls.filter fun c =>
    match c with
    | Call.onSelect _ _ => false
    | _ => true

/-- What is seen after a run: the selection corners read through `getState`, and the
mutations emitted; `none` when the run threw or did not return. -/
def outcome (r : Run (Props × State × List Call)) :
    Option (Option Pos × Option Pos × List Call) :=
  match r with
  | .done out =>
    some ((getState out.1 out.2.1).start, (getState out.1 out.2.1).end_, mutations out.2.2)
  | .typeError => none
  | .outOfFuel => none

/-- The state after a run; `none` when the run threw or did not return. -/
def finalState (r : Run (Props × State × List Call)) : Option State :=
  match r with
  | .done out => some out.2.1
  | .typeError => none
  | .outOfFuel => none

/-! ## Sample data for the keyboard and the events -/

/-- Props with no callback at all. -/
def noChannelProps (data : Grid) : Props :=
  { sampleProps data with onCellsChanged := false }

/-- Props of a consumer controlling the selection, which starts empty. -/
def echoProps (data : Grid) : Props :=
  { sampleProps data with selected := some (none, none), onSelect := true }

/-- Key-down of `keyCode`, with or without Shift, no other modifier. -/
def keyOf (keyCode : Nat) (shiftKey : Bool) : KeyEvent :=
  ⟨keyCode, shiftKey, false, false, false⟩

/-! ## Vocabulary of the state invariants -/

/-- The corner `p` is empty or denotes an existing cell of the grid. -/
def CornerOk (data : Grid) (p : Option Pos) : Prop :=
  p = none ∨ ∃ i j, p = some (Pos.ofInts i j) ∧ (cellAt data i j).isSome

/-- The location `p` is empty or denotes a cell that is not read-only. -/
def EditableAt (data : Grid) (p : Option Pos) : Prop :=
  p = none ∨ ∃ i j cell, p = some (Pos.ofInts i j) ∧ cellAt data i j = some cell ∧
    cell.readOnly = false

/-- Shift together with an arrow key: the multi-cell extend. -/
def extendsSelection (e : KeyEvent) : Bool :=
  e.shiftKey && (decide (e.keyCode = LEFT_KEY) || decide (e.keyCode = RIGHT_KEY) ||
    decide (e.keyCode = UP_KEY) || decide (e.keyCode = DOWN_KEY))

/-- The events of a single-cell move: mouse-down and mouse-over on existing cells,
mouse-up, double-click, and keys other than Shift+Arrow; no paste. -/
def SingleCellEvent (data : Grid) : Event → Prop
  | .mouseDown i j _ _ => (cellAt data i j).isSome
  | .mouseOver i j => (cellAt data i j).isSome
  | .mouseUp => True
  | .key e => extendsSelection e = false
  | .navigate e => extendsSelection e = false
  | .componentKey _ => True
  | .doubleClick _ _ => True
  | .paste _ => False

/-- The events that can start an edit: a key-down on the grid and a double-click. -/
def StartsEdit : Event → Prop
  | .key _ => True
  | .doubleClick _ _ => True
  | _ => False

/-- States reachable from the initial state over the fixed grid `data`, through events
that `allowed` admits in the state they arrive in.  A step is an event whose handler
returns, with some fuel; the props of a step are any props whose grid is `data`, so the
callbacks and a controlled selection may change between events. -/
inductive Reachable (data : Grid) (allowed : State → Event → Prop) : State → Prop where
  | init : Reachable data allowed defaultState
  | next (fuel : Nat) (props : Props) (s : State) (ev : Event) (r : State × List Call) :
      props.data = data → Reachable data allowed s → allowed s ev →
      step fuel props s ev = Run.done r → Reachable data allowed r.1

/-! ## Copydown highlight and release -/

/-- `isCopydownTargeted(i, j)`: whether the cell `(i, j)` is drawn as part of the copydown
target.  The target and both corners are read from `this.state`.  When neither key of a
non-empty target is truthy the method falls through and returns `undefined`, which is
falsy. -/
def isCopydownTargeted (state : State) (i j : Int) : Bool :=
  if state.copydownTarget.isEmpty then false
  else
    let smallestI := jsMin (coordI state.start) (coordI state.end_)
    let largestI := jsMax (coordI state.start) (coordI state.end_)
    let smallestJ := jsMin (coordJ state.start) (coordJ state.end_)
    let largestJ := jsMax (coordJ state.start) (coordJ state.end_)
    let targetI := state.copydownTarget.i.join
    let targetJ := state.copydownTarget.j.join
    if jsTruthy targetI then
      let jWithinSelection := jsGe (some j) smallestJ && jsLe (some j) largestJ
      let iWithinTarget :=
        if jsGt targetI (some 0) then
          jsGt (some i) largestI && jsLe (some i) (jsAdd largestI targetI)
        else jsLt (some i) smallestI && jsGe (some i) (jsAdd smallestI targetI)
      jWithinSelection && iWithinTarget
    else if jsTruthy targetJ then
      let iWithinSelection := jsGe (some i) smallestI && jsLe (some i) largestI
      let jWithinTarget :=
        if jsGt targetJ (some 0) then
          jsGt (some j) largestJ && jsLe (some j) (jsAdd largestJ targetJ)
        else jsLt (some j) smallestJ && jsGe (some j) (jsAdd smallestJ targetJ)
      iWithinSelection && jWithinTarget
    else false

/-- The positions `(change.row, change.col)` that the `for` loop of `onMouseUp` goes
through, in order: `x` from `startingPoint` to `max`, on the column of `this.state.start`
for a vertical target and on its row for a horizontal one.  There is none when the
release applies no copydown or `start` has a missing field. -/
def copydownVisited (state : State) : List Loc :=
  if state.copydownDragging && !state.copydownTarget.isEmpty then
    let isVertical := jsTruthy state.copydownTarget.i.join
    match coordI state.start, coordJ state.start with
    | some si, some sj =>
      let offset := jsBitOr state.copydownTarget.i.join state.copydownTarget.j.join
      let startingPoint :=
        if isVertical then (if offset > 0 then si + 1 else si + offset)
        else (if offset > 0 then sj + 1 else sj + offset)
      let max :=
        if isVertical then (if offset > 0 then si + offset else si - 1)
        else (if offset > 0 then sj + offset else sj - 1)
      (span startingPoint max).map fun x =>
        if isVertical then (⟨x, sj⟩ : Loc) else ⟨si, x⟩
    | _, _ => []
  else []

/-- The updates `{ cell, row, col, value }` at the given positions: one for each position
holding a cell that is not read-only, in the order of the positions. -/
def updatesAt (data : Grid) (value : Text) (positions : List Loc) : List Change :=
  positions.filterMap fun l =>
    match cellAt data l.i l.j with
    | some cell => if cell.readOnly then none else some ⟨cell, l.i, l.j, value⟩
    | none => none

/-- Signed distance of `x` to the interval from `lo` to `hi`, as `calculateCopydownTarget`
computes it outside the interval: `x - lo` before it, `x - hi` otherwise. -/
def signedDistance (lo hi x : Int) : Int := if x < lo then x - lo else x - hi

/-- Two rows of three cells, the cell at `(0, 2)` read-only. -/
def grid2x3 : Grid :=
  [[mkCell ['a'], mkCell ['b'], mkReadOnly ['c']], [mkCell ['d'], mkCell ['e'], mkCell ['f']]]

/-! ## Vocabulary and sample data for the copied text -/

/-- The text `t` is the effective text of a cell in the words of the specification: what
the raw data renderer yields, when one is supplied and it yields a text that is not
empty; what the display-value renderer yields otherwise. -/
def IsEffectiveText (props : Props) (cell : Option Cell) (i j : Int) (t : Text) : Prop :=
  match props.dataRenderer with
  | some render =>
    (render cell i j = some t ∧ t ≠ []) ∨
    ((render cell i j = none ∨ render cell i j = some []) ∧ props.valueRenderer cell i j = t)
  | none => props.valueRenderer cell i j = t

/-- Props with a data renderer: in column 0 it shows the value behind an equals sign,
elsewhere it yields `''`. -/
def rawProps (data : Grid) : Props :=
  { sampleProps data with
    dataRenderer := some fun cell _ j =>
      if j = 0 then some ('=' :: (cell.map Cell.value).getD []) else some [] }

/-- The effective texts of `grid2x2` under `rawProps`. -/
def grid2x2RawTexts (i j : Int) : Text :=
  if j = 0 then (if i = 0 then ['=', 'a'] else ['=', 'c'])
  else (if i = 0 then ['b'] else ['d'])

/-- Props with a controlled selection on the single cell `(0, 0)` and no `onSelect`. -/
def silentControlledProps (data : Grid) : Props :=
  { controlledProps data with onSelect := false }

/-! ## Lemmas on lookups -/

theorem index_eq_some_iff {α : Type} (xs : List α) (k : Int) (a : α) :
    index xs k = some a ↔ 0 ≤ k ∧ xs.get? k.toNat = some a := by
  unfold index
  split
  · constructor
    · intro h; cases h
    · intro h; omega
  · constructor
    · intro h; exact ⟨by omega, h⟩
    · intro h; exact h.2

theorem index_isSome_iff {α : Type} (xs : List α) (k : Int) :
    (index xs k).isSome = true ↔ 0 ≤ k ∧ k < xs.length := by
  unfold index
  split
  · simp; omega
  · rw [List.get?_eq_getElem?, Option.isSome_iff_exists]
    constructor
    · rintro ⟨a, h⟩
      have := (List.getElem?_eq_some_iff.mp h).1
      omega
    · rintro ⟨_, h⟩
      have h2 : k.toNat < xs.length := by omega
      exact ⟨xs[k.toNat], List.getElem?_eq_getElem h2⟩

theorem cellAt_isSome_of_rect {data : Grid} {rows cols : Nat} (hr : Rectangular data rows cols)
    (l : Loc) : (cellAt data l.i l.j).isSome = true ↔ InBounds rows cols l := by
  unfold cellAt rowAt InBounds
  obtain ⟨hlen, hrow⟩ := hr
  cases hrow_eq : index data l.i with
  | none =>
    have h1 : ¬ ((index data l.i).isSome = true) := by rw [hrow_eq]; simp
    rw [index_isSome_iff] at h1
    simp only [Option.isSome_none, Bool.false_eq_true, false_iff]
    omega
  | some row =>
    have h1 : (index data l.i).isSome = true := by rw [hrow_eq]; rfl
    rw [index_isSome_iff] at h1
    have hmem : row ∈ data := by
      rw [index_eq_some_iff] at hrow_eq
      exact List.get?_mem hrow_eq.2
    have hc := hrow row hmem
    simp only [index_isSome_iff]
    omega

theorem isCellDefined_of_rect {data : Grid} {rows cols : Nat} (hr : Rectangular data rows cols)
    (l : Loc) : isCellDefined data l = true ↔ InBounds rows cols l :=
  cellAt_isSome_of_rect hr l

/-! ## Lemmas on the skip loop -/

theorem definedNotNavigable_eq_true_iff (nav : Cell → Int → Int → Bool) (data : Grid) (l : Loc) :
    definedNotNavigable nav data l = true ↔
      ∃ cell, cellAt data l.i l.j = some cell ∧ nav cell l.i l.j = false := by
  unfold definedNotNavigable
  cases cellAt data l.i l.j with
  | none => simp
  | some cell => simp

theorem definedNotNavigable_eq_false_iff (nav : Cell → Int → Int → Bool) (data : Grid) (l : Loc) :
    definedNotNavigable nav data l = false ↔
      isCellDefined data l = false ∨ NavigableAt nav data l := by
  unfold definedNotNavigable isCellDefined NavigableAt
  cases cellAt data l.i l.j with
  | none => simp
  | some cell => simp

theorem advanceOffset_stepK (s o : Loc) (a : Nat) :
    advanceOffset o (stepK s o a) = stepK s o (a + 1) := by
  simp only [advanceOffset, stepK, Loc.mk.injEq]
  constructor <;> (push_cast; ring)

theorem advanceOffset_start (s o : Loc) : advanceOffset o s = stepK s o 1 := by
  simp [advanceOffset, stepK]

theorem skipLoop_reach (nav : Cell → Int → Int → Bool) (data : Grid) (s o : Loc) :
    ∀ (d a fuel : Nat),
      (∀ m, a ≤ m → m < a + d → definedNotNavigable nav data (stepK s o m) = true) →
      definedNotNavigable nav data (stepK s o (a + d)) = false →
      d < fuel →
      skipLoop nav data o fuel (stepK s o a) = some (stepK s o (a + d)) := by
  intro d
  induction d with
  | zero =>
    intro a fuel _ hstop hf
    obtain ⟨f, rfl⟩ : ∃ f, fuel = f + 1 := ⟨fuel - 1, by omega⟩
    simp only [Nat.add_zero] at hstop
    simp [skipLoop, hstop]
  | succ d ih =>
    intro a fuel hblk hstop hf
    obtain ⟨f, rfl⟩ : ∃ f, fuel = f + 1 := ⟨fuel - 1, by omega⟩
    have h0 := hblk a (le_refl a) (by omega)
    simp only [skipLoop, h0, if_true, advanceOffset_stepK]
    have := ih (a + 1) f (fun m h1 h2 => hblk m (by omega) (by omega))
      (by rw [show a + 1 + d = a + (d + 1) by omega]; exact hstop) (by omega)
    rw [this, show a + 1 + d = a + (d + 1) by omega]

/-- Fuel only matters while it is too small: a result of the loop is kept with more fuel. -/
theorem skipLoop_mono (nav : Cell → Int → Int → Bool) (data : Grid) (o : Loc) :
    ∀ (fuel : Nat) (l r : Loc), skipLoop nav data o fuel l = some r →
      ∀ fuel2, fuel ≤ fuel2 → skipLoop nav data o fuel2 l = some r := by
  intro fuel
  induction fuel with
  | zero => intro l r h; simp [skipLoop] at h
  | succ f ih =>
    intro l r h fuel2 hle
    obtain ⟨g, rfl⟩ : ∃ g, fuel2 = g + 1 := ⟨fuel2 - 1, by omega⟩
    simp only [skipLoop] at h ⊢
    split
    · rename_i hb
      rw [if_pos hb] at h
      exact ih _ _ h g (by omega)
    · rename_i hb
      rw [if_neg hb] at h
      exact h

theorem stepK_out_of_bounds {rows cols : Nat} {s o : Loc} (hs : InBounds rows cols s)
    (ho : UnitOffset o) : ¬ InBounds rows cols (stepK s o (rows + cols + 1)) := by
  unfold InBounds at *
  rcases ho with rfl | rfl | rfl | rfl <;> simp only [stepK] <;> push_cast <;> omega

/-- In a rectangular grid a unit walk from an in-bounds cell stops within
`rows + cols + 1` steps: there is a first step whose cell is outside or navigable. -/
theorem exists_first_stop (nav : Cell → Int → Int → Bool) {data : Grid} {rows cols : Nat}
    {s o : Loc} (hr : Rectangular data rows cols) (hs : InBounds rows cols s)
    (ho : UnitOffset o) :
    ∃ k, 1 ≤ k ∧ k ≤ rows + cols + 1 ∧
      definedNotNavigable nav data (stepK s o k) = false ∧
      ∀ m, 1 ≤ m → m < k → definedNotNavigable nav data (stepK s o m) = true := by
  have hex : ∃ k, 1 ≤ k ∧ definedNotNavigable nav data (stepK s o k) = false := by
    refine ⟨rows + cols + 1, by omega, ?_⟩
    rw [definedNotNavigable_eq_false_iff]
    left
    have := stepK_out_of_bounds hs ho
    rw [← isCellDefined_of_rect hr] at this
    simpa using this
  classical
  refine ⟨Nat.find hex, (Nat.find_spec hex).1, ?_, (Nat.find_spec hex).2, ?_⟩
  · apply Nat.find_min'
    refine ⟨by omega, ?_⟩
    rw [definedNotNavigable_eq_false_iff]
    left
    have := stepK_out_of_bounds hs ho
    rw [← isCellDefined_of_rect hr] at this
    simpa using this
  · intro m h1 h2
    have := Nat.find_min hex h2
    simp only [not_and] at this
    have := this h1
    simpa using this

theorem blocked_inBounds_notNav {nav : Cell → Int → Int → Bool} {data : Grid} {rows cols : Nat}
    (hr : Rectangular data rows cols) {l : Loc}
    (h : definedNotNavigable nav data l = true) :
    InBounds rows cols l ∧ ¬ NavigableAt nav data l := by
  rw [definedNotNavigable_eq_true_iff] at h
  obtain ⟨cell, hc, hn⟩ := h
  constructor
  · rw [← cellAt_isSome_of_rect hr, hc]; rfl
  · rintro ⟨c2, hc2, hn2⟩
    rw [hc] at hc2
    cases hc2
    rw [hn] at hn2
    cases hn2

/-! ## Navigation without row wrap -/

/-- C1: in a rectangular grid, from an in-bounds start and with a unit offset, the search
without row wrap returns `start + k * offsets` for the first `k ≥ 1` whose cell is in
bounds and navigable, every earlier cell of the walk being in bounds and not navigable;
it returns null when the walk leaves the grid first.  Any fuel from `rows + cols + 2`
on is enough. -/
theorem searchForNextSelectablePos_noWrap (isCellNavigable : Cell → Int → Int → Bool)
    (data : Grid) (rows cols : Nat) (start offsets : Loc)
    (hr : Rectangular data rows cols) (hs : InBounds rows cols start)
    (ho : UnitOffset offsets) :
    ∃ k, 1 ≤ k ∧
      (∀ m, 1 ≤ m → m < k →
        InBounds rows cols (stepK start offsets m) ∧
        ¬ NavigableAt isCellNavigable data (stepK start offsets m)) ∧
      ((InBounds rows cols (stepK start offsets k) ∧
        NavigableAt isCellNavigable data (stepK start offsets k) ∧
        ∀ fuel, rows + cols + 2 ≤ fuel →
          searchForNextSelectablePos fuel isCellNavigable data start offsets false
            = Run.done (some (stepK start offsets k))) ∨
       (¬ InBounds rows cols (stepK start offsets k) ∧
        ∀ fuel, rows + cols + 2 ≤ fuel →
          searchForNextSelectablePos fuel isCellNavigable data start offsets false
            = Run.done none)) := by
  obtain ⟨k, hk1, hk2, hstop, hblk⟩ := exists_first_stop isCellNavigable hr hs ho
  refine ⟨k, hk1, fun m h1 h2 => blocked_inBounds_notNav hr (hblk m h1 h2), ?_⟩
  have hloop : ∀ f, rows + cols + 1 ≤ f →
      skipLoop isCellNavigable data offsets f (advanceOffset offsets start)
        = some (stepK start offsets k) := by
    intro f hf
    rw [advanceOffset_start]
    have := skipLoop_reach isCellNavigable data start offsets (k - 1) 1 f
      (fun m h1 h2 => hblk m h1 (by omega))
      (by rw [show 1 + (k - 1) = k by omega]; exact hstop) (by omega)
    rw [this, show 1 + (k - 1) = k by omega]
  cases hdef : isCellDefined data (stepK start offsets k) with
  | true =>
    left
    have hnav : NavigableAt isCellNavigable data (stepK start offsets k) := by
      rcases (definedNotNavigable_eq_false_iff _ _ _).mp hstop with h | h
      · rw [hdef] at h; cases h
      · exact h
    refine ⟨(isCellDefined_of_rect hr _).mp hdef, hnav, ?_⟩
    intro fuel hf
    obtain ⟨f, rfl⟩ : ∃ f, fuel = f + 1 := ⟨fuel - 1, by omega⟩
    simp [searchForNextSelectablePos, hloop f (by omega), hdef, settle, hstop]
  | false =>
    right
    refine ⟨fun hb => ?_, ?_⟩
    · rw [← isCellDefined_of_rect hr, hdef] at hb; cases hb
    · intro fuel hf
      obtain ⟨f, rfl⟩ : ∃ f, fuel = f + 1 := ⟨fuel - 1, by omega⟩
      simp [searchForNextSelectablePos, hloop f (by omega), hdef]

/-! ## Navigation with row wrap, along a row -/

theorem stepK_right (s : Loc) (k : Nat) : stepK s ⟨0, 1⟩ k = ⟨s.i, s.j + k⟩ := by
  simp [stepK]

theorem stepK_left (s : Loc) (k : Nat) : stepK s ⟨0, -1⟩ k = ⟨s.i, s.j - k⟩ := by
  simp only [stepK, Loc.mk.injEq]
  constructor <;> ring

theorem row_clear_right {nav : Cell → Int → Int → Bool} {data : Grid} {s : Loc} {k : Nat}
    (h : ∀ m, 1 ≤ m → m < k → ¬ NavigableAt nav data (stepK s ⟨0, 1⟩ m))
    (l : Loc) (hi : l.i = s.i) (h1 : s.j < l.j) (h2 : l.j < s.j + k) :
    ¬ NavigableAt nav data l := by
  have := h (l.j - s.j).toNat (by omega) (by omega)
  rw [stepK_right] at this
  have e : (⟨s.i, s.j + ((l.j - s.j).toNat : Int)⟩ : Loc) = l := by
    cases l
    simp only [Loc.mk.injEq] at *
    omega
  rwa [e] at this

theorem row_clear_left {nav : Cell → Int → Int → Bool} {data : Grid} {s : Loc} {k : Nat}
    (h : ∀ m, 1 ≤ m → m < k → ¬ NavigableAt nav data (stepK s ⟨0, -1⟩ m))
    (l : Loc) (hi : l.i = s.i) (h1 : l.j < s.j) (h2 : s.j - k < l.j) :
    ¬ NavigableAt nav data l := by
  have := h (s.j - l.j).toNat (by omega) (by omega)
  rw [stepK_left] at this
  have e : (⟨s.i, s.j - ((s.j - l.j).toNat : Int)⟩ : Loc) = l := by
    cases l
    simp only [Loc.mk.injEq] at *
    omega
  rwa [e] at this

theorem search_forward_aux (nav : Cell → Int → Int → Bool) (data : Grid) (rows cols : Nat)
    (hr : Rectangular data rows cols) :
    ∀ (n : Nat) (start : Loc), InBounds rows cols start → (rows : Int) - start.i ≤ n →
      ∃ r, FirstAfter nav data rows cols start r ∧
        ∀ fuel, n + cols + 2 ≤ fuel →
          searchForNextSelectablePos fuel nav data start ⟨0, 1⟩ true = Run.done r := by
  intro n
  induction n with
  | zero =>
    intro start hs hn
    exfalso
    unfold InBounds at hs
    omega
  | succ n ih =>
    intro start hs hn
    obtain ⟨k, hk1, _, hstop, hblk⟩ := exists_first_stop nav hr hs (Or.inl rfl)
    have hin : ∀ m, 1 ≤ m → m < k → InBounds rows cols (stepK start ⟨0, 1⟩ m) :=
      fun m h1 h2 => (blocked_inBounds_notNav hr (hblk m h1 h2)).1
    have hnn : ∀ m, 1 ≤ m → m < k → ¬ NavigableAt nav data (stepK start ⟨0, 1⟩ m) :=
      fun m h1 h2 => (blocked_inBounds_notNav hr (hblk m h1 h2)).2
    have hkc : start.j + k ≤ cols := by
      by_cases h : k = 1
      · subst h
        unfold InBounds at hs
        omega
      · have := hin (k - 1) (by omega) (by omega)
        rw [stepK_right] at this
        unfold InBounds at this
        simp only at this
        omega
    have hloop : ∀ f, cols + 1 ≤ f →
        skipLoop nav data ⟨0, 1⟩ f (advanceOffset ⟨0, 1⟩ start)
          = some (stepK start ⟨0, 1⟩ k) := by
      intro f hf
      rw [advanceOffset_start]
      have := skipLoop_reach nav data start ⟨0, 1⟩ (k - 1) 1 f
        (fun m h1 h2 => hblk m h1 (by omega))
        (by rw [show 1 + (k - 1) = k by omega]; exact hstop)
        (by unfold InBounds at hs; omega)
      rw [this, show 1 + (k - 1) = k by omega]
    have hclear := row_clear_right hnn
    cases hdef : isCellDefined data (stepK start ⟨0, 1⟩ k) with
    | true =>
      have hnav : NavigableAt nav data (stepK start ⟨0, 1⟩ k) := by
        rcases (definedNotNavigable_eq_false_iff _ _ _).mp hstop with h | h
        · rw [hdef] at h; cases h
        · exact h
      have hb := (isCellDefined_of_rect hr _).mp hdef
      refine ⟨some (stepK start ⟨0, 1⟩ k), ⟨hb, hnav, ?_, ?_⟩, ?_⟩
      · right
        rw [stepK_right]
        exact ⟨rfl, by show start.j < start.j + (k : Int); omega⟩
      · intro l2 _ hn2 hlt hlt2
        rw [stepK_right] at hlt2
        unfold rowMajorLt at hlt hlt2
        simp only at hlt2
        exact hclear l2 (by omega) (by omega) (by omega) hn2
      · intro fuel hf
        obtain ⟨f, rfl⟩ : ∃ f, fuel = f + 1 := ⟨fuel - 1, by omega⟩
        simp [searchForNextSelectablePos, hloop f (by omega), hdef, settle, hstop]
    | false =>
      have hob : ¬ InBounds rows cols (stepK start ⟨0, 1⟩ k) := by
        intro hb
        rw [← isCellDefined_of_rect hr, hdef] at hb
        cases hb
      have hend : start.j + k = cols := by
        rw [stepK_right] at hob
        unfold InBounds at hob hs
        simp only at hob
        omega
      have hrow : ∀ l2, InBounds rows cols l2 → l2.i = start.i → start.j < l2.j →
          ¬ NavigableAt nav data l2 := by
        intro l2 hb2 hi hj
        unfold InBounds at hb2
        exact hclear l2 hi hj (by omega)
      have hnext : nextRow (stepK start ⟨0, 1⟩ k) = ⟨start.i + 1, 0⟩ := by
        rw [stepK_right]; rfl
      cases hblk2 : definedNotNavigable nav data ⟨start.i + 1, 0⟩ with
      | true =>
        have hb2 := blocked_inBounds_notNav hr hblk2
        obtain ⟨r, hspec, hrun⟩ := ih ⟨start.i + 1, 0⟩ hb2.1 (by simp only; omega)
        refine ⟨r, ?_, ?_⟩
        · have hsame : ∀ l2, InBounds rows cols l2 → NavigableAt nav data l2 →
              (rowMajorLt start l2 ↔ rowMajorLt ⟨start.i + 1, 0⟩ l2) := by
            intro l2 hl2 hn2
            unfold rowMajorLt
            simp only
            constructor
            · intro h
              by_cases hi : l2.i = start.i
              · exact absurd hn2 (hrow l2 hl2 hi (by omega))
              · by_cases hz : l2 = ⟨start.i + 1, 0⟩
                · subst hz; exact absurd hn2 hb2.2
                · have : l2.i ≠ start.i + 1 ∨ l2.j ≠ 0 := by
                    by_contra hc
                    push_neg at hc
                    apply hz
                    cases l2
                    simp only [Loc.mk.injEq] at *
                    exact hc
                  unfold InBounds at hl2
                  omega
            · intro h
              omega
          cases r with
          | none =>
            intro l2 hl2 hn2 hlt
            exact hspec l2 hl2 hn2 ((hsame l2 hl2 hn2).mp hlt)
          | some l =>
            obtain ⟨h1, h2, h3, h4⟩ := hspec
            refine ⟨h1, h2, (hsame l h1 h2).mpr h3, ?_⟩
            intro l2 hl2 hn2 hlt
            exact h4 l2 hl2 hn2 ((hsame l2 hl2 hn2).mp hlt)
        · intro fuel hf
          obtain ⟨f, rfl⟩ : ∃ f, fuel = f + 1 := ⟨fuel - 1, by omega⟩
          have := hrun f (by omega)
          simp [searchForNextSelectablePos, hloop f (by omega), hdef, settle, hnext, hblk2,
            this]
      | false =>
        cases hdef2 : isCellDefined data ⟨start.i + 1, 0⟩ with
        | true =>
          have hnav2 : NavigableAt nav data ⟨start.i + 1, 0⟩ := by
            rcases (definedNotNavigable_eq_false_iff _ _ _).mp hblk2 with h | h
            · rw [hdef2] at h; cases h
            · exact h
          have hb2 := (isCellDefined_of_rect hr _).mp hdef2
          refine ⟨some ⟨start.i + 1, 0⟩, ⟨hb2, hnav2, ?_, ?_⟩, ?_⟩
          · left; simp only; omega
          · intro l2 hl2 hn2 hlt hlt2
            unfold rowMajorLt at hlt hlt2
            simp only at hlt2
            unfold InBounds at hl2
            have hi : l2.i = start.i := by omega
            exact hrow l2 hl2 hi (by omega) hn2
          · intro fuel hf
            obtain ⟨f, rfl⟩ : ∃ f, fuel = f + 1 := ⟨fuel - 1, by omega⟩
            simp [searchForNextSelectablePos, hloop f (by omega), hdef, settle, hnext, hblk2,
              hdef2]
        | false =>
          have hob2 : ¬ InBounds rows cols ⟨start.i + 1, 0⟩ := by
            intro hb
            rw [← isCellDefined_of_rect hr, hdef2] at hb
            cases hb
          refine ⟨none, ?_, ?_⟩
          · intro l2 hl2 hn2 hlt
            unfold rowMajorLt at hlt
            have hi : l2.i = start.i := by
              unfold InBounds at hob2 hl2 hs
              simp only at hob2
              omega
            exact hrow l2 hl2 hi (by omega) hn2
          · intro fuel hf
            obtain ⟨f, rfl⟩ : ∃ f, fuel = f + 1 := ⟨fuel - 1, by omega⟩
            simp [searchForNextSelectablePos, hloop f (by omega), hdef, settle, hnext, hblk2,
              hdef2]

theorem previousRow_of_rect {data : Grid} {rows cols : Nat} (hr : Rectangular data rows cols)
    (hrows : 0 < rows) (l : Loc) :
    previousRow data l = some ⟨l.i - 1, (cols : Int) - 1⟩ := by
  obtain ⟨hlen, hrow⟩ := hr
  cases data with
  | nil => simp at hlen; omega
  | cons row0 rest =>
    have := hrow row0 (List.mem_cons_self _ _)
    simp [previousRow, this]

theorem search_backward_aux (nav : Cell → Int → Int → Bool) (data : Grid) (rows cols : Nat)
    (hr : Rectangular data rows cols) :
    ∀ (n : Nat) (start : Loc), InBounds rows cols start → start.i < n →
      ∃ r, LastBefore nav data rows cols start r ∧
        ∀ fuel, n + cols + 2 ≤ fuel →
          searchForNextSelectablePos fuel nav data start ⟨0, -1⟩ true = Run.done r := by
  intro n
  induction n with
  | zero =>
    intro start hs hn
    exfalso
    unfold InBounds at hs
    omega
  | succ n ih =>
    intro start hs hn
    obtain ⟨k, hk1, _, hstop, hblk⟩ :=
      exists_first_stop nav hr hs (Or.inr (Or.inl rfl))
    have hin : ∀ m, 1 ≤ m → m < k → InBounds rows cols (stepK start ⟨0, -1⟩ m) :=
      fun m h1 h2 => (blocked_inBounds_notNav hr (hblk m h1 h2)).1
    have hnn : ∀ m, 1 ≤ m → m < k → ¬ NavigableAt nav data (stepK start ⟨0, -1⟩ m) :=
      fun m h1 h2 => (blocked_inBounds_notNav hr (hblk m h1 h2)).2
    have hrows : 0 < rows := by unfold InBounds at hs; omega
    have hkc : (k : Int) ≤ start.j + 1 := by
      by_cases h : k = 1
      · subst h
        unfold InBounds at hs
        omega
      · have := hin (k - 1) (by omega) (by omega)
        rw [stepK_left] at this
        unfold InBounds at this
        simp only at this
        omega
    have hloop : ∀ f, cols + 1 ≤ f →
        skipLoop nav data ⟨0, -1⟩ f (advanceOffset ⟨0, -1⟩ start)
          = some (stepK start ⟨0, -1⟩ k) := by
      intro f hf
      rw [advanceOffset_start]
      have := skipLoop_reach nav data start ⟨0, -1⟩ (k - 1) 1 f
        (fun m h1 h2 => hblk m h1 (by omega))
        (by rw [show 1 + (k - 1) = k by omega]; exact hstop)
        (by unfold InBounds at hs; omega)
      rw [this, show 1 + (k - 1) = k by omega]
    have hclear := row_clear_left hnn
    cases hdef : isCellDefined data (stepK start ⟨0, -1⟩ k) with
    | true =>
      have hnav : NavigableAt nav data (stepK start ⟨0, -1⟩ k) := by
        rcases (definedNotNavigable_eq_false_iff _ _ _).mp hstop with h | h
        · rw [hdef] at h; cases h
        · exact h
      have hb := (isCellDefined_of_rect hr _).mp hdef
      refine ⟨some (stepK start ⟨0, -1⟩ k), ⟨hb, hnav, ?_, ?_⟩, ?_⟩
      · right
        rw [stepK_left]
        exact ⟨rfl, by show start.j - (k : Int) < start.j; omega⟩
      · intro l2 _ hn2 hlt hlt2
        rw [stepK_left] at hlt2
        unfold rowMajorLt at hlt hlt2
        simp only at hlt2
        exact hclear l2 (by omega) (by omega) (by omega) hn2
      · intro fuel hf
        obtain ⟨f, rfl⟩ : ∃ f, fuel = f + 1 := ⟨fuel - 1, by omega⟩
        simp [searchForNextSelectablePos, hloop f (by omega), hdef, settle, hstop]
    | false =>
      have hob : ¬ InBounds rows cols (stepK start ⟨0, -1⟩ k) := by
        intro hb
        rw [← isCellDefined_of_rect hr, hdef] at hb
        cases hb
      have hend : start.j - k = -1 := by
        rw [stepK_left] at hob
        unfold InBounds at hob hs
        simp only at hob
        omega
      have hrow : ∀ l2, InBounds rows cols l2 → l2.i = start.i → l2.j < start.j →
          ¬ NavigableAt nav data l2 := by
        intro l2 hb2 hi hj
        unfold InBounds at hb2
        exact hclear l2 hi hj (by omega)
      have hprev : previousRow data (stepK start ⟨0, -1⟩ k)
          = some ⟨start.i - 1, (cols : Int) - 1⟩ := by
        rw [previousRow_of_rect hr hrows, stepK_left]
      cases hblk2 : definedNotNavigable nav data ⟨start.i - 1, (cols : Int) - 1⟩ with
      | true =>
        have hb2 := blocked_inBounds_notNav hr hblk2
        obtain ⟨r, hspec, hrun⟩ :=
          ih ⟨start.i - 1, (cols : Int) - 1⟩ hb2.1 (by simp only; omega)
        refine ⟨r, ?_, ?_⟩
        · have hsame : ∀ l2, InBounds rows cols l2 → NavigableAt nav data l2 →
              (rowMajorLt l2 start ↔ rowMajorLt l2 ⟨start.i - 1, (cols : Int) - 1⟩) := by
            intro l2 hl2 hn2
            unfold rowMajorLt
            simp only
            constructor
            · intro h
              by_cases hi : l2.i = start.i
              · exact absurd hn2 (hrow l2 hl2 hi (by omega))
              · by_cases hz : l2 = ⟨start.i - 1, (cols : Int) - 1⟩
                · subst hz; exact absurd hn2 hb2.2
                · have : l2.i ≠ start.i - 1 ∨ l2.j ≠ (cols : Int) - 1 := by
                    by_contra hc
                    push_neg at hc
                    apply hz
                    cases l2
                    simp only [Loc.mk.injEq] at *
                    exact hc
                  unfold InBounds at hl2
                  omega
            · intro h
              omega
          cases r with
          | none =>
            intro l2 hl2 hn2 hlt
            exact hspec l2 hl2 hn2 ((hsame l2 hl2 hn2).mp hlt)
          | some l =>
            obtain ⟨h1, h2, h3, h4⟩ := hspec
            refine ⟨h1, h2, (hsame l h1 h2).mpr h3, ?_⟩
            intro l2 hl2 hn2 hlt
            exact h4 l2 hl2 hn2 ((hsame l2 hl2 hn2).mp hlt)
        · intro fuel hf
          obtain ⟨f, rfl⟩ : ∃ f, fuel = f + 1 := ⟨fuel - 1, by omega⟩
          have := hrun f (by omega)
          simp [searchForNextSelectablePos, hloop f (by omega), hdef, settle, hprev, hblk2,
            this]
      | false =>
        cases hdef2 : isCellDefined data ⟨start.i - 1, (cols : Int) - 1⟩ with
        | true =>
          have hnav2 : NavigableAt nav data ⟨start.i - 1, (cols : Int) - 1⟩ := by
            rcases (definedNotNavigable_eq_false_iff _ _ _).mp hblk2 with h | h
            · rw [hdef2] at h; cases h
            · exact h
          have hb2 := (isCellDefined_of_rect hr _).mp hdef2
          refine ⟨some ⟨start.i - 1, (cols : Int) - 1⟩, ⟨hb2, hnav2, ?_, ?_⟩, ?_⟩
          · left; simp only; omega
          · intro l2 hl2 hn2 hlt hlt2
            unfold rowMajorLt at hlt hlt2
            simp only at hlt2
            unfold InBounds at hl2
            have hi : l2.i = start.i := by omega
            exact hrow l2 hl2 hi (by omega) hn2
          · intro fuel hf
            obtain ⟨f, rfl⟩ : ∃ f, fuel = f + 1 := ⟨fuel - 1, by omega⟩
            simp [searchForNextSelectablePos, hloop f (by omega), hdef, settle, hprev, hblk2,
              hdef2]
        | false =>
          have hob2 : ¬ InBounds rows cols ⟨start.i - 1, (cols : Int) - 1⟩ := by
            intro hb
            rw [← isCellDefined_of_rect hr, hdef2] at hb
            cases hb
          refine ⟨none, ?_, ?_⟩
          · intro l2 hl2 hn2 hlt
            unfold rowMajorLt at hlt
            have hi : l2.i = start.i := by
              unfold InBounds at hob2 hl2 hs
              simp only at hob2
              omega
            exact hrow l2 hl2 hi (by omega) hn2
          · intro fuel hf
            obtain ⟨f, rfl⟩ : ∃ f, fuel = f + 1 := ⟨fuel - 1, by omega⟩
            simp [searchForNextSelectablePos, hloop f (by omega), hdef, settle, hprev, hblk2,
              hdef2]

/-- C2: in a rectangular grid with at least one column and from an in-bounds start, the
search with row wrap and offset `(0, 1)` returns the first navigable cell strictly after
`start` in row-major order, and with offset `(0, -1)` the last navigable cell strictly
before `start`; it returns null exactly when there is no such cell.  Any fuel from
`rows + cols + 2` on is enough. -/
theorem searchForNextSelectablePos_wrapRows (isCellNavigable : Cell → Int → Int → Bool)
    (data : Grid) (rows cols : Nat) (start : Loc)
    (hr : Rectangular data rows cols) (_hc : 1 ≤ cols) (hs : InBounds rows cols start) :
    (∃ r, FirstAfter isCellNavigable data rows cols start r ∧
      ∀ fuel, rows + cols + 2 ≤ fuel →
        searchForNextSelectablePos fuel isCellNavigable data start ⟨0, 1⟩ true
          = Run.done r) ∧
    (∃ r, LastBefore isCellNavigable data rows cols start r ∧
      ∀ fuel, rows + cols + 2 ≤ fuel →
        searchForNextSelectablePos fuel isCellNavigable data start ⟨0, -1⟩ true
          = Run.done r) := by
  constructor
  · exact search_forward_aux isCellNavigable data rows cols hr rows start hs
      (by unfold InBounds at hs; omega)
  · exact search_backward_aux isCellNavigable data rows cols hr rows start hs
      (by unfold InBounds at hs; omega)

theorem gridRow3_rect : Rectangular gridRow3 1 3 := by
  simp [Rectangular, gridRow3]

theorem grid2x2_rect : Rectangular grid2x2 2 2 := by
  simp [Rectangular, grid2x2]

theorem searchForNextSelectablePos_noWrap_witness :
    Rectangular gridRow3 1 3 ∧ InBounds 1 3 ⟨0, 0⟩ ∧ UnitOffset ⟨0, 1⟩ ∧
    searchForNextSelectablePos 6 notColumn1 gridRow3 ⟨0, 0⟩ ⟨0, 1⟩ false
      = Run.done (some ⟨0, 2⟩) ∧
    ∃ k, 1 ≤ k ∧
      (∀ m, 1 ≤ m → m < k →
        InBounds 1 3 (stepK ⟨0, 0⟩ ⟨0, 1⟩ m) ∧
        ¬ NavigableAt notColumn1 gridRow3 (stepK ⟨0, 0⟩ ⟨0, 1⟩ m)) ∧
      ((InBounds 1 3 (stepK ⟨0, 0⟩ ⟨0, 1⟩ k) ∧
        NavigableAt notColumn1 gridRow3 (stepK ⟨0, 0⟩ ⟨0, 1⟩ k) ∧
        ∀ fuel, 1 + 3 + 2 ≤ fuel →
          searchForNextSelectablePos fuel notColumn1 gridRow3 ⟨0, 0⟩ ⟨0, 1⟩ false
            = Run.done (some (stepK ⟨0, 0⟩ ⟨0, 1⟩ k))) ∨
       (¬ InBounds 1 3 (stepK ⟨0, 0⟩ ⟨0, 1⟩ k) ∧
        ∀ fuel, 1 + 3 + 2 ≤ fuel →
          searchForNextSelectablePos fuel notColumn1 gridRow3 ⟨0, 0⟩ ⟨0, 1⟩ false
            = Run.done none)) :=
  ⟨gridRow3_rect, by unfold InBounds; decide, Or.inl rfl, by decide,
    searchForNextSelectablePos_noWrap notColumn1 gridRow3 1 3 ⟨0, 0⟩ ⟨0, 1⟩
      gridRow3_rect (by unfold InBounds; decide) (Or.inl rfl)⟩

theorem searchForNextSelectablePos_wrapRows_witness :
    Rectangular grid2x2 2 2 ∧ 1 ≤ 2 ∧ InBounds 2 2 ⟨0, 0⟩ ∧
    searchForNextSelectablePos 6 notColumn1 grid2x2 ⟨0, 0⟩ ⟨0, 1⟩ true
      = Run.done (some ⟨1, 0⟩) ∧
    searchForNextSelectablePos 6 notColumn1 grid2x2 ⟨0, 0⟩ ⟨0, -1⟩ true
      = Run.done none ∧
    (∃ r, FirstAfter notColumn1 grid2x2 2 2 ⟨0, 0⟩ r ∧
      ∀ fuel, 2 + 2 + 2 ≤ fuel →
        searchForNextSelectablePos fuel notColumn1 grid2x2 ⟨0, 0⟩ ⟨0, 1⟩ true
          = Run.done r) ∧
    (∃ r, LastBefore notColumn1 grid2x2 2 2 ⟨0, 0⟩ r ∧
      ∀ fuel, 2 + 2 + 2 ≤ fuel →
        searchForNextSelectablePos fuel notColumn1 grid2x2 ⟨0, 0⟩ ⟨0, -1⟩ true
          = Run.done r) :=
  ⟨grid2x2_rect, by decide, by unfold InBounds; decide, by decide, by decide,
    searchForNextSelectablePos_wrapRows notColumn1 grid2x2 2 2 ⟨0, 0⟩
      grid2x2_rect (by decide) (by unfold InBounds; decide)⟩

/-! ## Navigation with row wrap, along a column -/

theorem search_up_from_top_diverges (nav : Cell → Int → Int → Bool) (data : Grid)
    (h00 : definedNotNavigable nav data ⟨0, 0⟩ = true)
    (hout : isCellDefined data ⟨-1, 0⟩ = false) :
    ∀ fuel, searchForNextSelectablePos fuel nav data ⟨0, 0⟩ ⟨-1, 0⟩ true = Run.outOfFuel := by
  have hout2 : definedNotNavigable nav data ⟨-1, 0⟩ = false := by
    rw [definedNotNavigable_eq_false_iff]; exact Or.inl hout
  intro fuel
  induction fuel with
  | zero => rfl
  | succ f ih =>
    cases f with
    | zero => rfl
    | succ g =>
      have hl : skipLoop nav data ⟨-1, 0⟩ (g + 1) (advanceOffset ⟨-1, 0⟩ ⟨0, 0⟩)
          = some ⟨-1, 0⟩ := by
        simp [skipLoop, advanceOffset, hout2]
      have hn : nextRow ⟨-1, 0⟩ = ⟨0, 0⟩ := rfl
      rw [searchForNextSelectablePos, hl]
      simp only [hout, hn, settle, h00]
      simpa using ih

/-- C3, at two failing inputs: with row wrap, moving up (Shift+Enter) from the data row of
a grid whose header cell `(0, 0)` is not navigable never returns, whatever the fuel; nor
does it from the single cell of a grid whose predicate rejects every cell.  The walk
leaves the grid at row `-1`, `nextRow` puts it back on `(0, 0)`, and the search recurses
from there on the same arguments. -/
theorem searchForNextSelectablePos_wrap_up_never_returns :
    (∀ fuel, searchForNextSelectablePos fuel belowHeader gridHeader ⟨1, 0⟩ ⟨-1, 0⟩ true
      = Run.outOfFuel) ∧
    (∀ fuel, searchForNextSelectablePos fuel rejectAll grid1x1 ⟨0, 0⟩ ⟨-1, 0⟩ true
      = Run.outOfFuel) := by
  constructor
  · intro fuel
    have hrec := search_up_from_top_diverges belowHeader gridHeader (by decide) (by decide)
    match fuel with
    | 0 => rfl
    | 1 => rfl
    | 2 => rfl
    | g + 3 =>
      have hl : skipLoop belowHeader gridHeader ⟨-1, 0⟩ (g + 2) (advanceOffset ⟨-1, 0⟩ ⟨1, 0⟩)
          = some ⟨-1, 0⟩ := by
        have h1 : definedNotNavigable belowHeader gridHeader ⟨0, 0⟩ = true := by decide
        have h2 : definedNotNavigable belowHeader gridHeader ⟨-1, 0⟩ = false := by decide
        simp [skipLoop, advanceOffset, h1, h2]
      have hn : nextRow ⟨-1, 0⟩ = ⟨0, 0⟩ := rfl
      have hd : isCellDefined gridHeader ⟨-1, 0⟩ = false := by decide
      have h00 : definedNotNavigable belowHeader gridHeader ⟨0, 0⟩ = true := by decide
      rw [searchForNextSelectablePos, hl]
      simp only [hd, hn, settle, h00]
      simpa using hrec (g + 2)
  · exact search_up_from_top_diverges rejectAll grid1x1 (by decide) (by decide)

/-! ## `range` -/

theorem span_empty {lo hi : Int} (h : hi < lo) : span lo hi = [] := by
  unfold span
  rw [show (hi + 1 - lo).toNat = 0 by omega]
  rfl

theorem span_cons {lo hi : Int} (h : lo ≤ hi) : span lo hi = lo :: span (lo + 1) hi := by
  unfold span
  rw [show (hi + 1 - lo).toNat = (hi + 1 - (lo + 1)).toNat + 1 by omega,
    List.range_succ_eq_map]
  simp only [List.map_cons, List.map_map, Nat.cast_zero, add_zero, List.cons.injEq, true_and]
  apply List.map_congr_left
  intro k _
  simp only [Function.comp_apply, Nat.succ_eq_add_one]
  push_cast
  ring

theorem span_snoc {lo hi : Int} (h : lo ≤ hi) : span lo hi = span lo (hi - 1) ++ [hi] := by
  unfold span
  rw [show (hi + 1 - lo).toNat = (hi - 1 + 1 - lo).toNat + 1 by omega, List.range_succ]
  simp only [List.map_append, List.map_cons, List.map_nil, List.append_cancel_left_eq,
    List.cons.injEq, and_true]
  omega

theorem mem_span {lo hi x : Int} : x ∈ span lo hi ↔ lo ≤ x ∧ x ≤ hi := by
  unfold span
  simp only [List.mem_map, List.mem_range]
  constructor
  · rintro ⟨k, hk, rfl⟩
    omega
  · intro h
    exact ⟨(x - lo).toNat, by omega, by omega⟩

theorem span_ne_nil {lo hi : Int} (h : lo ≤ hi) : span lo hi ≠ [] := by
  rw [span_cons h]
  exact List.cons_ne_nil _ _

theorem rangeLoop_up (b : Int) :
    ∀ (fuel : Nat) (i : Int) (array : List Int), i ≤ b + 1 → (b + 1 - i).toNat ≤ fuel →
      rangeLoop true b fuel i array = array ++ span i b := by
  intro fuel
  induction fuel with
  | zero =>
    intro i array h1 h2
    rw [span_empty (by omega)]
    simp [rangeLoop]
  | succ f ih =>
    intro i array h1 h2
    by_cases hle : i ≤ b
    · simp only [rangeLoop, if_true, decide_eq_true_eq, hle]
      rw [ih (i + 1) (array ++ [i]) (by omega) (by omega), span_cons hle]
      simp
    · rw [span_empty (by omega)]
      simp [rangeLoop, hle]

theorem rangeLoop_down (b : Int) :
    ∀ (fuel : Nat) (i : Int) (array : List Int), b - 1 ≤ i → (i + 1 - b).toNat ≤ fuel →
      rangeLoop false b fuel i array = span b i ++ array := by
  intro fuel
  induction fuel with
  | zero =>
    intro i array h1 h2
    rw [span_empty (by omega)]
    simp [rangeLoop]
  | succ f ih =>
    intro i array h1 h2
    by_cases hle : b ≤ i
    · simp only [rangeLoop, Bool.false_eq_true, if_false, ge_iff_le, decide_eq_true_eq, hle,
        if_true]
      rw [ih (i - 1) (i :: array) (by omega) (by omega), span_snoc hle]
      simp
    · rw [span_empty (by omega)]
      simp [rangeLoop, hle]

/-- `range(a, b)` is the ascending list from the smaller to the larger bound, whichever
comes first. -/
theorem range_eq_span (a b : Int) : range (some a) (some b) = span (min a b) (max a b) := by
  unfold range
  by_cases h : b - a > 0
  · simp only [h, decide_True]
    rw [rangeLoop_up b _ a [] (by omega) (by omega), List.nil_append,
      min_eq_left (by omega), max_eq_right (by omega)]
  · simp only [h, decide_False]
    rw [rangeLoop_down b _ a [] (by omega) (by omega), List.append_nil,
      min_eq_right (by omega), max_eq_left (by omega)]

theorem range_none_left (b : Num) : range none b = [] := rfl

theorem range_none_right (a : Num) : range a none = [] := by
  cases a <;> rfl

/-! ## Copy, then parse -/

theorem splitTab_ne_nil (t : Text) : ∃ piece rest, splitTab t = piece :: rest := by
  induction t with
  | nil => exact ⟨[], [], rfl⟩
  | cons c cs ih =>
    obtain ⟨piece, rest, h⟩ := ih
    unfold splitTab
    split
    · exact ⟨[], _, rfl⟩
    · rw [h]; exact ⟨_, _, rfl⟩

theorem splitLines_ne_nil (t : Text) : ∃ piece rest, splitLines t = piece :: rest := by
  induction t using splitLines.induct with
  | case1 => exact ⟨[], [], rfl⟩
  | case2 c h => unfold splitLines; rw [if_pos h]; exact ⟨_, _, rfl⟩
  | case3 c h => unfold splitLines; rw [if_neg h]; exact ⟨_, _, rfl⟩
  | case4 c d ds h _ => unfold splitLines; rw [if_pos h]; exact ⟨_, _, rfl⟩
  | case5 c d ds h1 h2 _ =>
    unfold splitLines; rw [if_neg h1, if_pos h2]; exact ⟨_, _, rfl⟩
  | case6 c d ds h1 h2 ih =>
    obtain ⟨piece, rest, h⟩ := ih
    unfold splitLines; rw [if_neg h1, if_neg h2, h]; exact ⟨_, _, rfl⟩

theorem prependToHead_nil {l : List Text} (h : ∃ piece rest, l = piece :: rest) :
    prependToHead [] l = l := by
  obtain ⟨piece, rest, rfl⟩ := h
  rfl

theorem prependToHead_cons (c : Char) (x : Text) {l : List Text}
    (h : ∃ piece rest, l = piece :: rest) :
    prependToHead [c] (prependToHead x l) = prependToHead (c :: x) l := by
  obtain ⟨piece, rest, rfl⟩ := h
  rfl

theorem splitTab_append (x t : Text) (hx : TAB ∉ x) :
    splitTab (x ++ t) = prependToHead x (splitTab t) := by
  induction x with
  | nil => rw [List.nil_append, prependToHead_nil (splitTab_ne_nil t)]
  | cons c x ih =>
    have hc : c ≠ TAB := fun h => hx (by rw [h]; exact List.mem_cons_self _ _)
    have hx2 : TAB ∉ x := fun h => hx (List.mem_cons_of_mem _ h)
    rw [List.cons_append, splitTab, if_neg hc, ih hx2,
      prependToHead_cons c x (splitTab_ne_nil t)]

theorem splitTab_join : ∀ (cells : List Text), cells ≠ [] → (∀ t ∈ cells, TAB ∉ t) →
    splitTab (join [TAB] cells) = cells
  | [], h, _ => absurd rfl h
  | [x], _, hc => by
    have := splitTab_append x [] (hc x (List.mem_singleton_self x))
    rw [List.append_nil] at this
    rw [join, this]
    simp [splitTab, prependToHead]
  | x :: y :: rest, _, hc => by
    have ih := splitTab_join (y :: rest) (List.cons_ne_nil _ _)
      (fun t ht => hc t (List.mem_cons_of_mem _ ht))
    rw [join, List.append_assoc, splitTab_append _ _ (hc x (List.mem_cons_self _ _)),
      List.singleton_append, splitTab, if_pos rfl, ih]
    simp [prependToHead]

theorem splitLines_cons_plain (c : Char) (l : Text) (h1 : c ≠ CR) (h2 : c ≠ LF) :
    splitLines (c :: l) = prependToHead [c] (splitLines l) := by
  cases l with
  | nil => simp [splitLines, h1, h2, prependToHead]
  | cons d ds =>
    rw [splitLines, if_neg (fun h => h1 h.1), if_neg (fun h => h.elim h1 h2)]

theorem CR_ne_LF : CR ≠ LF := by decide

theorem TAB_ne_CR : TAB ≠ CR := by decide

theorem TAB_ne_LF : TAB ≠ LF := by decide

theorem splitLines_LF_cons (l : Text) : splitLines (LF :: l) = [] :: splitLines l := by
  cases l with
  | nil => simp [splitLines]
  | cons d ds =>
    rw [splitLines, if_neg (fun h => CR_ne_LF h.1.symm), if_pos (Or.inr rfl)]

theorem splitLines_append (x t : Text) (h1 : CR ∉ x) (h2 : LF ∉ x) :
    splitLines (x ++ t) = prependToHead x (splitLines t) := by
  induction x with
  | nil => rw [List.nil_append, prependToHead_nil (splitLines_ne_nil t)]
  | cons c x ih =>
    have hc1 : c ≠ CR := fun h => h1 (by rw [h]; exact List.mem_cons_self _ _)
    have hc2 : c ≠ LF := fun h => h2 (by rw [h]; exact List.mem_cons_self _ _)
    rw [List.cons_append, splitLines_cons_plain c _ hc1 hc2,
      ih (fun h => h1 (List.mem_cons_of_mem _ h)) (fun h => h2 (List.mem_cons_of_mem _ h)),
      prependToHead_cons c x (splitLines_ne_nil t)]

theorem splitLines_join : ∀ (lines : List Text), lines ≠ [] →
    (∀ t ∈ lines, CR ∉ t ∧ LF ∉ t) → splitLines (join [LF] lines) = lines
  | [], h, _ => absurd rfl h
  | [x], _, hc => by
    have hx := hc x (List.mem_singleton_self x)
    have := splitLines_append x [] hx.1 hx.2
    rw [List.append_nil] at this
    rw [join, this]
    simp [splitLines, prependToHead]
  | x :: y :: rest, _, hc => by
    have ih := splitLines_join (y :: rest) (List.cons_ne_nil _ _)
      (fun t ht => hc t (List.mem_cons_of_mem _ ht))
    have hx := hc x (List.mem_cons_self _ _)
    rw [join, List.append_assoc, splitLines_append _ _ hx.1 hx.2, List.singleton_append,
      splitLines_LF_cons, ih]
    simp [prependToHead]

theorem mem_join {c : Char} {sep : Text} : ∀ {xs : List Text}, c ∈ join sep xs →
    c ∈ sep ∨ ∃ x ∈ xs, c ∈ x
  | [], h => by simp [join] at h
  | [x], h => Or.inr ⟨x, List.mem_singleton_self x, by simpa [join] using h⟩
  | x :: y :: rest, h => by
    rw [join, List.append_assoc, List.mem_append, List.mem_append] at h
    rcases h with h | h | h
    · exact Or.inr ⟨x, List.mem_cons_self _ _, h⟩
    · exact Or.inl h
    · rcases mem_join h with h | ⟨z, hz, hcz⟩
      · exact Or.inl h
      · exact Or.inr ⟨z, List.mem_cons_of_mem _ hz, hcz⟩

/-- Parsing the tab- and newline-joined text of a grid of plain texts with non-empty rows
gives the grid back. -/
theorem defaultParsePaste_join (rows : List (List Text)) (hne : rows ≠ [])
    (hrow : ∀ row ∈ rows, row ≠ []) (hplain : ∀ row ∈ rows, ∀ t ∈ row, PlainText t) :
    defaultParsePaste (join [LF] (rows.map (join [TAB]))) = rows := by
  unfold defaultParsePaste
  rw [splitLines_join _ (by simpa using hne)]
  · rw [List.map_map]
    conv_rhs => rw [← List.map_id rows]
    apply List.map_congr_left
    intro row hr
    exact splitTab_join row (hrow row hr) (fun t ht => (hplain row hr t ht).1)
  · intro line hl
    rw [List.mem_map] at hl
    obtain ⟨row, hr, rfl⟩ := hl
    constructor
    · intro h
      rcases mem_join h with h | ⟨t, ht, hct⟩
      · exact TAB_ne_CR (List.mem_singleton.mp h).symm
      · exact (hplain row hr t ht).2.1 hct
    · intro h
      rcases mem_join h with h | ⟨t, ht, hct⟩
      · exact TAB_ne_LF (List.mem_singleton.mp h).symm
      · exact (hplain row hr t ht).2.2 hct

theorem mapList_done {α β : Type} (f : α → Run β) (g : α → β) :
    ∀ (xs : List α), (∀ a ∈ xs, f a = Run.done (g a)) →
      Run.mapList f xs = Run.done (xs.map g)
  | [], _ => rfl
  | a :: rest, h => by
    rw [Run.mapList, h a (List.mem_cons_self _ _),
      mapList_done f g rest (fun b hb => h b (List.mem_cons_of_mem _ hb))]
    rfl

theorem copyCell_of_cell {props : Props} {i j : Int} (h : (cellAt props.data i j).isSome) :
    copyCell props i j = Run.done (effectiveText props (cellAt props.data i j) i j) := by
  unfold copyCell
  unfold cellAt at h ⊢
  cases hr : rowAt props.data i with
  | none => rw [hr] at h; cases h
  | some row => rfl

theorem copy_then_parse_aux (props : Props) (state : State) (a b c d : Int)
    (hedit : state.editing = none)
    (hstart : (getState props state).start = some (Pos.ofInts a b))
    (hend : (getState props state).end_ = some (Pos.ofInts c d))
    (hcells : ∀ i j, min a c ≤ i → i ≤ max a c → min b d ≤ j → j ≤ max b d →
      (cellAt props.data i j).isSome ∧
      PlainText (effectiveText props (cellAt props.data i j) i j)) :
    ∃ text, handleCopy props state = Run.done [Call.setClipboard text] ∧
      defaultParsePaste text =
        (span (min a c) (max a c)).map fun i =>
          (span (min b d) (max b d)).map fun j =>
            effectiveText props (cellAt props.data i j) i j := by
  have hrows : Run.mapList (fun i =>
        match Run.mapList (fun j => copyCell props i j) (span (min b d) (max b d)) with
        | .done texts => Run.done (join [TAB] texts)
        | .typeError => .typeError
        | .outOfFuel => .outOfFuel) (span (min a c) (max a c))
      = Run.done ((span (min a c) (max a c)).map fun i =>
          join [TAB] ((span (min b d) (max b d)).map fun j =>
            effectiveText props (cellAt props.data i j) i j)) := by
    apply mapList_done
    intro i hi
    rw [mem_span] at hi
    rw [mapList_done (fun j => copyCell props i j)
      (fun j => effectiveText props (cellAt props.data i j) i j)]
    intro j hj
    rw [mem_span] at hj
    exact copyCell_of_cell (hcells i j hi.1 hi.2 hj.1 hj.2).1
  refine ⟨join [LF] ((span (min a c) (max a c)).map fun i =>
    join [TAB] ((span (min b d) (max b d)).map fun j =>
      effectiveText props (cellAt props.data i j) i j)), ?_, ?_⟩
  · unfold handleCopy
    simp only [hedit, isEmpty, Option.isNone_none, if_true, hstart, hend, coordI, coordJ,
      Option.some_bind, Pos.ofInts, range_eq_span]
    rw [hrows]
  · have := defaultParsePaste_join
      ((span (min a c) (max a c)).map fun i =>
        (span (min b d) (max b d)).map fun j =>
          effectiveText props (cellAt props.data i j) i j)
      (by simpa using span_ne_nil (min_le_max))
      (by
        intro row hr
        rw [List.mem_map] at hr
        obtain ⟨i, _, rfl⟩ := hr
        simpa using span_ne_nil (min_le_max))
      (by
        intro row hr t ht
        rw [List.mem_map] at hr
        obtain ⟨i, hi, rfl⟩ := hr
        rw [List.mem_map] at ht
        obtain ⟨j, hj, rfl⟩ := ht
        rw [mem_span] at hi hj
        exact (hcells i j hi.1 hi.2 hj.1 hj.2).2)
    rw [List.map_map] at this
    exact this

/-- The text `handleCopy` takes for a cell is the effective text of the specification. -/
theorem effectiveText_of_spec {props : Props} {cell : Option Cell} {i j : Int} {t : Text}
    (h : IsEffectiveText props cell i j t) : effectiveText props cell i j = t := by
  unfold IsEffectiveText at h
  unfold effectiveText
  cases hd : props.dataRenderer with
  | none =>
    simp only [hd] at h ⊢
    exact h
  | some render =>
    simp only [hd] at h ⊢
    rcases h with ⟨h1, h2⟩ | ⟨h1 | h1, h2⟩
    · rw [h1]
      cases t with
      | nil => exact absurd rfl h2
      | cons c cs => rfl
    · rw [h1]
      exact h2
    · rw [h1]
      exact h2

/-- Every cell has an effective text in the sense of the specification: the one
`handleCopy` takes. -/
theorem isEffectiveText_effectiveText (props : Props) (cell : Option Cell) (i j : Int) :
    IsEffectiveText props cell i j (effectiveText props cell i j) := by
  unfold IsEffectiveText effectiveText
  cases hd : props.dataRenderer with
  | none => simp only
  | some render =>
    simp only
    cases hr : render cell i j with
    | none => exact Or.inr ⟨Or.inl rfl, rfl⟩
    | some v =>
      cases v with
      | nil => exact Or.inr ⟨Or.inr rfl, rfl⟩
      | cons c cs => exact Or.inl ⟨rfl, by simp⟩

/-- C4: for a selection from `(a, b)` to `(c, d)` in any corner order, every position
`(i, j)` of which holds a cell whose effective text `texts i j` (the text of the data
renderer when one is supplied and it yields a non-empty text, else the text of the value
renderer) has no tab, carriage return or line feed, `defaultParsePaste` of the text
`handleCopy` sets on the clipboard is the grid of those texts, rows top to bottom and
columns left to right; and `handleCopy` does set a text when no cell is being edited. -/
theorem copy_then_parse_roundtrip (props : Props) (state : State) (a b c d : Int)
    (texts : Int → Int → Text)
    (hstart : (getState props state).start = some (Pos.ofInts a b))
    (hend : (getState props state).end_ = some (Pos.ofInts c d))
    (hcells : ∀ i j, min a c ≤ i → i ≤ max a c → min b d ≤ j → j ≤ max b d →
      (cellAt props.data i j).isSome ∧
      IsEffectiveText props (cellAt props.data i j) i j (texts i j) ∧
      PlainText (texts i j)) :
    (state.editing = none →
      ∃ text, handleCopy props state = Run.done [Call.setClipboard text]) ∧
    ∀ text, handleCopy props state = Run.done [Call.setClipboard text] →
      defaultParsePaste text =
        (span (min a c) (max a c)).map fun i =>
          (span (min b d) (max b d)).map fun j => texts i j := by
  have heff : ∀ i j, min a c ≤ i → i ≤ max a c → min b d ≤ j → j ≤ max b d →
      effectiveText props (cellAt props.data i j) i j = texts i j :=
    fun i j h1 h2 h3 h4 => effectiveText_of_spec (hcells i j h1 h2 h3 h4).2.1
  have hgrid : ((span (min a c) (max a c)).map fun i =>
      (span (min b d) (max b d)).map fun j =>
        effectiveText props (cellAt props.data i j) i j)
      = (span (min a c) (max a c)).map fun i =>
          (span (min b d) (max b d)).map fun j => texts i j := by
    apply List.map_congr_left
    intro i hi
    apply List.map_congr_left
    intro j hj
    rw [mem_span] at hi hj
    exact heff i j hi.1 hi.2 hj.1 hj.2
  cases hedit : state.editing with
  | none =>
    obtain ⟨text, h1, h2⟩ := copy_then_parse_aux props state a b c d hedit hstart hend
      (fun i j h1 h2 h3 h4 =>
        ⟨(hcells i j h1 h2 h3 h4).1, by
          rw [heff i j h1 h2 h3 h4]
          exact (hcells i j h1 h2 h3 h4).2.2⟩)
    refine ⟨fun _ => ⟨text, h1⟩, ?_⟩
    intro t ht
    rw [h1] at ht
    simp only [Run.done.injEq, List.cons.injEq, Call.setClipboard.injEq, and_true] at ht
    rw [← ht, h2, hgrid]
  | some p =>
    refine ⟨fun h => Option.noConfusion h, ?_⟩
    intro t ht
    simp [handleCopy, hedit, isEmpty] at ht

theorem grid2x2_raw_cells (i j : Int) (h1 : min 1 0 ≤ i) (h2 : i ≤ max 1 0)
    (h3 : min 1 0 ≤ j) (h4 : j ≤ max 1 0) :
    (cellAt (rawProps grid2x2).data i j).isSome ∧
      IsEffectiveText (rawProps grid2x2) (cellAt (rawProps grid2x2).data i j) i j
        (grid2x2RawTexts i j) ∧
      PlainText (grid2x2RawTexts i j) := by
  have hi : i = 0 ∨ i = 1 := by omega
  have hj : j = 0 ∨ j = 1 := by omega
  unfold PlainText IsEffectiveText
  rcases hi with rfl | rfl <;> rcases hj with rfl | rfl <;>
    simp only [rawProps] <;> decide

theorem copy_then_parse_roundtrip_witness :
    handleCopy (rawProps grid2x2) (selectionState 1 1 0 0)
      = Run.done [Call.setClipboard ['=', 'a', TAB, 'b', LF, '=', 'c', TAB, 'd']] ∧
    defaultParsePaste ['=', 'a', TAB, 'b', LF, '=', 'c', TAB, 'd']
      = [[['=', 'a'], ['b']], [['=', 'c'], ['d']]] ∧
    (span (min 1 0) (max 1 0)).map (fun i =>
        (span (min 1 0) (max 1 0)).map fun j => grid2x2RawTexts i j)
      = [[['=', 'a'], ['b']], [['=', 'c'], ['d']]] ∧
    ((selectionState 1 1 0 0).editing = none →
      ∃ text, handleCopy (rawProps grid2x2) (selectionState 1 1 0 0)
        = Run.done [Call.setClipboard text]) ∧
    ∀ text, handleCopy (rawProps grid2x2) (selectionState 1 1 0 0)
        = Run.done [Call.setClipboard text] →
      defaultParsePaste text =
        (span (min 1 0) (max 1 0)).map fun i =>
          (span (min 1 0) (max 1 0)).map fun j => grid2x2RawTexts i j :=
  ⟨by decide, by decide, by decide,
    copy_then_parse_roundtrip (rawProps grid2x2) (selectionState 1 1 0 0) 1 1 0 0
      grid2x2RawTexts rfl rfl grid2x2_raw_cells⟩

/-! ## Clearing the selection -/

theorem span_pairwise (lo hi : Int) : (span lo hi).Pairwise (· < ·) := by
  unfold span
  rw [List.pairwise_map]
  exact (List.pairwise_lt_range _).imp (by intro x y h; omega)

theorem mem_getSelectedCells (data : Grid) (a b c d : Int) (s : SelectedCell) :
    s ∈ getSelectedCells data (some (Pos.ofInts a b)) (some (Pos.ofInts c d)) ↔
      min a c ≤ s.row ∧ s.row ≤ max a c ∧ min b d ≤ s.col ∧ s.col ≤ max b d ∧
        cellAt data s.row s.col = some s.cell := by
  unfold getSelectedCells
  simp only [coordI, coordJ, Option.some_bind, Pos.ofInts, range_eq_span, List.mem_flatten,
    List.mem_map, List.mem_filterMap, Option.map_eq_some', mem_span]
  constructor
  · rintro ⟨l, ⟨r, hr, rfl⟩, hs⟩
    simp only [List.mem_filterMap, Option.map_eq_some', mem_span] at hs
    obtain ⟨col, hc, cell, hcell, rfl⟩ := hs
    exact ⟨hr.1, hr.2, hc.1, hc.2, hcell⟩
  · rintro ⟨h1, h2, h3, h4, h5⟩
    refine ⟨_, ⟨s.row, ⟨h1, h2⟩, rfl⟩, ?_⟩
    simp only [List.mem_filterMap, Option.map_eq_some', mem_span]
    exact ⟨s.col, ⟨h3, h4⟩, s.cell, h5, rfl⟩

theorem getSelectedCells_pairwise (data : Grid) (start end_ : Option Pos) :
    (getSelectedCells data start end_).Pairwise
      fun s t => rowMajorLt ⟨s.row, s.col⟩ ⟨t.row, t.col⟩ := by
  have hspan : ∀ x y : Num, (range x y).Pairwise (· < ·) := by
    intro x y
    cases x with
    | none => rw [range_none_left]; exact List.Pairwise.nil
    | some x =>
      cases y with
      | none => rw [range_none_right]; exact List.Pairwise.nil
      | some y => rw [range_eq_span]; exact span_pairwise _ _
  unfold getSelectedCells
  rw [List.pairwise_flatten]
  constructor
  · intro l hl
    rw [List.mem_map] at hl
    obtain ⟨r, _, rfl⟩ := hl
    rw [List.pairwise_filterMap]
    refine (hspan _ _).imp ?_
    intro c1 c2 hlt s hs t ht
    simp only [Option.mem_def, Option.map_eq_some'] at hs ht
    obtain ⟨_, _, rfl⟩ := hs
    obtain ⟨_, _, rfl⟩ := ht
    exact Or.inr ⟨rfl, hlt⟩
  · rw [List.pairwise_map]
    refine (hspan _ _).imp ?_
    intro r1 r2 hlt s hs t ht
    simp only [List.mem_filterMap, Option.map_eq_some'] at hs ht
    obtain ⟨_, _, _, _, rfl⟩ := hs
    obtain ⟨_, _, _, _, rfl⟩ := ht
    exact Or.inl hlt

/-- C5, as amended: `clearSelectedCells` on the corners `(a, b)` and `(c, d)`, in any
order, works on the list `cells`, strictly ascending in row-major order (so no position
occurs twice), whose entries are exactly the updates with value `''` at the positions of
the normalized rectangle holding a cell that is not read-only.  It emits `cells` in one
`onCellsChanged` call when that callback is supplied, else in one `onChange` call per
entry, in order, when that one is supplied, and emits nothing when neither is. -/
theorem clearSelectedCells_updates (props : Props) (state : State) (a b c d : Int) :
    ∃ cells : List Change,
      (clearSelectedCells props state (some (Pos.ofInts a b)) (some (Pos.ofInts c d))).2
        = (if props.onCellsChanged then [Call.onCellsChanged cells none]
           else if props.onChange then
             cells.map fun u => Call.onChange u.cell u.row u.col u.value
           else []) ∧
      cells.Pairwise (fun u v => rowMajorLt ⟨u.row, u.col⟩ ⟨v.row, v.col⟩) ∧
      ∀ u : Change, u ∈ cells ↔
        (u.value = [] ∧ min a c ≤ u.row ∧ u.row ≤ max a c ∧
          min b d ≤ u.col ∧ u.col ≤ max b d ∧
          cellAt props.data u.row u.col = some u.cell ∧ u.cell.readOnly = false) := by
  refine ⟨clearedCells props.data (some (Pos.ofInts a b)) (some (Pos.ofInts c d)), ?_, ?_, ?_⟩
  · unfold clearSelectedCells onRevert _setState
    cases h1 : props.onCellsChanged with
    | true => simp [Patch.none]
    | false =>
      cases h2 : props.onChange with
      | true => simp [Patch.none]
      | false => simp
  · unfold clearedCells
    rw [List.pairwise_map]
    exact (getSelectedCells_pairwise _ _ _).filter _
  · intro u
    unfold clearedCells
    simp only [List.mem_map, List.mem_filter, mem_getSelectedCells, Bool.not_eq_true',
      Bool.not_eq_eq_eq_not, Bool.not_true]
    constructor
    · rintro ⟨s, ⟨⟨h1, h2, h3, h4, h5⟩, h6⟩, rfl⟩
      exact ⟨rfl, h1, h2, h3, h4, h5, h6⟩
    · rintro ⟨h0, h1, h2, h3, h4, h5, h6⟩
      refine ⟨⟨u.cell, u.row, u.col⟩, ⟨⟨h1, h2, h3, h4, h5⟩, h6⟩, ?_⟩
      cases u
      simp only at h0
      subst h0
      rfl

theorem clearSelectedCells_updates_witness :
    (clearSelectedCells (sampleProps gridReadOnly) (selectionState 1 1 0 0)
        (some (Pos.ofInts 1 1)) (some (Pos.ofInts 0 0))).2
      = [Call.onCellsChanged
          [⟨mkCell ['a'], 0, 0, []⟩, ⟨mkCell ['c'], 1, 0, []⟩, ⟨mkCell ['d'], 1, 1, []⟩]
          none] ∧
    ∃ cells : List Change,
      (clearSelectedCells (sampleProps gridReadOnly) (selectionState 1 1 0 0)
          (some (Pos.ofInts 1 1)) (some (Pos.ofInts 0 0))).2
        = (if (sampleProps gridReadOnly).onCellsChanged then [Call.onCellsChanged cells none]
           else if (sampleProps gridReadOnly).onChange then
             cells.map fun u => Call.onChange u.cell u.row u.col u.value
           else []) ∧
      cells.Pairwise (fun u v => rowMajorLt ⟨u.row, u.col⟩ ⟨v.row, v.col⟩) ∧
      ∀ u : Change, u ∈ cells ↔
        (u.value = [] ∧ min 1 0 ≤ u.row ∧ u.row ≤ max 1 0 ∧
          min 1 0 ≤ u.col ∧ u.col ≤ max 1 0 ∧
          cellAt (sampleProps gridReadOnly).data u.row u.col = some u.cell ∧
          u.cell.readOnly = false) :=
  ⟨by decide,
    clearSelectedCells_updates (sampleProps gridReadOnly) (selectionState 1 1 0 0)
      1 1 0 0⟩

/-- C5 as stated fails: with neither `onCellsChanged` nor `onChange` supplied, clearing
the whole of a 2 by 2 grid with three cells that are not read-only emits nothing. -/
theorem clearSelectedCells_without_channel_emits_nothing :
    clearedCells (noChannelProps gridReadOnly).data
        (some (Pos.ofInts 1 1)) (some (Pos.ofInts 0 0))
      = [⟨mkCell ['a'], 0, 0, []⟩, ⟨mkCell ['c'], 1, 0, []⟩, ⟨mkCell ['d'], 1, 1, []⟩] ∧
    clearSelectedCells (noChannelProps gridReadOnly) (selectionState 1 1 0 0)
        (some (Pos.ofInts 1 1)) (some (Pos.ofInts 0 0))
      = (selectionState 1 1 0 0, []) := by
  decide

/-! ## Releasing a copydown drag -/

theorem jsBitOr_left (d : Int) (h1 : -2147483648 ≤ d) (h2 : d < 2147483648) :
    jsBitOr (some d) none = d := by
  unfold jsBitOr toUint32
  simp only [Nat.or_zero]
  split <;> omega

theorem jsBitOr_right (d : Int) (h1 : -2147483648 ≤ d) (h2 : d < 2147483648) :
    jsBitOr none (some d) = d := by
  unfold jsBitOr toUint32
  simp only [Nat.zero_or]
  split <;> omega

theorem copydownLoop_eq (data : Grid) (vertical : Bool) (r c : Int) (value : Text) :
    ∀ (count : Nat) (x : Int) (changes : List Change),
      (∀ y, x ≤ y → y < x + count →
        (cellAt data (if vertical then y else r) (if vertical then c else y)).isSome) →
      copydownLoop data vertical (if vertical then c else r) value count x changes
        = Run.done (changes ++ fillChanges data vertical r c value x (x + count - 1)) := by
  intro count
  induction count with
  | zero =>
    intro x changes _
    simp [copydownLoop, fillChanges, span_empty]
  | succ n ih =>
    intro x changes h
    have hx := h x (le_refl x) (by omega)
    have hrest := fun acc => ih (x + 1) acc (fun y h1 h2 => h y (by omega) (by push_cast; omega))
    have hspan : span x (x + ((n + 1 : Nat) : Int) - 1)
        = x :: span (x + 1) (x + 1 + (n : Int) - 1) := by
      rw [span_cons (by push_cast; omega)]
      congr 2
      push_cast
      ring
    unfold fillChanges at hrest ⊢
    rw [hspan, List.filterMap_cons]
    cases vertical with
    | true =>
      simp only [if_true] at hx hrest ⊢
      obtain ⟨cell, hcell⟩ := Option.isSome_iff_exists.mp hx
      simp only [copydownLoop, if_true, hcell]
      rw [hrest]
      cases cell.readOnly <;> simp
    | false =>
      simp only [Bool.false_eq_true, if_false] at hx hrest ⊢
      obtain ⟨cell, hcell⟩ := Option.isSome_iff_exists.mp hx
      simp only [copydownLoop, Bool.false_eq_true, if_false, hcell]
      rw [hrest]
      cases cell.readOnly <;> simp

theorem setState_reset (props : Props) (state : State) :
    _setState props state
      { Patch.none with selecting := some false, copydownDragging := some false,
                        copydownTarget := some CopydownTarget.empty }
      = ({ state with selecting := false, copydownDragging := false,
                      copydownTarget := CopydownTarget.empty }, []) := by
  simp [_setState, setState, Patch.none]

/-- The release of a copydown drag, once the source cell is read and the loop has run. -/
theorem onMouseUp_of_loop (props : Props) (state : State) (r c : Int) (source : Cell)
    (changes : List Change)
    (hdrag : state.copydownDragging = true)
    (hne : state.copydownTarget.isEmpty = false)
    (hstart : state.start = some (Pos.ofInts r c))
    (hsrc : cellAt props.data r c = some source)
    (hchan : props.onCellsChanged = true)
    (hloop : copydownLoop props.data (jsTruthy state.copydownTarget.i.join)
      (if jsTruthy state.copydownTarget.i.join then c else r) source.value
      ((if jsTruthy state.copydownTarget.i.join then
          (if jsBitOr state.copydownTarget.i.join state.copydownTarget.j.join > 0
            then r + jsBitOr state.copydownTarget.i.join state.copydownTarget.j.join
            else r - 1)
        else
          (if jsBitOr state.copydownTarget.i.join state.copydownTarget.j.join > 0
            then c + jsBitOr state.copydownTarget.i.join state.copydownTarget.j.join
            else c - 1))
        - (if jsTruthy state.copydownTarget.i.join then
          (if jsBitOr state.copydownTarget.i.join state.copydownTarget.j.join > 0
            then r + 1
            else r + jsBitOr state.copydownTarget.i.join state.copydownTarget.j.join)
        else
          (if jsBitOr state.copydownTarget.i.join state.copydownTarget.j.join > 0
            then c + 1
            else c + jsBitOr state.copydownTarget.i.join state.copydownTarget.j.join))
        + 1).toNat
      (if jsTruthy state.copydownTarget.i.join then
          (if jsBitOr state.copydownTarget.i.join state.copydownTarget.j.join > 0
            then r + 1
            else r + jsBitOr state.copydownTarget.i.join state.copydownTarget.j.join)
        else
          (if jsBitOr state.copydownTarget.i.join state.copydownTarget.j.join > 0
            then c + 1
            else c + jsBitOr state.copydownTarget.i.join state.copydownTarget.j.join))
      [] = Run.done changes) :
    onMouseUp props state =
      Run.done
        ({ state with selecting := false, copydownDragging := false,
                      copydownTarget := CopydownTarget.empty },
          if changes = [] then [] else [Call.onCellsChanged changes none]) := by
  unfold onMouseUp
  simp only [hdrag, hne, Bool.not_false, Bool.and_self, if_true, hstart, coordI, coordJ,
    Pos.ofInts, Option.some_bind, hsrc, hloop, setState_reset, hchan]
  cases changes with
  | nil => simp
  | cons u us => simp

/-- C6, as amended: for a copydown drag from the single selected cell `(r, c)` holding
`source`, with the batch channel supplied, a target `{ i: d }` (vertical) or `{ j: d }`
(horizontal) with `d` a non-zero signed 32-bit integer, and cells at all the target
positions, the release resets the drag state and emits the fill of the target range
(`base + 1 .. base + d` for `d > 0`, `base + d .. base - 1` for `d < 0`, ascending,
read-only cells skipped, each with the source value) as one `onCellsChanged` batch when
the fill is not empty, and emits nothing when it is empty. -/
theorem onMouseUp_copydown (props : Props) (state : State) (r c d : Int) (source : Cell)
    (vertical : Bool)
    (hdrag : state.copydownDragging = true)
    (hstart : state.start = some (Pos.ofInts r c))
    (_hend : state.end_ = some (Pos.ofInts r c))
    (hsrc : cellAt props.data r c = some source)
    (htarget : state.copydownTarget
      = if vertical then ⟨some (some d), none⟩ else ⟨none, some (some d)⟩)
    (hd0 : d ≠ 0) (hd1 : -2147483648 ≤ d) (hd2 : d < 2147483648)
    (hchan : props.onCellsChanged = true)
    (hcells : ∀ x,
      (if d > 0 then (if vertical then r else c) + 1 else (if vertical then r else c) + d) ≤ x →
      x ≤ (if d > 0 then (if vertical then r else c) + d else (if vertical then r else c) - 1) →
      (cellAt props.data (if vertical then x else r) (if vertical then c else x)).isSome) :
    onMouseUp props state =
      Run.done
        ({ state with selecting := false, copydownDragging := false,
                      copydownTarget := CopydownTarget.empty },
          if fillChanges props.data vertical r c source.value
              (if d > 0 then (if vertical then r else c) + 1
                else (if vertical then r else c) + d)
              (if d > 0 then (if vertical then r else c) + d
                else (if vertical then r else c) - 1) = [] then []
          else [Call.onCellsChanged
            (fillChanges props.data vertical r c source.value
              (if d > 0 then (if vertical then r else c) + 1
                else (if vertical then r else c) + d)
              (if d > 0 then (if vertical then r else c) + d
                else (if vertical then r else c) - 1)) none]) := by
  have htr : jsTruthy (some d) = true := by simp [jsTruthy, hd0]
  have htn : jsTruthy none = false := rfl
  apply onMouseUp_of_loop props state r c source _ hdrag _ hstart hsrc hchan
  · cases vertical with
    | true =>
      simp only [if_true] at htarget hcells ⊢
      have hi : state.copydownTarget.i.join = some d := by rw [htarget]; rfl
      have hj : state.copydownTarget.j.join = none := by rw [htarget]; rfl
      rw [hi, hj, htr, jsBitOr_left d hd1 hd2]
      simp only [if_true]
      by_cases hpos : d > 0
      · simp only [hpos, if_true] at hcells ⊢
        have hloop := copydownLoop_eq props.data true r c source.value d.toNat (r + 1) []
          (fun y h1 h2 => hcells y h1 (by omega))
        simp only [if_true, List.nil_append] at hloop
        rw [show r + 1 + (d.toNat : Int) - 1 = r + d by omega] at hloop
        rw [show (r + d - (r + 1) + 1).toNat = d.toNat by omega, hloop]
      · simp only [hpos, if_false] at hcells ⊢
        have hloop := copydownLoop_eq props.data true r c source.value (-d).toNat (r + d) []
          (fun y h1 h2 => hcells y h1 (by omega))
        simp only [if_true, List.nil_append] at hloop
        rw [show r + d + ((-d).toNat : Int) - 1 = r - 1 by omega] at hloop
        rw [show (r - 1 - (r + d) + 1).toNat = (-d).toNat by omega, hloop]
    | false =>
      simp only [Bool.false_eq_true, if_false] at htarget hcells ⊢
      have hi : state.copydownTarget.i.join = none := by rw [htarget]; rfl
      have hj : state.copydownTarget.j.join = some d := by rw [htarget]; rfl
      rw [hi, hj, htn, jsBitOr_right d hd1 hd2]
      simp only [Bool.false_eq_true, if_false]
      by_cases hpos : d > 0
      · simp only [hpos, if_true] at hcells ⊢
        have hloop := copydownLoop_eq props.data false r c source.value d.toNat (c + 1) []
          (fun y h1 h2 => hcells y h1 (by omega))
        simp only [Bool.false_eq_true, if_false, List.nil_append] at hloop
        rw [show c + 1 + (d.toNat : Int) - 1 = c + d by omega] at hloop
        rw [show (c + d - (c + 1) + 1).toNat = d.toNat by omega, hloop]
      · simp only [hpos, if_false] at hcells ⊢
        have hloop := copydownLoop_eq props.data false r c source.value (-d).toNat (c + d) []
          (fun y h1 h2 => hcells y h1 (by omega))
        simp only [Bool.false_eq_true, if_false, List.nil_append] at hloop
        rw [show c + d + ((-d).toNat : Int) - 1 = c - 1 by omega] at hloop
        rw [show (c - 1 - (c + d) + 1).toNat = (-d).toNat by omega, hloop]
  · rw [htarget]
    cases vertical <;> rfl

theorem gridColumn_cells (x : Int)
    (h1 : (if (2 : Int) > 0 then (if true then (0 : Int) else 0) + 1
      else (if true then (0 : Int) else 0) + 2) ≤ x)
    (h2 : x ≤ (if (2 : Int) > 0 then (if true then (0 : Int) else 0) + 2
      else (if true then (0 : Int) else 0) - 1)) :
    (cellAt (sampleProps gridColumn).data (if true then x else 0)
      (if true then 0 else x)).isSome := by
  simp only [if_true, gt_iff_lt, Nat.ofNat_pos, zero_add] at h1 h2 ⊢
  have hx : x = 1 ∨ x = 2 := by omega
  rcases hx with rfl | rfl <;> decide

theorem onMouseUp_copydown_witness :
    onMouseUp (sampleProps gridColumn) (copydownState 0 0 ⟨some (some 2), none⟩)
      = Run.done (selectionState 0 0 0 0,
          [Call.onCellsChanged
            [⟨mkCell ['y'], 1, 0, ['x']⟩, ⟨mkCell ['z'], 2, 0, ['x']⟩] none]) := by
  rw [onMouseUp_copydown (sampleProps gridColumn) (copydownState 0 0 ⟨some (some 2), none⟩)
    0 0 2 (mkCell ['x']) true rfl rfl rfl rfl rfl (by decide) (by decide) (by decide) rfl
    gridColumn_cells]
  decide

/-- C6 as stated fails: when the only target cell is read-only the release emits no batch
at all, not one batch with no update. -/
theorem onMouseUp_copydown_all_readOnly_no_batch :
    onMouseUp (sampleProps gridLocked) (copydownState 0 0 ⟨some (some 1), none⟩)
      = Run.done (selectionState 0 0 0 0, []) := by
  decide

/-! ## The copydown target -/

theorem ite_target_ne_empty (p : Prop) [Decidable p] (x y : Num) :
    (if p then (⟨some x, none⟩ : CopydownTarget) else ⟨none, some y⟩) ≠ ⟨none, none⟩ := by
  split <;> simp

/-- C7: for corners `(a, b)` and `(c, d)` in any order and a hovered cell `(i, j)`,
`calculateCopydownTarget` gives the empty target exactly when `(i, j)` is within both the
row and the column bounds; with the column within bounds and the row outside it gives
only `i`, set to `i - minRow` (negative) above and `i - maxRow` (positive) below; with
the row within bounds and the column outside it gives only `j`, likewise. -/
theorem calculateCopydownTarget_spec (a b c d i j : Int) :
    (calculateCopydownTarget (some (Pos.ofInts a b)) (some (Pos.ofInts c d)) i j
        = CopydownTarget.empty ↔
      (min a c ≤ i ∧ i ≤ max a c) ∧ (min b d ≤ j ∧ j ≤ max b d)) ∧
    (i < min a c → min b d ≤ j → j ≤ max b d →
      i - min a c < 0 ∧
      calculateCopydownTarget (some (Pos.ofInts a b)) (some (Pos.ofInts c d)) i j
        = ⟨some (some (i - min a c)), none⟩) ∧
    (max a c < i → min b d ≤ j → j ≤ max b d →
      0 < i - max a c ∧
      calculateCopydownTarget (some (Pos.ofInts a b)) (some (Pos.ofInts c d)) i j
        = ⟨some (some (i - max a c)), none⟩) ∧
    (j < min b d → min a c ≤ i → i ≤ max a c →
      j - min b d < 0 ∧
      calculateCopydownTarget (some (Pos.ofInts a b)) (some (Pos.ofInts c d)) i j
        = ⟨none, some (some (j - min b d))⟩) ∧
    (max b d < j → min a c ≤ i → i ≤ max a c →
      0 < j - max b d ∧
      calculateCopydownTarget (some (Pos.ofInts a b)) (some (Pos.ofInts c d)) i j
        = ⟨none, some (some (j - max b d))⟩) := by
  have hmin1 := min_le_max (a := a) (b := c)
  have hmin2 := min_le_max (a := b) (b := d)
  simp only [calculateCopydownTarget, coordI, coordJ, Pos.ofInts, Option.some_bind, jsMin,
    jsMax, jsGe, jsLe, jsLt, jsSub, jsAbs, Option.map_some', CopydownTarget.empty]
  generalize min a c = r0 at *
  generalize max a c = r1 at *
  generalize min b d = c0 at *
  generalize max b d = c1 at *
  by_cases h1 : r0 ≤ i <;> by_cases h2 : i ≤ r1 <;> by_cases h3 : c0 ≤ j <;>
    by_cases h4 : j ≤ c1 <;>
    simp [h1, h2, h3, h4] <;> first | omega | exact ite_target_ne_empty _ _ _

theorem calculateCopydownTarget_spec_witness :
    calculateCopydownTarget (some (Pos.ofInts 0 0)) (some (Pos.ofInts 0 0)) 2 0
      = ⟨some (some 2), none⟩ :=
  ((calculateCopydownTarget_spec 0 0 0 0 2 0).2.2.1 (by decide) (by decide) (by decide)).2

/-- C8, at a failing input: under a controlled selection on the single cell `(0, 0)`,
grabbing the copydown handle of that cell (it is the sole selected one) and hovering
`(1, 0)` leaves `copydownTarget = { j: NaN }`.  Under a controlled selection
`this.state.start` and `this.state.end` stay `{}`, and `onMouseOver` reads them rather
than `getState()`. -/
theorem copydownTarget_NaN_under_controlled_selection :
    isSingleSelected (controlledProps grid2x2) defaultState 0 0 = true ∧
    (onMouseDown (controlledProps grid2x2) defaultState 0 0 false true).1.copydownDragging
      = true ∧
    (onMouseOver (controlledProps grid2x2)
        (onMouseDown (controlledProps grid2x2) defaultState 0 0 false true).1 1 0).1.copydownTarget
      = ⟨none, some none⟩ := by
  decide

/-! ## `isSelected` -/

/-- C9: with the corners `(a, b)` and `(c, d)` read through `getState`, in whichever
order, `isSelected(i, j)` holds exactly when `i` and `j` lie between the per-axis minimum
and maximum of the corners; with an empty selection it is false for every cell. -/
theorem isSelected_spec (props : Props) (state : State) (i j : Int) :
    (∀ a b c d : Int,
      (getState props state).start = some (Pos.ofInts a b) →
      (getState props state).end_ = some (Pos.ofInts c d) →
      (isSelected props state i j = true ↔
        min a c ≤ i ∧ i ≤ max a c ∧ min b d ≤ j ∧ j ≤ max b d)) ∧
    ((getState props state).start = none → (getState props state).end_ = none →
      isSelected props state i j = false) := by
  constructor
  · intro a b c d hs he
    simp only [isSelected, hs, he, coordI, coordJ, Pos.ofInts, Option.some_bind, jsGe, jsLe,
      Bool.or_eq_true, Bool.and_eq_true, decide_eq_true_eq]
    omega
  · intro hs he
    simp [isSelected, hs, he, coordI, coordJ, jsGe, jsLe]

theorem isSelected_spec_witness :
    isSelected (sampleProps grid2x2) (selectionState 1 1 0 0) 0 1 = true ∧
    isSelected (sampleProps grid2x2) defaultState 0 0 = false :=
  ⟨((isSelected_spec (sampleProps grid2x2) (selectionState 1 1 0 0) 0 1).1 1 1 0 0 rfl rfl).mpr
      (by decide),
    (isSelected_spec (sampleProps grid2x2) defaultState 0 0).2 rfl rfl⟩

/-! ## Paste through the batch channel -/

theorem mem_rowEntries (i : Nat) : ∀ (row : List Text) (j0 i2 j2 : Nat) (v : Text),
    (i2, j2, v) ∈ rowEntries i row j0 ↔ i2 = i ∧ j0 ≤ j2 ∧ row[j2 - j0]? = some v := by
  intro row
  induction row with
  | nil => intro j0 i2 j2 v; simp [rowEntries]
  | cons v0 rest ih =>
    intro j0 i2 j2 v
    simp only [rowEntries, List.mem_cons, Prod.mk.injEq, ih]
    constructor
    · rintro (⟨rfl, rfl, rfl⟩ | ⟨rfl, h1, h2⟩)
      · simp
      · refine ⟨rfl, by omega, ?_⟩
        rw [show j2 - j0 = (j2 - (j0 + 1)) + 1 by omega, List.getElem?_cons_succ]
        exact h2
    · rintro ⟨rfl, h1, h2⟩
      by_cases hj : j2 = j0
      · subst hj
        simp only [Nat.sub_self, List.getElem?_cons_zero, Option.some.injEq] at h2
        exact Or.inl ⟨rfl, rfl, h2.symm⟩
      · right
        refine ⟨rfl, by omega, ?_⟩
        rw [show j2 - j0 = (j2 - (j0 + 1)) + 1 by omega, List.getElem?_cons_succ] at h2
        exact h2

theorem mem_gridEntries : ∀ (rows : List (List Text)) (i0 i2 j2 : Nat) (v : Text),
    (i2, j2, v) ∈ gridEntries rows i0 ↔
      i0 ≤ i2 ∧ ∃ row, rows[i2 - i0]? = some row ∧ row[j2]? = some v := by
  intro rows
  induction rows with
  | nil => intro i0 i2 j2 v; simp [gridEntries]
  | cons row0 rest ih =>
    intro i0 i2 j2 v
    simp only [gridEntries, List.mem_append, mem_rowEntries, ih, Nat.sub_zero, Nat.zero_le,
      true_and]
    constructor
    · rintro (⟨rfl, h⟩ | ⟨h1, row, h2, h3⟩)
      · exact ⟨le_refl _, row0, by simp, h⟩
      · refine ⟨by omega, row, ?_, h3⟩
        rw [show i2 - i0 = (i2 - (i0 + 1)) + 1 by omega, List.getElem?_cons_succ]
        exact h2
    · rintro ⟨h1, row, h2, h3⟩
      by_cases hi : i2 = i0
      · subst hi
        simp only [Nat.sub_self, List.getElem?_cons_zero, Option.some.injEq] at h2
        subst h2
        exact Or.inl ⟨rfl, h3⟩
      · right
        refine ⟨by omega, row, ?_, h3⟩
        rw [show i2 - i0 = (i2 - (i0 + 1)) + 1 by omega, List.getElem?_cons_succ] at h2
        exact h2

theorem mem_gridEntries_zero (rows : List (List Text)) (i j : Nat) (v : Text) :
    (i, j, v) ∈ gridEntries rows 0 ↔ PastedAt rows i j v := by
  rw [mem_gridEntries]
  simp [PastedAt]

theorem pasteCellsRow_eq (data : Grid) (r0 c0 : Int) (i : Nat) :
    ∀ (row : List Text) (j : Nat) (acc : PasteAcc),
      (pasteCellsRow data ⟨some r0, some c0⟩ i row j acc).changes
        = acc.changes ++ (rowEntries i row j).filterMap (toChange data r0 c0) ∧
      (pasteCellsRow data ⟨some r0, some c0⟩ i row j acc).additions
        = acc.additions ++ (rowEntries i row j).filterMap (toAddition data r0 c0) := by
  intro row
  induction row with
  | nil => intro j acc; simp [pasteCellsRow, rowEntries]
  | cons v rest ih =>
    intro j acc
    simp only [pasteCellsRow, jsAdd, rowEntries, List.filterMap_cons, toChange, toAddition]
    cases hcell : cellAt data (r0 + (i : Int)) (c0 + (j : Int)) with
    | none =>
      simp only
      have := ih (j + 1)
        { acc with additions := acc.additions ++ [⟨some (r0 + i), some (c0 + j), v⟩],
                   end_ := ⟨some (r0 + i), some (c0 + j)⟩ }
      rw [this.1, this.2]
      simp
    | some cell =>
      cases hro : cell.readOnly with
      | true =>
        simp only [hro, Bool.not_true, Bool.false_eq_true, if_false, if_true]
        have := ih (j + 1) { acc with end_ := ⟨some (r0 + i), some (c0 + j)⟩ }
        rw [this.1, this.2]
        simp
      | false =>
        simp only [hro, Bool.not_false, if_true, Bool.false_eq_true, if_false]
        have := ih (j + 1)
          { acc with changes := acc.changes ++ [⟨cell, r0 + i, c0 + j, v⟩],
                     end_ := ⟨some (r0 + i), some (c0 + j)⟩ }
        rw [this.1, this.2]
        simp

theorem pasteCellsRows_eq (data : Grid) (r0 c0 : Int) :
    ∀ (rows : List (List Text)) (i : Nat) (acc : PasteAcc),
      (pasteCellsRows data ⟨some r0, some c0⟩ rows i acc).changes
        = acc.changes ++ (gridEntries rows i).filterMap (toChange data r0 c0) ∧
      (pasteCellsRows data ⟨some r0, some c0⟩ rows i acc).additions
        = acc.additions ++ (gridEntries rows i).filterMap (toAddition data r0 c0) := by
  intro rows
  induction rows with
  | nil => intro i acc; simp [pasteCellsRows, gridEntries]
  | cons row rest ih =>
    intro i acc
    simp only [pasteCellsRows, gridEntries, List.filterMap_append]
    have h1 := ih (i + 1) (pasteCellsRow data ⟨some r0, some c0⟩ i row 0 acc)
    have h2 := pasteCellsRow_eq data r0 c0 i row 0 acc
    rw [h1.1, h1.2, h2.1, h2.2]
    simp

theorem toAddition_eq_some (data : Grid) (r0 c0 : Int) (e : Nat × Nat × Text) (x : Addition) :
    toAddition data r0 c0 e = some x ↔
      cellAt data (r0 + e.1) (c0 + e.2.1) = none ∧
        x = ⟨some (r0 + e.1), some (c0 + e.2.1), e.2.2⟩ := by
  unfold toAddition
  cases cellAt data (r0 + e.1) (c0 + e.2.1) with
  | none => simp [eq_comm]
  | some cell => simp

theorem toChange_eq_some (data : Grid) (r0 c0 : Int) (e : Nat × Nat × Text) (u : Change) :
    toChange data r0 c0 e = some u ↔
      cellAt data (r0 + e.1) (c0 + e.2.1) = some u.cell ∧ u.cell.readOnly = false ∧
        u.row = r0 + e.1 ∧ u.col = c0 + e.2.1 ∧ u.value = e.2.2 := by
  unfold toChange
  cases hc : cellAt data (r0 + e.1) (c0 + e.2.1) with
  | none => simp
  | some cell =>
    constructor
    · intro h
      by_cases hro : cell.readOnly = true
      · simp [hro] at h
      · simp only [hro, Bool.false_eq_true, if_false, Option.some.injEq] at h
        subst h
        exact ⟨rfl, by simpa using hro, rfl, rfl, rfl⟩
    · rintro ⟨h1, h2, h3, h4, h5⟩
      simp only [Option.some.injEq] at h1
      subst h1
      simp only [h2, Bool.false_eq_true, if_false, Option.some.injEq]
      cases u
      simp only at h3 h4 h5
      subst h3 h4 h5
      rfl

theorem setState_end_calls (props : Props) (state : State) (e : Pos) :
    ∀ x ∈ (_setState props state { Patch.none with end_ := some (some e) }).2,
      ∃ s t, x = Call.onSelect s t := by
  intro x hx
  unfold _setState at hx
  split at hx
  · split at hx
    · simp only [List.mem_singleton] at hx
      exact ⟨_, _, hx⟩
    · cases hx
  · cases hx

/-- With `onCellsChanged` supplied and no cell being edited, a paste into the selection
with corners `(a, b)` and `(c, d)` calls `onCellsChanged` exactly once, with the updates
and additions that the pasted values give at their targets, and otherwise only makes
`onSelect` calls. -/
theorem handlePaste_batch_idle (props : Props) (state : State) (clipboard : Option Text)
    (a b c d : Int)
    (hchan : props.onCellsChanged = true)
    (hedit : state.editing = none)
    (hstart : (getState props state).start = some (Pos.ofInts a b))
    (hend : (getState props state).end_ = some (Pos.ofInts c d)) :
    ∃ (updates : List Change) (additions : List Addition) (selectCalls : List Call),
      (handlePaste props state clipboard).2
        = [Call.onCellsChanged updates (if additions = [] then none else some additions)]
          ++ selectCalls ∧
      (∀ x ∈ selectCalls, ∃ s t, x = Call.onSelect s t) ∧
      (∀ i j v, PastedAt (pasteDataOf props clipboard) i j v →
        (((⟨some (min a c + i), some (min b d + j), v⟩ : Addition) ∈ additions ↔
            cellAt props.data (min a c + i) (min b d + j) = none) ∧
         ((∃ cell, (⟨cell, min a c + i, min b d + j, v⟩ : Change) ∈ updates) ↔
            ∃ cell, cellAt props.data (min a c + i) (min b d + j) = some cell ∧
              cell.readOnly = false) ∧
         ((((⟨some (min a c + i), some (min b d + j), v⟩ : Addition) ∉ additions) ∧
            ¬ ∃ cell, (⟨cell, min a c + i, min b d + j, v⟩ : Change) ∈ updates) ↔
            ∃ cell, cellAt props.data (min a c + i) (min b d + j) = some cell ∧
              cell.readOnly = true))) ∧
      (∀ x ∈ additions, ∃ i j, PastedAt (pasteDataOf props clipboard) i j x.value ∧
        x.row = some (min a c + i) ∧ x.col = some (min b d + j)) ∧
      (∀ u ∈ updates, ∃ i j, PastedAt (pasteDataOf props clipboard) i j u.value ∧
        u.row = min a c + i ∧ u.col = min b d + j) := by
  have hps : pasteStart (getState props state).start (getState props state).end_
      = ⟨some (min a c), some (min b d)⟩ := by
    simp [pasteStart, hstart, hend, coordI, coordJ, Pos.ofInts, jsMin]
  have heq := pasteCellsRows_eq props.data (min a c) (min b d) (pasteDataOf props clipboard) 0
    ⟨[], [], [], [], pasteEnd ⟨some (min a c), some (min b d)⟩ (getState props state).end_⟩
  simp only [List.nil_append] at heq
  refine ⟨(gridEntries (pasteDataOf props clipboard) 0).filterMap
      (toChange props.data (min a c) (min b d)),
    (gridEntries (pasteDataOf props clipboard) 0).filterMap
      (toAddition props.data (min a c) (min b d)),
    (_setState props state { Patch.none with end_ := some (some
      (pasteCellsRows props.data ⟨some (min a c), some (min b d)⟩
        (pasteDataOf props clipboard) 0
        ⟨[], [], [], [], pasteEnd ⟨some (min a c), some (min b d)⟩
          (getState props state).end_⟩).end_) }).2,
    ?_, setState_end_calls props state _, ?_, ?_, ?_⟩
  · unfold handlePaste
    simp only [hedit, isEmpty, Option.isNone_none, if_true, hchan, hps]
    congr 1
    rw [heq.1, heq.2]
    cases (gridEntries (pasteDataOf props clipboard) 0).filterMap
        (toAddition props.data (min a c) (min b d)) with
    | nil => simp
    | cons x xs => simp
  · intro i j v hat
    have hmem := (mem_gridEntries_zero _ i j v).mpr hat
    have hA : ((⟨some (min a c + i), some (min b d + j), v⟩ : Addition) ∈
          (gridEntries (pasteDataOf props clipboard) 0).filterMap
            (toAddition props.data (min a c) (min b d)) ↔
        cellAt props.data (min a c + i) (min b d + j) = none) := by
      rw [List.mem_filterMap]
      constructor
      · rintro ⟨e, _, he⟩
        rw [toAddition_eq_some] at he
        obtain ⟨h1, h2⟩ := he
        simp only [Addition.mk.injEq, Option.some.injEq] at h2
        rw [h2.1, h2.2.1]
        exact h1
      · intro h
        exact ⟨(i, j, v), hmem, (toAddition_eq_some _ _ _ _ _).mpr ⟨h, rfl⟩⟩
    have hB : ((∃ cell, (⟨cell, min a c + i, min b d + j, v⟩ : Change) ∈
          (gridEntries (pasteDataOf props clipboard) 0).filterMap
            (toChange props.data (min a c) (min b d))) ↔
        ∃ cell, cellAt props.data (min a c + i) (min b d + j) = some cell ∧
          cell.readOnly = false) := by
      constructor
      · rintro ⟨cell, hc⟩
        rw [List.mem_filterMap] at hc
        obtain ⟨e, _, he⟩ := hc
        rw [toChange_eq_some] at he
        obtain ⟨h1, h2, h3, h4, _⟩ := he
        simp only at h1 h2 h3 h4
        rw [h3, h4]
        exact ⟨cell, h1, h2⟩
      · rintro ⟨cell, h1, h2⟩
        refine ⟨cell, ?_⟩
        rw [List.mem_filterMap]
        exact ⟨(i, j, v), hmem, (toChange_eq_some _ _ _ _ _).mpr ⟨h1, h2, rfl, rfl, rfl⟩⟩
    refine ⟨hA, hB, ?_⟩
    rw [hA, hB]
    cases hcell : cellAt props.data (min a c + i) (min b d + j) with
    | none => simp
    | some cell => cases hro : cell.readOnly <;> simp [hro]
  · intro x hx
    rw [List.mem_filterMap] at hx
    obtain ⟨⟨i, j, v⟩, hmem, he⟩ := hx
    rw [toAddition_eq_some] at he
    obtain ⟨_, rfl⟩ := he
    exact ⟨i, j, (mem_gridEntries_zero _ i j v).mp hmem, rfl, rfl⟩
  · intro u hu
    rw [List.mem_filterMap] at hu
    obtain ⟨⟨i, j, v⟩, hmem, he⟩ := hu
    rw [toChange_eq_some] at he
    obtain ⟨_, _, h3, h4, h5⟩ := he
    simp only at h3 h4 h5
    refine ⟨i, j, ?_, h3, h4⟩
    rw [h5]
    exact (mem_gridEntries_zero _ i j v).mp hmem

/-- While a cell is being edited `handlePaste` does nothing: no call, no state change. -/
theorem handlePaste_editing (props : Props) (state : State) (clipboard : Option Text)
    (hedit : state.editing ≠ none) :
    handlePaste props state clipboard = (state, []) := by
  unfold handlePaste
  cases he : state.editing with
  | none => exact absurd he hedit
  | some p => simp [isEmpty]

/-- C10, as amended: while a cell is being edited `handlePaste` does nothing.  With no
cell being edited and `onCellsChanged` supplied, a paste into the selection with corners
`(a, b)` and `(c, d)` calls `onCellsChanged` exactly once and calls neither `onPaste` nor
`onChange` (the only other calls are `onSelect` ones).  For every pasted value `v` at
offset `(i, j)` from `(min a c, min b d)`: it is among the additions iff its target holds
no cell, among the updates iff the target holds a cell that is not read-only, and in
neither list iff the target cell is read-only.  The lists hold nothing else, and the
additions are passed iff there are any. -/
theorem handlePaste_batch (props : Props) (state : State) (clipboard : Option Text) :
    (state.editing ≠ none → handlePaste props state clipboard = (state, [])) ∧
    (state.editing = none → props.onCellsChanged = true →
      ∀ a b c d : Int,
        (getState props state).start = some (Pos.ofInts a b) →
        (getState props state).end_ = some (Pos.ofInts c d) →
        ∃ (updates : List Change) (additions : List Addition) (selectCalls : List Call),
          (handlePaste props state clipboard).2
            = [Call.onCellsChanged updates (if additions = [] then none else some additions)]
              ++ selectCalls ∧
          (∀ x ∈ selectCalls, ∃ s t, x = Call.onSelect s t) ∧
          (∀ i j v, PastedAt (pasteDataOf props clipboard) i j v →
            (((⟨some (min a c + i), some (min b d + j), v⟩ : Addition) ∈ additions ↔
                cellAt props.data (min a c + i) (min b d + j) = none) ∧
             ((∃ cell, (⟨cell, min a c + i, min b d + j, v⟩ : Change) ∈ updates) ↔
                ∃ cell, cellAt props.data (min a c + i) (min b d + j) = some cell ∧
                  cell.readOnly = false) ∧
             ((((⟨some (min a c + i), some (min b d + j), v⟩ : Addition) ∉ additions) ∧
                ¬ ∃ cell, (⟨cell, min a c + i, min b d + j, v⟩ : Change) ∈ updates) ↔
                ∃ cell, cellAt props.data (min a c + i) (min b d + j) = some cell ∧
                  cell.readOnly = true))) ∧
          (∀ x ∈ additions, ∃ i j, PastedAt (pasteDataOf props clipboard) i j x.value ∧
            x.row = some (min a c + i) ∧ x.col = some (min b d + j)) ∧
          (∀ u ∈ updates, ∃ i j, PastedAt (pasteDataOf props clipboard) i j u.value ∧
            u.row = min a c + i ∧ u.col = min b d + j)) :=
  ⟨handlePaste_editing props state clipboard,
    fun hedit hchan a b c d hstart hend =>
      handlePaste_batch_idle props state clipboard a b c d hchan hedit hstart hend⟩

theorem handlePaste_batch_witness :
    (handlePaste (sampleProps gridReadOnly) (selectionState 0 1 0 0)
        (some ['p', TAB, 'q', TAB, 'r'])).2
      = [Call.onCellsChanged [⟨mkCell ['a'], 0, 0, ['p']⟩] (some [⟨some 0, some 2, ['r']⟩])] ∧
    handlePaste (sampleProps grid2x2) editingState (some ['p', TAB, 'q'])
      = (editingState, []) ∧
    ∃ (updates : List Change) (additions : List Addition) (selectCalls : List Call),
      (handlePaste (sampleProps gridReadOnly) (selectionState 0 1 0 0)
          (some ['p', TAB, 'q', TAB, 'r'])).2
        = [Call.onCellsChanged updates (if additions = [] then none else some additions)]
          ++ selectCalls ∧
      (∀ x ∈ selectCalls, ∃ s t, x = Call.onSelect s t) ∧
      (∀ i j v, PastedAt (pasteDataOf (sampleProps gridReadOnly)
          (some ['p', TAB, 'q', TAB, 'r'])) i j v →
        (((⟨some (min 0 0 + i), some (min 1 0 + j), v⟩ : Addition) ∈ additions ↔
            cellAt (sampleProps gridReadOnly).data (min 0 0 + i) (min 1 0 + j) = none) ∧
         ((∃ cell, (⟨cell, min 0 0 + i, min 1 0 + j, v⟩ : Change) ∈ updates) ↔
            ∃ cell, cellAt (sampleProps gridReadOnly).data (min 0 0 + i) (min 1 0 + j)
              = some cell ∧ cell.readOnly = false) ∧
         ((((⟨some (min 0 0 + i), some (min 1 0 + j), v⟩ : Addition) ∉ additions) ∧
            ¬ ∃ cell, (⟨cell, min 0 0 + i, min 1 0 + j, v⟩ : Change) ∈ updates) ↔
            ∃ cell, cellAt (sampleProps gridReadOnly).data (min 0 0 + i) (min 1 0 + j)
              = some cell ∧ cell.readOnly = true))) ∧
      (∀ x ∈ additions, ∃ i j, PastedAt (pasteDataOf (sampleProps gridReadOnly)
          (some ['p', TAB, 'q', TAB, 'r'])) i j x.value ∧
        x.row = some (min 0 0 + i) ∧ x.col = some (min 1 0 + j)) ∧
      (∀ u ∈ updates, ∃ i j, PastedAt (pasteDataOf (sampleProps gridReadOnly)
          (some ['p', TAB, 'q', TAB, 'r'])) i j u.value ∧
        u.row = min 0 0 + i ∧ u.col = min 1 0 + j) :=
  ⟨by decide,
    (handlePaste_batch (sampleProps grid2x2) editingState (some ['p', TAB, 'q'])).1
      (by decide),
    (handlePaste_batch (sampleProps gridReadOnly) (selectionState 0 1 0 0)
      (some ['p', TAB, 'q', TAB, 'r'])).2 rfl rfl 0 1 0 0 rfl rfl⟩

/-- C10 as stated fails: while a cell is being edited `handlePaste` does nothing, so a
paste calls `onCellsChanged` not once but never. -/
theorem handlePaste_while_editing_calls_nothing :
    (sampleProps grid2x2).onCellsChanged = true ∧
    handlePaste (sampleProps grid2x2) editingState (some ['p', TAB, 'q'])
      = (editingState, []) := by
  decide

/-! ## Frame lemmas for `_setState` -/

theorem _setState_selecting (props : Props) (s : State) (p : Patch) :
    (_setState props s p).1.selecting = p.selecting.getD s.selecting := by
  unfold _setState; split <;> rfl

theorem _setState_editing (props : Props) (s : State) (p : Patch) :
    (_setState props s p).1.editing = p.editing.getD s.editing := by
  unfold _setState; split <;> rfl

theorem _setState_copydownDragging (props : Props) (s : State) (p : Patch) :
    (_setState props s p).1.copydownDragging = p.copydownDragging.getD s.copydownDragging := by
  unfold _setState; split <;> rfl

theorem _setState_copydownTarget (props : Props) (s : State) (p : Patch) :
    (_setState props s p).1.copydownTarget = p.copydownTarget.getD s.copydownTarget := by
  unfold _setState; split <;> rfl

theorem _setState_forceEdit (props : Props) (s : State) (p : Patch) :
    (_setState props s p).1.forceEdit = p.forceEdit.getD s.forceEdit := by
  unfold _setState; split <;> rfl

theorem _setState_clear (props : Props) (s : State) (p : Patch) :
    (_setState props s p).1.clear = p.clear.getD s.clear := by
  unfold _setState; split <;> rfl

theorem _setState_start (props : Props) (s : State) (p : Patch) :
    (_setState props s p).1.start = s.start ∨ p.start = some (_setState props s p).1.start := by
  unfold _setState
  split
  · left; rfl
  · cases h : p.start with
    | none => left; simp [setState, h]
    | some x => right; simp [setState, h]

theorem _setState_end (props : Props) (s : State) (p : Patch) :
    (_setState props s p).1.end_ = s.end_ ∨ p.end_ = some (_setState props s p).1.end_ := by
  unfold _setState
  split
  · left; rfl
  · cases h : p.end_ with
    | none => left; simp [setState, h]
    | some x => right; simp [setState, h]

theorem _setState_uncontrolled (props : Props) (s : State) (p : Patch)
    (h : props.selected = none) : _setState props s p = (setState s p, []) := by
  simp [_setState, isSelectionControlled, h]

/-- The corners of a state are empty or existing cells. -/
theorem _setState_corners (props : Props) (s : State) (p : Patch)
    (h : CornerOk props.data s.start ∧ CornerOk props.data s.end_)
    (hs : ∀ x, p.start = some x → CornerOk props.data x)
    (he : ∀ x, p.end_ = some x → CornerOk props.data x) :
    CornerOk props.data (_setState props s p).1.start ∧
      CornerOk props.data (_setState props s p).1.end_ := by
  constructor
  · rcases _setState_start props s p with h1 | h1
    · rw [h1]; exact h.1
    · exact hs _ h1
  · rcases _setState_end props s p with h1 | h1
    · rw [h1]; exact h.2
    · exact he _ h1

theorem cornerOk_ofInts {data : Grid} {i j : Int} (h : (cellAt data i j).isSome) :
    CornerOk data (some (Pos.ofInts i j)) :=
  Or.inr ⟨i, j, rfl, h⟩

/-! ## The search returns existing cells -/

theorem settle_defined (nav : Cell → Int → Int → Bool) (data : Grid)
    (recurse : Loc → Run (Option Loc))
    (hrec : ∀ l r, recurse l = Run.done (some r) → isCellDefined data r = true)
    (w r : Loc) (h : settle nav data recurse w = Run.done (some r)) :
    isCellDefined data r = true := by
  unfold settle at h
  split at h
  · exact hrec _ _ h
  · split at h
    · rename_i hd
      simp only [Run.done.injEq, Option.some.injEq] at h
      rw [← h]; exact hd
    · simp at h

theorem search_defined (nav : Cell → Int → Int → Bool) (data : Grid) (offsets : Loc)
    (jumpRow : Bool) :
    ∀ (fuel : Nat) (start r : Loc),
      searchForNextSelectablePos fuel nav data start offsets jumpRow = Run.done (some r) →
      isCellDefined data r = true := by
  intro fuel
  induction fuel with
  | zero => intro start r h; simp [searchForNextSelectablePos] at h
  | succ f ih =>
    intro start r h
    unfold searchForNextSelectablePos at h
    split at h
    · simp at h
    · split at h
      · split at h
        · simp at h
        · split at h
          · split at h
            · simp at h
            · exact settle_defined nav data _ (fun l r hr => ih l r hr) _ _ h
          · exact settle_defined nav data _ (fun l r hr => ih l r hr) _ _ h
      · exact settle_defined nav data _ (fun l r hr => ih l r hr) _ _ h

theorem searchFromPos_defined (fuel : Nat) (nav : Cell → Int → Int → Bool) (data : Grid)
    (start : Option Pos) (offsets : Loc) (jumpRow : Bool) (r : Loc)
    (h : searchFromPos fuel nav data start offsets jumpRow = Run.done (some r)) :
    isCellDefined data r = true := by
  unfold searchFromPos at h
  split at h
  · exact search_defined nav data offsets jumpRow fuel _ r h
  · split at h
    · simp at h
    · split at h
      · split at h
        · simp at h
        · exact settle_defined nav data _
            (fun l r hr => search_defined nav data offsets jumpRow fuel l r hr) _ _ h
      · exact settle_defined nav data _
          (fun l r hr => search_defined nav data offsets jumpRow fuel l r hr) _ _ h
  · split at h
    · simp at h
    · split at h
      · split at h <;> simp at h
      · simp at h

/-! ## What each handler leaves as it was -/

theorem updateLocationSingleCell_frame (props : Props) (s : State) (l : Loc) :
    (updateLocationSingleCell props s l).1.selecting = s.selecting ∧
    (updateLocationSingleCell props s l).1.editing = none ∧
    (isCellDefined props.data l = true →
      CornerOk props.data s.start ∧ CornerOk props.data s.end_ →
      CornerOk props.data (updateLocationSingleCell props s l).1.start ∧
        CornerOk props.data (updateLocationSingleCell props s l).1.end_) := by
  unfold updateLocationSingleCell
  refine ⟨by rw [_setState_selecting]; rfl, by rw [_setState_editing]; rfl, ?_⟩
  intro hd hc
  apply _setState_corners props s _ hc
  · intro x hx
    simp only [Option.some.injEq] at hx
    rw [← hx]
    exact cornerOk_ofInts hd
  · intro x hx
    simp only [Option.some.injEq] at hx
    rw [← hx]
    exact cornerOk_ofInts hd

theorem handleNavigate_frame (fuel : Nat) (props : Props) (s : State) (shiftKey : Bool)
    (offsets : Loc) (jumpRow : Bool) (r : State × List Call)
    (h : handleNavigate fuel props s shiftKey offsets jumpRow = Run.done r) :
    r.1.selecting = s.selecting ∧ (r.1.editing = s.editing ∨ r.1.editing = none) ∧
    ((shiftKey && !jumpRow) = false →
      CornerOk props.data s.start ∧ CornerOk props.data s.end_ →
      CornerOk props.data r.1.start ∧ CornerOk props.data r.1.end_) := by
  unfold handleNavigate at h
  dsimp only at h
  split at h
  · split at h
    · rename_i hm
      unfold updateLocationMultipleCells at h
      dsimp only at h
      split at h
      · simp at h
      · simp only [Run.done.injEq] at h
        subst h
        refine ⟨by rw [_setState_selecting]; rfl, Or.inr (by rw [_setState_editing]; rfl), ?_⟩
        intro hm2
        simp only [hm2, Bool.false_eq_true] at hm
    · split at h
      · rename_i l hl
        simp only [Run.done.injEq] at h
        subst h
        have hf := updateLocationSingleCell_frame props s l
        exact ⟨hf.1, Or.inr hf.2.1, fun _ hc =>
          hf.2.2 (searchFromPos_defined _ _ _ _ _ _ _ hl) hc⟩
      · simp only [Run.done.injEq] at h
        subst h
        exact ⟨rfl, Or.inl rfl, fun _ hc => hc⟩
      · simp at h
      · simp at h
  · simp only [Run.done.injEq] at h
    subst h
    exact ⟨rfl, Or.inl rfl, fun _ hc => hc⟩

theorem handleKeyboardCellMovement_frame (fuel : Nat) (props : Props) (s : State)
    (e : KeyEvent) (commit : Bool) (r : State × List Call)
    (h : handleKeyboardCellMovement fuel props s e commit = Run.done r) :
    r.1.selecting = s.selecting ∧ (r.1.editing = s.editing ∨ r.1.editing = none) ∧
    (extendsSelection e = false →
      CornerOk props.data s.start ∧ CornerOk props.data s.end_ →
      CornerOk props.data r.1.start ∧ CornerOk props.data r.1.end_) := by
  have hsame : r = (s, []) →
      r.1.selecting = s.selecting ∧ (r.1.editing = s.editing ∨ r.1.editing = none) ∧
      (extendsSelection e = false →
        CornerOk props.data s.start ∧ CornerOk props.data s.end_ →
        CornerOk props.data r.1.start ∧ CornerOk props.data r.1.end_) := by
    rintro rfl
    exact ⟨rfl, Or.inl rfl, fun _ hc => hc⟩
  have hjump : ∀ offsets, handleNavigate fuel props s e.shiftKey offsets true = Run.done r →
      r.1.selecting = s.selecting ∧ (r.1.editing = s.editing ∨ r.1.editing = none) ∧
      (extendsSelection e = false →
        CornerOk props.data s.start ∧ CornerOk props.data s.end_ →
        CornerOk props.data r.1.start ∧ CornerOk props.data r.1.end_) := by
    intro offsets hn
    have hf := handleNavigate_frame fuel props s e.shiftKey offsets true r hn
    exact ⟨hf.1, hf.2.1, fun _ hc => hf.2.2 (by simp) hc⟩
  have harrow : ∀ offsets,
      (e.keyCode = LEFT_KEY ∨ e.keyCode = RIGHT_KEY ∨ e.keyCode = UP_KEY ∨
        e.keyCode = DOWN_KEY) →
      handleNavigate fuel props s e.shiftKey offsets false = Run.done r →
      r.1.selecting = s.selecting ∧ (r.1.editing = s.editing ∨ r.1.editing = none) ∧
      (extendsSelection e = false →
        CornerOk props.data s.start ∧ CornerOk props.data s.end_ →
        CornerOk props.data r.1.start ∧ CornerOk props.data r.1.end_) := by
    intro offsets hk hn
    have hf := handleNavigate_frame fuel props s e.shiftKey offsets false r hn
    refine ⟨hf.1, hf.2.1, fun hx hc => hf.2.2 ?_ hc⟩
    unfold extendsSelection at hx
    cases hsh : e.shiftKey with
    | false => rfl
    | true =>
      rw [hsh] at hx
      rcases hk with hk | hk | hk | hk <;> simp [hk] at hx
  unfold handleKeyboardCellMovement at h
  dsimp only at h
  split at h
  · exact hsame (by simpa using h.symm)
  · split at h
    · exact hsame (by simpa using h.symm)
    · split at h
      · exact hjump _ h
      · split at h
        · rename_i hk
          exact harrow _ (Or.inr (Or.inl hk)) h
        · split at h
          · rename_i hk
            exact harrow _ (Or.inl hk) h
          · split at h
            · rename_i hk
              exact harrow _ (Or.inr (Or.inr (Or.inl hk))) h
            · split at h
              · rename_i hk
                exact harrow _ (Or.inr (Or.inr (Or.inr hk))) h
              · split at h
                · exact hjump _ h
                · exact hsame (by simpa using h.symm)

theorem onRevert_frame (props : Props) (s : State) :
    (onRevert props s).1.selecting = s.selecting ∧ (onRevert props s).1.editing = none ∧
    (onRevert props s).1.start = s.start ∧ (onRevert props s).1.end_ = s.end_ := by
  unfold onRevert
  refine ⟨by rw [_setState_selecting]; rfl, by rw [_setState_editing]; rfl, ?_, ?_⟩
  · rcases _setState_start props s { Patch.none with editing := some .none } with h | h
    · exact h
    · simp [Patch.none] at h
  · rcases _setState_end props s { Patch.none with editing := some .none } with h | h
    · exact h
    · simp [Patch.none] at h

theorem clearSelectedCells_frame (props : Props) (s : State) (a b : Option Pos) :
    (clearSelectedCells props s a b).1.selecting = s.selecting ∧
    ((clearSelectedCells props s a b).1.editing = s.editing ∨
      (clearSelectedCells props s a b).1.editing = none) ∧
    (clearSelectedCells props s a b).1.start = s.start ∧
    (clearSelectedCells props s a b).1.end_ = s.end_ := by
  have hr := onRevert_frame props s
  unfold clearSelectedCells
  split
  · exact ⟨hr.1, Or.inr hr.2.1, hr.2.2.1, hr.2.2.2⟩
  · split
    · exact ⟨hr.1, Or.inr hr.2.1, hr.2.2.1, hr.2.2.2⟩
    · exact ⟨rfl, Or.inl rfl, rfl, rfl⟩

theorem currentCell_at {data : Grid} {p : Option Pos} {row : List Cell} {cell : Cell}
    (h1 : (coordI p).bind (rowAt data) = some row)
    (h2 : (coordJ p).bind (index row) = some cell) :
    ∃ i j, p = some (Pos.ofInts i j) ∧ cellAt data i j = some cell := by
  cases p with
  | none => simp [coordI] at h1
  | some q =>
    obtain ⟨qi, qj⟩ := q
    cases qi with
    | none => simp [coordI] at h1
    | some i =>
      cases qj with
      | none => simp [coordJ] at h2
      | some j =>
        refine ⟨i, j, rfl, ?_⟩
        simp only [coordI, coordJ, Option.some_bind] at h1 h2
        unfold cellAt
        rw [h1]
        exact h2

theorem patch_no_corner_frame (props : Props) (s : State) (p : Patch)
    (hs : p.start = none) (he : p.end_ = none) :
    (_setState props s p).1.start = s.start ∧ (_setState props s p).1.end_ = s.end_ := by
  constructor
  · rcases _setState_start props s p with h | h
    · exact h
    · rw [hs] at h; cases h
  · rcases _setState_end props s p with h | h
    · exact h
    · rw [he] at h; cases h

theorem handleKey_frame (fuel : Nat) (props : Props) (s : State) (e : KeyEvent)
    (r : State × List Call) (h : handleKey fuel props s e = Run.done r) :
    r.1.selecting = s.selecting ∧
    (EditableAt props.data s.editing → EditableAt props.data r.1.editing) ∧
    (extendsSelection e = false →
      CornerOk props.data s.start ∧ CornerOk props.data s.end_ →
      CornerOk props.data r.1.start ∧ CornerOk props.data r.1.end_) := by
  have hsame : r = (s, []) →
      r.1.selecting = s.selecting ∧
      (EditableAt props.data s.editing → EditableAt props.data r.1.editing) ∧
      (extendsSelection e = false →
        CornerOk props.data s.start ∧ CornerOk props.data s.end_ →
        CornerOk props.data r.1.start ∧ CornerOk props.data r.1.end_) := by
    rintro rfl
    exact ⟨rfl, fun hc => hc, fun _ hc => hc⟩
  have hmoved : ∀ moved, handleKeyboardCellMovement fuel props s e false = Run.done moved →
      r = moved →
      r.1.selecting = s.selecting ∧
      (EditableAt props.data s.editing → EditableAt props.data r.1.editing) ∧
      (extendsSelection e = false →
        CornerOk props.data s.start ∧ CornerOk props.data s.end_ →
        CornerOk props.data r.1.start ∧ CornerOk props.data r.1.end_) := by
    rintro moved hm rfl
    have hf := handleKeyboardCellMovement_frame fuel props s e false r hm
    refine ⟨hf.1, fun hc => ?_, hf.2.2⟩
    rcases hf.2.1 with h1 | h1
    · rw [h1]; exact hc
    · rw [h1]; exact Or.inl rfl
  unfold handleKey at h
  dsimp only at h
  split at h
  · exact hsame (by simpa using h.symm)
  · split at h
    · exact hsame (by simpa using h.symm)
    · split at h
      · simp at h
      · rename_i row hrow
        split at h
        · exact hsame (by simpa using h.symm)
        · split at h
          · split at h
            · rename_i moved hm
              have hf := handleKeyboardCellMovement_frame fuel props s e false moved hm
              split at h
              · simp only [Run.done.injEq] at h
                subst h
                have hc := clearSelectedCells_frame props moved.1
                  (getState props s).start (getState props s).end_
                refine ⟨hc.1.trans hf.1, fun he => ?_, fun hx hcor => ?_⟩
                · rcases hc.2.1 with h1 | h1
                  · simp only [h1]
                    rcases hf.2.1 with h2 | h2
                    · rw [h2]; exact he
                    · rw [h2]; exact Or.inl rfl
                  · simp only [h1]; exact Or.inl rfl
                · simp only [hc.2.2.1, hc.2.2.2]
                  exact hf.2.2 hx hcor
              · split at h
                · rename_i cell hcell
                  split at h
                  · rename_i hro
                    obtain ⟨i, j, hp, hcat⟩ := currentCell_at hrow hcell
                    split at h
                    · simp only [Run.done.injEq] at h
                      subst h
                      have hn := patch_no_corner_frame props moved.1
                        { Patch.none with
                          editing := some (getState props s).start, clear := some none,
                          forceEdit := some true } rfl rfl
                      refine ⟨by simp only [_setState_selecting]; exact hf.1, fun _ => ?_,
                        fun hx hcor => ?_⟩
                      · simp only [_setState_editing]
                        exact Or.inr ⟨i, j, cell, hp, hcat, by simpa using hro⟩
                      · simp only [hn.1, hn.2]
                        exact hf.2.2 hx hcor
                    · split at h
                      · simp only [Run.done.injEq] at h
                        subst h
                        have hn := patch_no_corner_frame props moved.1
                          { Patch.none with
                            editing := some (getState props s).start,
                            clear := some (getState props s).start,
                            forceEdit := some false } rfl rfl
                        refine ⟨by simp only [_setState_selecting]; exact hf.1, fun _ => ?_,
                          fun hx hcor => ?_⟩
                        · simp only [_setState_editing]
                          exact Or.inr ⟨i, j, cell, hp, hcat, by simpa using hro⟩
                        · simp only [hn.1, hn.2]
                          exact hf.2.2 hx hcor
                      · exact hmoved moved hm (by simpa using h.symm)
                  · exact hmoved moved hm (by simpa using h.symm)
                · exact hmoved moved hm (by simpa using h.symm)
            · simp at h
            · simp at h
          · exact hsame (by simpa using h.symm)

theorem handleComponentKey_frame (fuel : Nat) (props : Props) (s : State) (e : KeyEvent)
    (r : State × List Call) (h : handleComponentKey fuel props s e = Run.done r) :
    r.1.selecting = s.selecting ∧ (r.1.editing = s.editing ∨ r.1.editing = none) ∧
    (CornerOk props.data s.start ∧ CornerOk props.data s.end_ →
      CornerOk props.data r.1.start ∧ CornerOk props.data r.1.end_) := by
  have hsame : r = (s, []) →
      r.1.selecting = s.selecting ∧ (r.1.editing = s.editing ∨ r.1.editing = none) ∧
      (CornerOk props.data s.start ∧ CornerOk props.data s.end_ →
        CornerOk props.data r.1.start ∧ CornerOk props.data r.1.end_) := by
    rintro rfl
    exact ⟨rfl, Or.inl rfl, fun hc => hc⟩
  have hjump : ∀ offsets, handleNavigate fuel props s e.shiftKey offsets true = Run.done r →
      r.1.selecting = s.selecting ∧ (r.1.editing = s.editing ∨ r.1.editing = none) ∧
      (CornerOk props.data s.start ∧ CornerOk props.data s.end_ →
        CornerOk props.data r.1.start ∧ CornerOk props.data r.1.end_) := by
    intro offsets hn
    have hf := handleNavigate_frame fuel props s e.shiftKey offsets true r hn
    exact ⟨hf.1, hf.2.1, fun hc => hf.2.2 (by simp) hc⟩
  unfold handleComponentKey at h
  dsimp only at h
  split at h
  · exact hsame (by simpa using h.symm)
  · split at h
    · split at h
      · simp at h
      · split at h
        · split at h
          · split at h
            · exact hjump _ h
            · split at h
              · exact hjump _ h
              · simp only [Run.done.injEq] at h
                subst h
                have hr := onRevert_frame props s
                refine ⟨hr.1, Or.inr hr.2.1, fun hc => ?_⟩
                rw [hr.2.2.1, hr.2.2.2]
                exact hc
          · exact hsame (by simpa using h.symm)
        · exact hsame (by simpa using h.symm)
    · exact hsame (by simpa using h.symm)

theorem onDoubleClick_frame (props : Props) (s : State) (i j : Int)
    (r : State × List Call) (h : onDoubleClick props s i j = Run.done r) :
    r.1.selecting = s.selecting ∧
    (EditableAt props.data s.editing → EditableAt props.data r.1.editing) ∧
    r.1.start = s.start ∧ r.1.end_ = s.end_ := by
  unfold onDoubleClick at h
  split at h
  · simp at h
  · rename_i cell hcell
    split at h
    · rename_i hro
      simp only [Run.done.injEq] at h
      subst h
      have hn := patch_no_corner_frame props s
        { Patch.none with
          editing := some (some (Pos.ofInts i j)), forceEdit := some true,
          clear := some none } rfl rfl
      refine ⟨by simp only [_setState_selecting]; rfl, fun _ => ?_, hn.1, hn.2⟩
      simp only [_setState_editing]
      exact Or.inr ⟨i, j, cell, rfl, hcell, by simpa using hro⟩
    · simp only [Run.done.injEq] at h
      subst h
      exact ⟨rfl, fun hc => hc, rfl, rfl⟩

theorem onMouseDown_frame (props : Props) (s : State) (i j : Int)
    (shiftKey fromCopydownHandle : Bool) :
    ((onMouseDown props s i j shiftKey fromCopydownHandle).1.selecting = false ∨
      (onMouseDown props s i j shiftKey fromCopydownHandle).1.editing = none) ∧
    ((onMouseDown props s i j shiftKey fromCopydownHandle).1.editing = s.editing ∨
      (onMouseDown props s i j shiftKey fromCopydownHandle).1.editing = none) ∧
    ((cellAt props.data i j).isSome →
      CornerOk props.data s.start ∧ CornerOk props.data s.end_ →
      CornerOk props.data (onMouseDown props s i j shiftKey fromCopydownHandle).1.start ∧
        CornerOk props.data (onMouseDown props s i j shiftKey fromCopydownHandle).1.end_) := by
  unfold onMouseDown
  dsimp only
  refine ⟨?_, ?_, ?_⟩
  · simp only [_setState_selecting, _setState_editing, Option.getD_some]
    cases isEmpty s.editing <;> cases jsEq (coordI s.editing) (some i) <;>
      cases jsEq (coordJ s.editing) (some j) <;> simp
  · simp only [_setState_editing, Option.getD_some]
    split
    · exact Or.inr rfl
    · exact Or.inl rfl
  · intro hcell hc
    apply _setState_corners props s _ hc
    · intro x hx
      simp only [Option.some.injEq] at hx
      rw [← hx]
      split
      · exact hc.1
      · exact cornerOk_ofInts hcell
    · intro x hx
      simp only [Option.some.injEq] at hx
      rw [← hx]
      split
      · exact hc.2
      · exact cornerOk_ofInts hcell

theorem onMouseOver_frame (props : Props) (s : State) (i j : Int) :
    (onMouseOver props s i j).1.selecting = s.selecting ∧
    (onMouseOver props s i j).1.editing = s.editing ∧
    ((cellAt props.data i j).isSome →
      CornerOk props.data s.start ∧ CornerOk props.data s.end_ →
      CornerOk props.data (onMouseOver props s i j).1.start ∧
        CornerOk props.data (onMouseOver props s i j).1.end_) := by
  have hfirst : ∀ x : State × List Call,
      x = (if s.selecting && isEmpty s.editing then
          _setState props s { Patch.none with end_ := some (some (Pos.ofInts i j)) }
        else (s, [])) →
      x.1.selecting = s.selecting ∧ x.1.editing = s.editing ∧
      ((cellAt props.data i j).isSome →
        CornerOk props.data s.start ∧ CornerOk props.data s.end_ →
        CornerOk props.data x.1.start ∧ CornerOk props.data x.1.end_) := by
    intro x hx
    split at hx
    · subst hx
      refine ⟨by rw [_setState_selecting]; rfl, by rw [_setState_editing]; rfl, ?_⟩
      intro hcell hc
      apply _setState_corners props s _ hc
      · intro y hy
        simp [Patch.none] at hy
      · intro y hy
        simp only [Option.some.injEq] at hy
        rw [← hy]
        exact cornerOk_ofInts hcell
    · subst hx
      exact ⟨rfl, rfl, fun _ hc => hc⟩
  unfold onMouseOver
  dsimp only
  have hf := hfirst _ rfl
  split
  · have hn := patch_no_corner_frame props
      (if s.selecting && isEmpty s.editing then
          _setState props s { Patch.none with end_ := some (some (Pos.ofInts i j)) }
        else (s, [])).1
      { Patch.none with
        copydownTarget := some (calculateCopydownTarget s.start s.end_ i j) } rfl rfl
    refine ⟨by simp only [_setState_selecting]; exact hf.1,
      by simp only [_setState_editing]; exact hf.2.1, fun hcell hc => ?_⟩
    simp only [hn.1, hn.2]
    exact hf.2.2 hcell hc
  · exact hf

theorem onMouseUp_frame (props : Props) (s : State) (r : State × List Call)
    (h : onMouseUp props s = Run.done r) :
    r.1.selecting = false ∧ r.1.editing = s.editing ∧
    r.1.start = s.start ∧ r.1.end_ = s.end_ := by
  have hreset : r.1 = (_setState props s
      { Patch.none with selecting := some false, copydownDragging := some false,
                        copydownTarget := some CopydownTarget.empty }).1 →
      r.1.selecting = false ∧ r.1.editing = s.editing ∧
      r.1.start = s.start ∧ r.1.end_ = s.end_ := by
    intro hr
    have hn := patch_no_corner_frame props s
      { Patch.none with selecting := some false, copydownDragging := some false,
                        copydownTarget := some CopydownTarget.empty } rfl rfl
    rw [hr]
    exact ⟨by rw [_setState_selecting]; rfl, by rw [_setState_editing]; rfl, hn.1, hn.2⟩
  unfold onMouseUp at h
  dsimp only at h
  split at h
  · split at h
    · split at h
      · simp at h
      · split at h
        · split at h
          · split at h
            · simp only [Run.done.injEq] at h
              exact hreset (by rw [← h])
            · simp at h
          · simp only [Run.done.injEq] at h
            exact hreset (by rw [← h])
        · simp at h
        · simp at h
    · simp at h
  · simp only [Run.done.injEq] at h
    exact hreset (by rw [← h])

theorem handlePaste_frame (props : Props) (s : State) (clipboard : Option Text) :
    (handlePaste props s clipboard).1.selecting = s.selecting ∧
    (handlePaste props s clipboard).1.editing = s.editing := by
  unfold handlePaste
  dsimp only
  split
  · exact ⟨by rw [_setState_selecting]; rfl, by rw [_setState_editing]; rfl⟩
  · exact ⟨rfl, rfl⟩

/-! ## Multi-cell extend -/

/-- C12: for a selection with corners `(a, b)` and `(c, d)` read through `getState`, a
grid with a first row and a unit offset `(di, dj)`, the multi-cell extend (`handleNavigate`
with Shift and no jump) returns, for any fuel, with `editing` cleared, `start` kept at
`(a, b)` and `end` set to row `c + di`, not clamped, and column `d + dj` clamped to
`[0, data[0].length - 1]`: in the state when the selection is not controlled, and
otherwise in the `onSelect` notification, the corners of the state staying as they were. -/
theorem updateLocationMultipleCells_extend (fuel : Nat) (props : Props) (state : State)
    (a b c d : Int) (offsets : Loc) (row0 : List Cell)
    (hstart : (getState props state).start = some (Pos.ofInts a b))
    (hend : (getState props state).end_ = some (Pos.ofInts c d))
    (hrow : props.data.head? = some row0)
    (ho : UnitOffset offsets) :
    ∃ r, handleNavigate fuel props state true offsets false = Run.done r ∧
      r.1.editing = none ∧
      (props.selected = none →
        r.1.start = some (Pos.ofInts a b) ∧
        r.1.end_ = some (Pos.ofInts (c + offsets.i)
          (min ((row0.length : Int) - 1) (max 0 (d + offsets.j)))) ∧
        r.2 = []) ∧
      (props.selected ≠ none →
        r.1.start = state.start ∧ r.1.end_ = state.end_ ∧
        r.2 = if props.onSelect then
            [Call.onSelect (some (Pos.ofInts a b))
              (some (Pos.ofInts (c + offsets.i)
                (min ((row0.length : Int) - 1) (max 0 (d + offsets.j)))))]
          else []) := by
  have hnz : offsets.i ≠ 0 ∨ offsets.j ≠ 0 := by
    rcases ho with rfl | rfl | rfl | rfl <;> simp
  refine ⟨_setState props state
    { Patch.none with
      start := some (some (Pos.ofInts a b))
      end_ := some (some (Pos.ofInts (c + offsets.i)
        (min ((row0.length : Int) - 1) (max 0 (d + offsets.j)))))
      editing := some none }, ?_, ?_, ?_, ?_⟩
  · unfold handleNavigate updateLocationMultipleCells
    simp only [hnz, if_true, Bool.not_false, Bool.and_self, hrow, hstart, hend, coordI, coordJ,
      Pos.ofInts, Option.some_bind, jsAdd, jsMax, jsMin]
  · rw [_setState_editing]; rfl
  · intro hsel
    rw [_setState_uncontrolled _ _ _ hsel]
    exact ⟨rfl, rfl, rfl⟩
  · intro hsel
    obtain ⟨sel, hsel2⟩ := Option.ne_none_iff_exists'.mp hsel
    simp [_setState, isSelectionControlled, hsel2, setState, Patch.none]

theorem updateLocationMultipleCells_extend_witness :
    handleNavigate 0 (sampleProps gridHeader) (selectionState 1 0 1 0) true ⟨1, 0⟩ false
      = Run.done (selectionState 1 0 2 0, []) ∧
    cellAt gridHeader 2 0 = none ∧
    ∃ r, handleNavigate 0 (sampleProps gridHeader) (selectionState 1 0 1 0) true ⟨1, 0⟩ false
        = Run.done r ∧
      r.1.editing = none ∧
      ((sampleProps gridHeader).selected = none →
        r.1.start = some (Pos.ofInts 1 0) ∧
        r.1.end_ = some (Pos.ofInts (1 + (⟨1, 0⟩ : Loc).i)
          (min ((([mkCell ['h']] : List Cell).length : Int) - 1)
            (max 0 (0 + (⟨1, 0⟩ : Loc).j)))) ∧
        r.2 = []) ∧
      ((sampleProps gridHeader).selected ≠ none →
        r.1.start = (selectionState 1 0 1 0).start ∧
        r.1.end_ = (selectionState 1 0 1 0).end_ ∧
        r.2 = if (sampleProps gridHeader).onSelect then
            [Call.onSelect (some (Pos.ofInts 1 0))
              (some (Pos.ofInts (1 + (⟨1, 0⟩ : Loc).i)
                (min ((([mkCell ['h']] : List Cell).length : Int) - 1)
                  (max 0 (0 + (⟨1, 0⟩ : Loc).j)))))]
          else []) :=
  ⟨by decide, by decide,
    updateLocationMultipleCells_extend 0 (sampleProps gridHeader) (selectionState 1 0 1 0)
      1 0 1 0 ⟨1, 0⟩ [mkCell ['h']] rfl rfl rfl (Or.inr (Or.inr (Or.inl rfl)))⟩

/-! ## Controlled selection -/

/-- C14, as amended: under a controlled selection `sel`, a `_setState` whose patch carries
`start` or `end` calls `onSelect` exactly once when it is supplied, with the corners of
the patch, an absent corner being taken from `sel` (empty when `sel` has none), and calls
nothing when `onSelect` is not supplied; either way the `start` and `end` of the state
stay as they were and every other key of the patch is applied; and `getState` returns
the corners of `sel` whatever the state. -/
theorem _setState_controlled (props : Props) (state : State) (p : Patch)
    (sel : Option Pos × Option Pos)
    (hsel : props.selected = some sel)
    (hcarry : p.start.isSome = true ∨ p.end_.isSome = true) :
    (_setState props state p).2
      = (if props.onSelect then [Call.onSelect (p.start.getD sel.1) (p.end_.getD sel.2)]
         else []) ∧
    (_setState props state p).1.start = state.start ∧
    (_setState props state p).1.end_ = state.end_ ∧
    (_setState props state p).1.selecting = p.selecting.getD state.selecting ∧
    (_setState props state p).1.copydownDragging
      = p.copydownDragging.getD state.copydownDragging ∧
    (_setState props state p).1.copydownTarget = p.copydownTarget.getD state.copydownTarget ∧
    (_setState props state p).1.forceEdit = p.forceEdit.getD state.forceEdit ∧
    (_setState props state p).1.editing = p.editing.getD state.editing ∧
    (_setState props state p).1.clear = p.clear.getD state.clear ∧
    ∀ s : State, (getState props s).start = sel.1 ∧ (getState props s).end_ = sel.2 := by
  have hc : (isSelectionControlled props && (p.start.isSome || p.end_.isSome)) = true := by
    simp only [isSelectionControlled, hsel, Option.isSome_some, Bool.true_and,
      Bool.or_eq_true]
    exact hcarry
  refine ⟨?_, ?_, ?_, _setState_selecting _ _ _, _setState_copydownDragging _ _ _,
    _setState_copydownTarget _ _ _, _setState_forceEdit _ _ _, _setState_editing _ _ _,
    _setState_clear _ _ _, ?_⟩
  · simp [_setState, hc, hsel]
  · simp [_setState, hc, setState]
  · simp [_setState, hc, setState]
  · intro s
    simp [getState, hsel]

theorem _setState_controlled_witness :
    _setState (controlledProps grid2x2) defaultState
        { Patch.none with end_ := some (some (Pos.ofInts 1 1)), selecting := some true }
      = ({ defaultState with selecting := true },
          [Call.onSelect (some (Pos.ofInts 0 0)) (some (Pos.ofInts 1 1))]) ∧
    (_setState (controlledProps grid2x2) defaultState
        { Patch.none with end_ := some (some (Pos.ofInts 1 1)), selecting := some true }).2
      = (if (controlledProps grid2x2).onSelect then
          [Call.onSelect (some (Pos.ofInts 0 0)) (some (Pos.ofInts 1 1))]
         else []) :=
  ⟨by decide,
    (_setState_controlled (controlledProps grid2x2) defaultState
      { Patch.none with end_ := some (some (Pos.ofInts 1 1)), selecting := some true }
      (some (Pos.ofInts 0 0), some (Pos.ofInts 0 0)) rfl (Or.inr rfl)).1⟩

/-- C14 as stated fails: under a controlled selection without `onSelect`, a `_setState`
carrying `end` makes no call at all; the corner is dropped and the other key applied. -/
theorem _setState_controlled_without_onSelect_calls_nothing :
    isSelectionControlled (silentControlledProps grid2x2) = true ∧
    _setState (silentControlledProps grid2x2) defaultState
        { Patch.none with end_ := some (some (Pos.ofInts 1 1)), selecting := some true }
      = ({ defaultState with selecting := true }, []) := by
  decide

/-! ## Invariants of the reachable states -/

/-- C13, as amended: in every state reachable from the initial state through mouse-down
and mouse-over on existing cells, mouse-up, double-click and keys other than Shift+Arrow
(arrows, Tab, Enter, also handed over by the editor), without paste, each of `start` and
`end` is empty or denotes an existing cell of the grid. -/
theorem corners_exist_under_single_cell_events (data : Grid) (s : State)
    (h : Reachable data (fun _ ev => SingleCellEvent data ev) s) :
    CornerOk data s.start ∧ CornerOk data s.end_ := by
  induction h with
  | init => exact ⟨Or.inl rfl, Or.inl rfl⟩
  | next fuel props s ev r hdata _ hal hstep ih =>
    subst hdata
    cases ev with
    | mouseDown i j sh hd =>
      simp only [step, Run.done.injEq] at hstep
      subst hstep
      exact (onMouseDown_frame props s i j sh hd).2.2 hal ih
    | mouseOver i j =>
      simp only [step, Run.done.injEq] at hstep
      subst hstep
      exact (onMouseOver_frame props s i j).2.2 hal ih
    | mouseUp =>
      have hf := onMouseUp_frame props s r hstep
      rw [hf.2.2.1, hf.2.2.2]
      exact ih
    | doubleClick i j =>
      have hf := onDoubleClick_frame props s i j r hstep
      rw [hf.2.2.1, hf.2.2.2]
      exact ih
    | key e => exact (handleKey_frame fuel props s e r hstep).2.2 hal ih
    | navigate e =>
      exact (handleKeyboardCellMovement_frame fuel props s e true r hstep).2.2 hal ih
    | componentKey e => exact (handleComponentKey_frame fuel props s e r hstep).2.2 ih
    | paste c => exact absurd hal (by simp [SingleCellEvent])

theorem corners_exist_under_single_cell_events_witness :
    Reachable grid2x2 (fun _ ev => SingleCellEvent grid2x2 ev) (selectionState 0 1 0 1) ∧
    CornerOk grid2x2 (selectionState 0 1 0 1).start ∧
    CornerOk grid2x2 (selectionState 0 1 0 1).end_ :=
  have hreach : Reachable grid2x2 (fun _ ev => SingleCellEvent grid2x2 ev)
      (selectionState 0 1 0 1) :=
    Reachable.next 10 (sampleProps grid2x2) _ (Event.key (keyOf RIGHT_KEY false))
      (selectionState 0 1 0 1, []) rfl
      (Reachable.next 0 (sampleProps grid2x2) _ Event.mouseUp (selectionState 0 0 0 0, []) rfl
        (Reachable.next 0 (sampleProps grid2x2) _ (Event.mouseDown 0 0 false false)
          ({ selectionState 0 0 0 0 with selecting := true }, []) rfl
          Reachable.init (by unfold SingleCellEvent; decide) (by decide))
        trivial (by decide))
      (by unfold SingleCellEvent; decide) (by decide)
  ⟨hreach, corners_exist_under_single_cell_events _ _ hreach⟩

theorem rowAt_of_cellAt {data : Grid} {i j : Int} {cell : Cell}
    (h : cellAt data i j = some cell) : ∃ row, rowAt data i = some row ∧ index row j = some cell := by
  unfold cellAt at h
  cases hr : rowAt data i with
  | none => rw [hr] at h; cases h
  | some row => rw [hr] at h; exact ⟨row, rfl, h⟩

theorem printable_not_special {k : Nat} (h : k = ENTER_KEY ∨ printablePressed k = true) :
    k ≠ TAB_KEY ∧ k ≠ LEFT_KEY ∧ k ≠ RIGHT_KEY ∧ k ≠ UP_KEY ∧ k ≠ DOWN_KEY ∧
      k ≠ DELETE_KEY ∧ k ≠ BACKSPACE_KEY := by
  simp only [ENTER_KEY, TAB_KEY, LEFT_KEY, RIGHT_KEY, UP_KEY, DOWN_KEY, DELETE_KEY,
    BACKSPACE_KEY, printablePressed, Bool.or_eq_true, Bool.and_eq_true, decide_eq_true_eq,
    List.mem_cons, List.mem_singleton, List.mem_nil_iff, or_false] at h ⊢
  omega

theorem handleKey_readOnly (fuel : Nat) (props : Props) (state : State) (e : KeyEvent)
    (i j : Int) (cell : Cell)
    (hstart : (getState props state).start = some (Pos.ofInts i j))
    (hcell : cellAt props.data i j = some cell) (hro : cell.readOnly = true)
    (hkey : e.keyCode = ENTER_KEY ∨ printablePressed e.keyCode = true) :
    handleKey fuel props state e = Run.done (state, []) := by
  obtain ⟨row, hrow, hidx⟩ := rowAt_of_cellAt hcell
  obtain ⟨h1, h2, h3, h4, h5, h6, h7⟩ := printable_not_special hkey
  have hmove : handleKeyboardCellMovement fuel props state e false = Run.done (state, []) := by
    unfold handleKeyboardCellMovement
    simp only [h1, h2, h3, h4, h5, if_false, Bool.false_and, Bool.false_eq_true]
    split
    · rfl
    · split <;> rfl
  unfold handleKey
  simp only [hstart, isEmpty, Option.isNone_some, coordI, coordJ, Pos.ofInts, Option.some_bind,
    hrow, hidx, hmove, h6, h7, decide_False, Bool.or_self, hro, Bool.not_true]
  split
  · rfl
  · split
    · rfl
    · simp

/-- C19: over a fixed grid, in every state reachable through any of the events (key-down
on the grid, keys handed over by the editor or caught for a component, double-click,
mouse-down, and also mouse-over, mouse-up and paste) the editing location is empty or
denotes a cell that is not read-only; Enter or a printable key on a read-only selected
cell, and a double-click on a read-only cell, leave the state as it was. -/
theorem editing_never_readOnly (data : Grid) :
    (∀ s, Reachable data (fun _ _ => True) s → EditableAt data s.editing) ∧
    (∀ (fuel : Nat) (props : Props) (state : State) (e : KeyEvent) (i j : Int) (cell : Cell),
      props.data = data →
      (getState props state).start = some (Pos.ofInts i j) →
      cellAt data i j = some cell → cell.readOnly = true →
      (e.keyCode = ENTER_KEY ∨ printablePressed e.keyCode = true) →
      handleKey fuel props state e = Run.done (state, [])) ∧
    (∀ (props : Props) (state : State) (i j : Int) (cell : Cell),
      props.data = data →
      cellAt data i j = some cell → cell.readOnly = true →
      onDoubleClick props state i j = Run.done (state, [])) := by
  refine ⟨?_, ?_, ?_⟩
  · intro s h
    induction h with
    | init => exact Or.inl rfl
    | next fuel props s ev r hdata _ _ hstep ih =>
      subst hdata
      have hkeep : (r.1.editing = s.editing ∨ r.1.editing = none) →
          EditableAt props.data r.1.editing := by
        rintro (h1 | h1)
        · rw [h1]; exact ih
        · rw [h1]; exact Or.inl rfl
      cases ev with
      | mouseDown i j sh hd =>
        simp only [step, Run.done.injEq] at hstep
        subst hstep
        exact hkeep (onMouseDown_frame props s i j sh hd).2.1
      | mouseOver i j =>
        simp only [step, Run.done.injEq] at hstep
        subst hstep
        exact hkeep (Or.inl (onMouseOver_frame props s i j).2.1)
      | mouseUp => exact hkeep (Or.inl (onMouseUp_frame props s r hstep).2.1)
      | doubleClick i j => exact (onDoubleClick_frame props s i j r hstep).2.1 ih
      | key e => exact (handleKey_frame fuel props s e r hstep).2.1 ih
      | navigate e =>
        exact hkeep (handleKeyboardCellMovement_frame fuel props s e true r hstep).2.1
      | componentKey e => exact hkeep (handleComponentKey_frame fuel props s e r hstep).2.1
      | paste c =>
        simp only [step, Run.done.injEq] at hstep
        subst hstep
        exact hkeep (Or.inl (handlePaste_frame props s c).2)
  · intro fuel props state e i j cell hdata hs hc hro hk
    subst hdata
    exact handleKey_readOnly fuel props state e i j cell hs hc hro hk
  · intro props state i j cell hdata hc hro
    subst hdata
    simp [onDoubleClick, hc, hro]

theorem editing_never_readOnly_witness :
    Reachable gridReadOnly (fun _ _ => True)
      { selectionState 0 0 0 0 with editing := some (Pos.ofInts 0 0), forceEdit := true } ∧
    EditableAt gridReadOnly (some (Pos.ofInts 0 0)) ∧
    handleKey 10 (sampleProps gridReadOnly) (selectionState 0 1 0 1) (keyOf ENTER_KEY false)
      = Run.done (selectionState 0 1 0 1, []) ∧
    onDoubleClick (sampleProps gridReadOnly) (selectionState 0 0 0 0) 0 1
      = Run.done (selectionState 0 0 0 0, []) :=
  have hreach : Reachable gridReadOnly (fun _ _ => True)
      { selectionState 0 0 0 0 with editing := some (Pos.ofInts 0 0), forceEdit := true } :=
    Reachable.next 10 (sampleProps gridReadOnly) _ (Event.key (keyOf ENTER_KEY false))
      ({ selectionState 0 0 0 0 with editing := some (Pos.ofInts 0 0), forceEdit := true }, [])
      rfl
      (Reachable.next 0 (sampleProps gridReadOnly) _ Event.mouseUp (selectionState 0 0 0 0, [])
        rfl
        (Reachable.next 0 (sampleProps gridReadOnly) _ (Event.mouseDown 0 0 false false)
          ({ selectionState 0 0 0 0 with selecting := true }, []) rfl
          Reachable.init trivial (by decide))
        trivial (by decide))
      trivial (by decide)
  ⟨hreach, (editing_never_readOnly gridReadOnly).1 _ hreach,
    (editing_never_readOnly gridReadOnly).2.1 10 (sampleProps gridReadOnly)
      (selectionState 0 1 0 1) (keyOf ENTER_KEY false) 0 1 (mkReadOnly ['b']) rfl rfl rfl rfl
      (Or.inl rfl),
    (editing_never_readOnly gridReadOnly).2.2 (sampleProps gridReadOnly)
      (selectionState 0 0 0 0) 0 1 (mkReadOnly ['b']) rfl rfl rfl⟩

/-- C20, as amended: the transitions that start an edit (a key-down on the grid: Enter or
a printable key; a double-click) leave `selecting` as it was; so in every state reachable
through events of which those two kinds arrive only while `selecting` is false (no mouse
button held since the last mouse-down), the editing location is not non-empty together
with `selecting = true`. -/
theorem editing_excludes_selecting (data : Grid) :
    (∀ (fuel : Nat) (props : Props) (s : State) (e : KeyEvent) (r : State × List Call),
      handleKey fuel props s e = Run.done r → r.1.selecting = s.selecting) ∧
    (∀ (props : Props) (s : State) (i j : Int) (r : State × List Call),
      onDoubleClick props s i j = Run.done r → r.1.selecting = s.selecting) ∧
    (∀ s, Reachable data (fun st ev => StartsEdit ev → st.selecting = false) s →
      ¬ (s.editing ≠ none ∧ s.selecting = true)) := by
  refine ⟨fun fuel props s e r h => (handleKey_frame fuel props s e r h).1,
    fun props s i j r h => (onDoubleClick_frame props s i j r h).1, ?_⟩
  intro s h
  have hJ : s.editing = none ∨ s.selecting = false := by
    induction h with
    | init => exact Or.inl rfl
    | next fuel props s ev r _ _ hal hstep ih =>
      have hkeep : r.1.selecting = s.selecting →
          (r.1.editing = s.editing ∨ r.1.editing = none) →
          r.1.editing = none ∨ r.1.selecting = false := by
        intro h1 h2
        rcases h2 with h2 | h2
        · rw [h1, h2]; exact ih
        · exact Or.inl h2
      cases ev with
      | mouseDown i j sh hd =>
        simp only [step, Run.done.injEq] at hstep
        subst hstep
        exact (onMouseDown_frame props s i j sh hd).1.symm
      | mouseOver i j =>
        simp only [step, Run.done.injEq] at hstep
        subst hstep
        exact hkeep (onMouseOver_frame props s i j).1 (Or.inl (onMouseOver_frame props s i j).2.1)
      | mouseUp => exact Or.inr (onMouseUp_frame props s r hstep).1
      | doubleClick i j =>
        right
        rw [(onDoubleClick_frame props s i j r hstep).1]
        exact hal trivial
      | key e =>
        right
        rw [(handleKey_frame fuel props s e r hstep).1]
        exact hal trivial
      | navigate e =>
        have hf := handleKeyboardCellMovement_frame fuel props s e true r hstep
        exact hkeep hf.1 hf.2.1
      | componentKey e =>
        have hf := handleComponentKey_frame fuel props s e r hstep
        exact hkeep hf.1 hf.2.1
      | paste c =>
        simp only [step, Run.done.injEq] at hstep
        subst hstep
        exact hkeep (handlePaste_frame props s c).1 (Or.inl (handlePaste_frame props s c).2)
  rintro ⟨h1, h2⟩
  rcases hJ with h3 | h3
  · exact h1 h3
  · rw [h3] at h2; cases h2

theorem editing_excludes_selecting_witness :
    Reachable grid2x2 (fun st ev => StartsEdit ev → st.selecting = false)
      { selectionState 0 0 0 0 with editing := some (Pos.ofInts 0 0), forceEdit := true } ∧
    ¬ (({ selectionState 0 0 0 0 with
          editing := some (Pos.ofInts 0 0), forceEdit := true } : State).editing ≠ none ∧
       ({ selectionState 0 0 0 0 with
          editing := some (Pos.ofInts 0 0), forceEdit := true } : State).selecting = true) :=
  have hreach : Reachable grid2x2 (fun st ev => StartsEdit ev → st.selecting = false)
      { selectionState 0 0 0 0 with editing := some (Pos.ofInts 0 0), forceEdit := true } :=
    Reachable.next 10 (sampleProps grid2x2) _ (Event.key (keyOf ENTER_KEY false))
      ({ selectionState 0 0 0 0 with editing := some (Pos.ofInts 0 0), forceEdit := true }, [])
      rfl
      (Reachable.next 0 (sampleProps grid2x2) _ Event.mouseUp (selectionState 0 0 0 0, []) rfl
        (Reachable.next 0 (sampleProps grid2x2) _ (Event.mouseDown 0 0 false false)
          ({ selectionState 0 0 0 0 with selecting := true }, []) rfl
          Reachable.init (fun h => nomatch h) (by decide))
        (fun h => nomatch h) (by decide))
      (fun _ => rfl) (by decide)
  ⟨hreach, (editing_excludes_selecting grid2x2).2.2 _ hreach⟩

/-! ## Evaluations at concrete inputs -/

/-- C11, at a failing input: pasting a 2 by 2 grid into the selection with corners
`start = (1, 1)`, `end = (0, 0)` writes the cells from `(0, 0)` to `(1, 1)` and then sets
only `end`, to the last pasted position `(1, 1)`; `start` stays `(1, 1)`, so the selection
is the single cell `(1, 1)` and the pasted position `(0, 0)` is not selected. -/
theorem handlePaste_inverted_selection_not_covered :
    (handlePaste (sampleProps grid2x2) (selectionState 1 1 0 0)
        (some ['p', TAB, 'q', LF, 'r', TAB, 's'])).1 = selectionState 1 1 1 1 ∧
    (handlePaste (sampleProps grid2x2) (selectionState 1 1 0 0)
        (some ['p', TAB, 'q', LF, 'r', TAB, 's'])).2
      = [Call.onCellsChanged
          [⟨mkCell ['a'], 0, 0, ['p']⟩, ⟨mkCell ['b'], 0, 1, ['q']⟩,
           ⟨mkCell ['c'], 1, 0, ['r']⟩, ⟨mkCell ['d'], 1, 1, ['s']⟩] none] ∧
    isSelected (sampleProps grid2x2) (selectionState 1 1 1 1) 0 0 = false := by
  decide

/-- C13 as stated fails: after a click on `(1, 0)`, the last row of a 2 by 1 grid,
Shift+Down sets `end` to `(2, 0)`, where the grid has no cell. -/
theorem shift_down_leaves_grid :
    finalState (runEvents 10 false (sampleProps gridHeader) defaultState
        [Event.mouseDown 1 0 false false, Event.mouseUp, Event.key (keyOf DOWN_KEY true)])
      = some (selectionState 1 0 2 0) ∧
    cellAt gridHeader 2 0 = none := by
  decide

/-- A paste reaching beyond the grid: pasting two values into the only cell of a 1 by 1
grid hands the second one over as an addition and sets `end` to its position `(0, 1)`,
where the grid has no cell. -/
theorem handlePaste_end_beyond_grid :
    handlePaste (sampleProps grid1x1) (selectionState 0 0 0 0) (some ['p', TAB, 'q'])
      = (selectionState 0 0 0 1,
          [Call.onCellsChanged [⟨mkCell ['x'], 0, 0, ['p']⟩]
            (some [⟨some 0, some 1, ['q']⟩])]) ∧
    cellAt grid1x1 0 1 = none := by
  decide

/-- C15, at a failing input: click `(0, 0)`, release, Shift+click `(1, 1)`.  Uncontrolled,
the selection runs from `(0, 0)` to `(1, 1)`.  With a consumer echoing `onSelect`, the
Shift+click reads `this.state.start`, which is `{}` under a controlled selection, and
notifies `{ start: {}, end: (1, 1) }`: the echoed selection has an empty `start`. -/
theorem controlled_echo_diverges_on_shift_click :
    outcome (runEvents 10 false (sampleProps grid2x2) defaultState
        [Event.mouseDown 0 0 false false, Event.mouseUp, Event.mouseDown 1 1 true false])
      = some (some (Pos.ofInts 0 0), some (Pos.ofInts 1 1), []) ∧
    outcome (runEvents 10 true (echoProps grid2x2) defaultState
        [Event.mouseDown 0 0 false false, Event.mouseUp, Event.mouseDown 1 1 true false])
      = some (none, some (Pos.ofInts 1 1), []) := by
  decide

/-- C16, at a failing input: with no callback supplied, releasing a copydown drag from
`(0, 0)` with target `{ i: 2 }` over two cells that are not read-only throws: the changes
are not empty and `onCellsChanged(changes)` is called though it is `undefined`.  The drag
state is not reset. -/
theorem onMouseUp_without_channel_throws :
    (noChannelProps gridColumn).onCellsChanged = false ∧
    (noChannelProps gridColumn).onPaste = false ∧
    (noChannelProps gridColumn).onChange = false ∧
    onMouseUp (noChannelProps gridColumn) (copydownState 0 0 ⟨some (some 2), none⟩)
      = Run.typeError := by
  decide

/-- C17, at a failing input: after a click on `(1, 0)`, the last row of a 2 by 1 grid, and
Shift+Down, the selection runs from `(1, 0)` to `(2, 0)`; `handleCopy` then reads
`data[2][0]` and throws, as `data[2]` is `undefined`. -/
theorem handleCopy_throws_below_grid :
    finalState (runEvents 10 false (sampleProps gridHeader) defaultState
        [Event.mouseDown 1 0 false false, Event.mouseUp, Event.key (keyOf DOWN_KEY true)])
      = some (selectionState 1 0 2 0) ∧
    handleCopy (sampleProps gridHeader) (selectionState 1 0 2 0) = Run.typeError := by
  decide

/-- C18, at a failing input: in a 2 by 2 grid with every cell navigable, the search from
`(0, 1)` with offset `(-1, 0)` and row wrap leaves the grid at row `-1` and returns
`(0, 0)`, not null; Shift+Enter committing the edit of `(0, 1)` moves the selection to
`(0, 0)`. -/
theorem wrap_up_from_top_row_moves_selection :
    searchForNextSelectablePos 10 (fun _ _ _ => true) grid2x2 ⟨0, 1⟩ ⟨-1, 0⟩ true
      = Run.done (some ⟨0, 0⟩) ∧
    step 10 (sampleProps grid2x2)
        { selectionState 0 1 0 1 with editing := some (Pos.ofInts 0 1) }
        (Event.navigate (keyOf ENTER_KEY true))
      = Run.done (selectionState 0 0 0 0, []) := by
  decide

/-- C20 as stated fails: a mouse-down on `(0, 0)` sets `selecting`; Enter pressed before
the mouse-up starts the edit of `(0, 0)` and leaves `selecting` set. -/
theorem enter_during_drag_keeps_selecting :
    finalState (runEvents 10 false (sampleProps grid2x2) defaultState
        [Event.mouseDown 0 0 false false, Event.key (keyOf ENTER_KEY false)])
      = some { selectionState 0 0 0 0 with
          selecting := true, editing := some (Pos.ofInts 0 0), forceEdit := true } := by
  decide

/-! ## The corners at the head of a paste -/

/-- The rebound `start` of `handlePaste` is the per-axis minimum of the two corners. -/
theorem pasteStart_eq_min (a b c d : Int) :
    pasteStart (some (Pos.ofInts a b)) (some (Pos.ofInts c d))
      = Pos.ofInts (min a c) (min b d) := by
  simp [pasteStart, coordI, coordJ, Pos.ofInts, jsMin]

/-- The rebound `end` of `handlePaste` is the `end` it was given: the maximum is taken
with the rebound `start`, which is nowhere above `end`. -/
theorem pasteEnd_eq_end (a b c d : Int) :
    pasteEnd (pasteStart (some (Pos.ofInts a b)) (some (Pos.ofInts c d)))
        (some (Pos.ofInts c d))
      = Pos.ofInts c d := by
  simp [pasteStart, pasteEnd, coordI, coordJ, Pos.ofInts, jsMin, jsMax]

/-- The corners rebound by `handlePaste` are ordered, and rebinding them again changes
nothing. -/
theorem paste_corners_ordered_idempotent (a b c d : Int) :
    (min a c ≤ c ∧ min b d ≤ d) ∧
    pasteStart
        (some (pasteStart (some (Pos.ofInts a b)) (some (Pos.ofInts c d))))
        (some (pasteEnd (pasteStart (some (Pos.ofInts a b)) (some (Pos.ofInts c d)))
          (some (Pos.ofInts c d))))
      = pasteStart (some (Pos.ofInts a b)) (some (Pos.ofInts c d)) ∧
    pasteEnd
        (pasteStart
          (some (pasteStart (some (Pos.ofInts a b)) (some (Pos.ofInts c d))))
          (some (pasteEnd (pasteStart (some (Pos.ofInts a b)) (some (Pos.ofInts c d)))
            (some (Pos.ofInts c d)))))
        (some (pasteEnd (pasteStart (some (Pos.ofInts a b)) (some (Pos.ofInts c d)))
          (some (Pos.ofInts c d))))
      = pasteEnd (pasteStart (some (Pos.ofInts a b)) (some (Pos.ofInts c d)))
          (some (Pos.ofInts c d)) := by
  refine ⟨⟨min_le_right a c, min_le_right b d⟩, ?_, ?_⟩
  · rw [pasteEnd_eq_end, pasteStart_eq_min, pasteStart_eq_min]
    simp [Pos.ofInts]
  · rw [pasteEnd_eq_end, pasteStart_eq_min, pasteEnd_eq_end]

/-- C21, at a failing input: for the inverted corners `start = (1, 1)`, `end = (0, 0)` the
head of `handlePaste` rebinds `start` to the minimum `(0, 0)` and `end` to `(0, 0)`, not to
the maximum `(1, 1)`: `Math.max` is applied to the rebound `start`.  A paste without
clipboard data stores that `end`. -/
theorem handlePaste_inverted_corners_end_not_maximum :
    pasteStart (some (Pos.ofInts 1 1)) (some (Pos.ofInts 0 0)) = Pos.ofInts 0 0 ∧
    pasteEnd (pasteStart (some (Pos.ofInts 1 1)) (some (Pos.ofInts 0 0)))
        (some (Pos.ofInts 0 0))
      = Pos.ofInts 0 0 ∧
    handlePaste (sampleProps grid2x2) (selectionState 1 1 0 0) none
      = (selectionState 1 1 0 0, [Call.onCellsChanged [] none]) := by
  decide

/-! ## The copydown target outside on both axes -/

/-- C22, as amended: for corners `(a, b)` and `(c, d)` in any order and a hovered cell
`(i, j)` outside the selection on both axes, `calculateCopydownTarget` gives only the key
`i`, set to the signed row distance, when the absolute row distance is at least the
absolute column distance, and only the key `j`, set to the signed column distance,
otherwise: a tie goes to the row key. -/
theorem calculateCopydownTarget_both_outside (a b c d i j : Int)
    (hi : i < min a c ∨ max a c < i) (hj : j < min b d ∨ max b d < j) :
    calculateCopydownTarget (some (Pos.ofInts a b)) (some (Pos.ofInts c d)) i j
      = if |signedDistance (min b d) (max b d) j| ≤ |signedDistance (min a c) (max a c) i|
        then ⟨some (some (signedDistance (min a c) (max a c) i)), none⟩
        else ⟨none, some (some (signedDistance (min b d) (max b d) j))⟩ := by
  have hmin1 := min_le_max (a := a) (b := c)
  have hmin2 := min_le_max (a := b) (b := d)
  simp only [calculateCopydownTarget, coordI, coordJ, Pos.ofInts, Option.some_bind, jsMin,
    jsMax, jsGe, jsLe, jsLt, jsSub, jsAbs, Option.map_some', CopydownTarget.empty,
    signedDistance]
  generalize min a c = r0 at *
  generalize max a c = r1 at *
  generalize min b d = c0 at *
  generalize max b d = c1 at *
  have h1 : ¬ (r0 ≤ i ∧ i ≤ r1) := by omega
  have h2 : ¬ (c0 ≤ j ∧ j ≤ c1) := by omega
  simp only [Bool.and_eq_true, decide_eq_true_eq, h1, h2, and_self, and_false, false_and,
    if_false]
  by_cases h3 : i < r0 <;> by_cases h4 : j < c0 <;>
    simp only [h3, h4, if_true, if_false, Option.map_some', decide_eq_true_eq]

theorem calculateCopydownTarget_both_outside_witness :
    calculateCopydownTarget (some (Pos.ofInts 0 0)) (some (Pos.ofInts 0 0)) 1 2
      = ⟨none, some (some 2)⟩ := by
  rw [calculateCopydownTarget_both_outside 0 0 0 0 1 2 (by decide) (by decide)]
  decide

/-- C22 as stated fails: hovering `(1, 1)` with the single cell `(0, 0)` selected is at
distance 1 on both axes, and the target is the row key `{ i: 1 }`, not the column key. -/
theorem calculateCopydownTarget_tie_goes_to_row :
    calculateCopydownTarget (some (Pos.ofInts 0 0)) (some (Pos.ofInts 0 0)) 1 1
      = ⟨some (some 1), none⟩ := by
  decide

/-! ## The search returns navigable cells -/

theorem settle_navigable (nav : Cell → Int → Int → Bool) (data : Grid)
    (recurse : Loc → Run (Option Loc))
    (hrec : ∀ l r, recurse l = Run.done (some r) → NavigableAt nav data r)
    (w r : Loc) (h : settle nav data recurse w = Run.done (some r)) :
    NavigableAt nav data r := by
  unfold settle at h
  split at h
  · exact hrec _ _ h
  · rename_i hn
    split at h
    · rename_i hd
      simp only [Run.done.injEq, Option.some.injEq] at h
      subst h
      have hn2 : definedNotNavigable nav data w = false := by simpa using hn
      rcases (definedNotNavigable_eq_false_iff nav data w).mp hn2 with h1 | h1
      · rw [hd] at h1; exact absurd h1 (by decide)
      · exact h1
    · simp at h

/-- Whatever the fuel, the start, the offsets and the wrap flag, a location returned by
`searchForNextSelectablePos` holds a cell that the predicate accepts. -/
theorem search_navigable (nav : Cell → Int → Int → Bool) (data : Grid) (offsets : Loc)
    (jumpRow : Bool) :
    ∀ (fuel : Nat) (start r : Loc),
      searchForNextSelectablePos fuel nav data start offsets jumpRow = Run.done (some r) →
      NavigableAt nav data r := by
  intro fuel
  induction fuel with
  | zero => intro start r h; simp [searchForNextSelectablePos] at h
  | succ f ih =>
    intro start r h
    unfold searchForNextSelectablePos at h
    split at h
    · simp at h
    · split at h
      · split at h
        · simp at h
        · split at h
          · split at h
            · simp at h
            · exact settle_navigable nav data _ (fun l r hr => ih l r hr) _ _ h
          · exact settle_navigable nav data _ (fun l r hr => ih l r hr) _ _ h
      · exact settle_navigable nav data _ (fun l r hr => ih l r hr) _ _ h

/-- C23, at a failing input: in a 2 by 2 grid with every cell navigable, the search from
`(0, 0)` with offset `(-1, 0)` and row wrap returns `(0, 0)`, the start itself; Shift+Enter
committing the edit of `(0, 0)` sets `start = end = (0, 0)`, the cell it left. -/
theorem search_wrap_up_returns_start :
    searchForNextSelectablePos 10 (fun _ _ _ => true) grid2x2 ⟨0, 0⟩ ⟨-1, 0⟩ true
      = Run.done (some ⟨0, 0⟩) ∧
    step 10 (sampleProps grid2x2)
        { selectionState 0 0 0 0 with editing := some (Pos.ofInts 0 0) }
        (Event.navigate (keyOf ENTER_KEY true))
      = Run.done (selectionState 0 0 0 0, []) := by
  decide

/-! ## The copydown highlight and the release -/

/-- The target of a hover over `(i, j)` with the single cell `(r, c)` selected: empty on
the cell itself, else one key holding the distance to it. -/
theorem calculateCopydownTarget_single (r c i j : Int) :
    (i = r ∧ j = c ∧
      calculateCopydownTarget (some (Pos.ofInts r c)) (some (Pos.ofInts r c)) i j
        = CopydownTarget.empty) ∨
    (i ≠ r ∧
      calculateCopydownTarget (some (Pos.ofInts r c)) (some (Pos.ofInts r c)) i j
        = ⟨some (some (i - r)), none⟩) ∨
    (j ≠ c ∧
      calculateCopydownTarget (some (Pos.ofInts r c)) (some (Pos.ofInts r c)) i j
        = ⟨none, some (some (j - c))⟩) := by
  simp only [calculateCopydownTarget, coordI, coordJ, Pos.ofInts, Option.some_bind, jsMin,
    jsMax, jsGe, jsLe, jsLt, jsSub, jsAbs, Option.map_some', CopydownTarget.empty, min_self,
    max_self]
  by_cases h1 : i = r
  · by_cases h2 : j = c
    · left
      subst h1 h2
      simp
    · right; right
      subst h1
      refine ⟨h2, ?_⟩
      have h3 : ¬ (c ≤ j ∧ j ≤ c) := by omega
      simp [h3]
  · by_cases h2 : j = c
    · right; left
      subst h2
      refine ⟨h1, ?_⟩
      have h3 : ¬ (r ≤ i ∧ i ≤ r) := by omega
      simp [h3]
    · have h3 : ¬ (r ≤ i ∧ i ≤ r) := by omega
      have h4 : ¬ (c ≤ j ∧ j ≤ c) := by omega
      by_cases h5 : |j - c| ≤ |i - r|
      · right; left
        refine ⟨h1, ?_⟩
        simp [h3, h4, h5]
      · right; right
        refine ⟨h2, ?_⟩
        simp [h3, h4, h5]

theorem mem_updatesAt (data : Grid) (value : Text) (positions : List Loc) (u : Change) :
    u ∈ updatesAt data value positions ↔
      (⟨u.row, u.col⟩ : Loc) ∈ positions ∧ cellAt data u.row u.col = some u.cell ∧
        u.cell.readOnly = false ∧ u.value = value := by
  unfold updatesAt
  simp only [List.mem_filterMap]
  constructor
  · rintro ⟨l, hl, h⟩
    cases hc : cellAt data l.i l.j with
    | none => simp [hc] at h
    | some cell =>
      simp only [hc] at h
      by_cases hro : cell.readOnly = true
      · simp [hro] at h
      · simp only [hro, Bool.false_eq_true, if_false, Option.some.injEq] at h
        subst h
        exact ⟨hl, hc, by simpa using hro, rfl⟩
  · rintro ⟨hl, hc, hro, hv⟩
    refine ⟨⟨u.row, u.col⟩, hl, ?_⟩
    simp only [hc, hro, Bool.false_eq_true, if_false, Option.some.injEq]
    cases u
    simp_all

theorem fillChanges_vertical (data : Grid) (r c : Int) (value : Text) (lo hi : Int) :
    fillChanges data true r c value lo hi
      = updatesAt data value ((span lo hi).map fun x => (⟨x, c⟩ : Loc)) := by
  unfold fillChanges updatesAt
  rw [List.filterMap_map]
  rfl

theorem fillChanges_horizontal (data : Grid) (r c : Int) (value : Text) (lo hi : Int) :
    fillChanges data false r c value lo hi
      = updatesAt data value ((span lo hi).map fun x => (⟨r, x⟩ : Loc)) := by
  unfold fillChanges updatesAt
  rw [List.filterMap_map]
  rfl

/-- The positions visited by the release and the highlighted positions, for a vertical
target `{ i: d }` on the single selected cell `(r, c)`. -/
theorem copydown_vertical (state : State) (r c d : Int)
    (hdrag : state.copydownDragging = true)
    (hstart : state.start = some (Pos.ofInts r c))
    (hend : state.end_ = some (Pos.ofInts r c))
    (htarget : state.copydownTarget = ⟨some (some d), none⟩)
    (hd0 : d ≠ 0) (hd1 : -2147483648 ≤ d) (hd2 : d < 2147483648) :
    copydownVisited state
      = (span (if d > 0 then r + 1 else r + d) (if d > 0 then r + d else r - 1)).map
          (fun x => (⟨x, c⟩ : Loc)) ∧
    ∀ p q, isCopydownTargeted state p q = true ↔
      q = c ∧ (if d > 0 then r + 1 else r + d) ≤ p ∧ p ≤ (if d > 0 then r + d else r - 1) := by
  have htr : jsTruthy (some d) = true := by simp [jsTruthy, hd0]
  constructor
  · unfold copydownVisited
    simp only [hdrag, htarget, hstart, CopydownTarget.isEmpty, coordI, coordJ, Pos.ofInts,
      Option.some_bind, Option.join, Option.isNone_some, Bool.false_and, Bool.not_false,
      Bool.and_self, if_true, id_eq, htr, jsBitOr_left d hd1 hd2, Option.none_bind]
  · intro p q
    unfold isCopydownTargeted
    simp only [htarget, hstart, hend, CopydownTarget.isEmpty, coordI, coordJ, Pos.ofInts,
      Option.some_bind, Option.join, Option.isNone_some, Bool.false_and, Bool.false_eq_true,
      if_false, if_true, htr, jsMin, jsMax, jsGe, jsLe, jsLt, jsGt, jsAdd, min_self, max_self,
      id]
    by_cases hpos : d > 0
    · have h0 : (0 : Int) < d := hpos
      simp only [hpos, h0, decide_True, if_true, Bool.and_eq_true, decide_eq_true_eq]
      constructor
      · rintro ⟨⟨h1, h2⟩, h3, h4⟩
        exact ⟨by omega, by omega, h4⟩
      · rintro ⟨rfl, h3, h4⟩
        exact ⟨⟨le_refl _, le_refl _⟩, by omega, h4⟩
    · have h0 : ¬ (0 : Int) < d := hpos
      simp only [hpos, h0, decide_False, Bool.false_eq_true, if_false, Bool.and_eq_true,
        decide_eq_true_eq]
      constructor
      · rintro ⟨⟨h1, h2⟩, h3, h4⟩
        exact ⟨by omega, h4, by omega⟩
      · rintro ⟨rfl, h3, h4⟩
        exact ⟨⟨le_refl _, le_refl _⟩, by omega, h3⟩

/-- The positions visited by the release and the highlighted positions, for a horizontal
target `{ j: d }` on the single selected cell `(r, c)`. -/
theorem copydown_horizontal (state : State) (r c d : Int)
    (hdrag : state.copydownDragging = true)
    (hstart : state.start = some (Pos.ofInts r c))
    (hend : state.end_ = some (Pos.ofInts r c))
    (htarget : state.copydownTarget = ⟨none, some (some d)⟩)
    (hd0 : d ≠ 0) (hd1 : -2147483648 ≤ d) (hd2 : d < 2147483648) :
    copydownVisited state
      = (span (if d > 0 then c + 1 else c + d) (if d > 0 then c + d else c - 1)).map
          (fun x => (⟨r, x⟩ : Loc)) ∧
    ∀ p q, isCopydownTargeted state p q = true ↔
      p = r ∧ (if d > 0 then c + 1 else c + d) ≤ q ∧ q ≤ (if d > 0 then c + d else c - 1) := by
  have htr : jsTruthy (some d) = true := by simp [jsTruthy, hd0]
  have htn : jsTruthy none = false := rfl
  constructor
  · unfold copydownVisited
    simp only [hdrag, htarget, hstart, CopydownTarget.isEmpty, coordI, coordJ, Pos.ofInts,
      Option.some_bind, Option.join, Option.isNone_some, Option.isNone_none, Bool.and_false,
      Bool.not_false, Bool.and_self, if_true, id_eq, htn, Bool.false_eq_true, if_false,
      jsBitOr_right d hd1 hd2, Option.none_bind]
  · intro p q
    unfold isCopydownTargeted
    simp only [htarget, hstart, hend, CopydownTarget.isEmpty, coordI, coordJ, Pos.ofInts,
      Option.some_bind, Option.join, Option.isNone_some, Option.isNone_none, Bool.and_false,
      Bool.false_eq_true, if_false, if_true, htr, htn, jsMin, jsMax, jsGe, jsLe, jsLt, jsGt,
      jsAdd, min_self, max_self, Option.none_bind, id]
    by_cases hpos : d > 0
    · have h0 : (0 : Int) < d := hpos
      simp only [hpos, h0, decide_True, if_true, Bool.and_eq_true, decide_eq_true_eq]
      constructor
      · rintro ⟨⟨h1, h2⟩, h3, h4⟩
        exact ⟨by omega, by omega, h4⟩
      · rintro ⟨rfl, h3, h4⟩
        exact ⟨⟨le_refl _, le_refl _⟩, by omega, h4⟩
    · have h0 : ¬ (0 : Int) < d := hpos
      simp only [hpos, h0, decide_False, Bool.false_eq_true, if_false, Bool.and_eq_true,
        decide_eq_true_eq]
      constructor
      · rintro ⟨⟨h1, h2⟩, h3, h4⟩
        exact ⟨by omega, h4, by omega⟩
      · rintro ⟨rfl, h3, h4⟩
        exact ⟨⟨le_refl _, le_refl _⟩, by omega, h3⟩

/-- The release of a copydown drag from the single selected cell `(r, c)` with a target
`{ i: d }` (vertical) or `{ j: d }` (horizontal): the drag state is reset and the fill of
the target range is emitted as one batch when it is not empty. -/
theorem onMouseUp_fill (props : Props) (state : State) (r c d : Int) (source : Cell)
    (vertical : Bool)
    (hdrag : state.copydownDragging = true)
    (hstart : state.start = some (Pos.ofInts r c))
    (hsrc : cellAt props.data r c = some source)
    (htarget : state.copydownTarget
      = if vertical then ⟨some (some d), none⟩ else ⟨none, some (some d)⟩)
    (hd0 : d ≠ 0) (hd1 : -2147483648 ≤ d) (hd2 : d < 2147483648)
    (hchan : props.onCellsChanged = true)
    (hcells : ∀ x,
      (if d > 0 then (if vertical then r else c) + 1 else (if vertical then r else c) + d) ≤ x →
      x ≤ (if d > 0 then (if vertical then r else c) + d else (if vertical then r else c) - 1) →
      (cellAt props.data (if vertical then x else r) (if vertical then c else x)).isSome) :
    onMouseUp props state =
      Run.done
        ({ state with selecting := false, copydownDragging := false,
                      copydownTarget := CopydownTarget.empty },
          if fillChanges props.data vertical r c source.value
              (if d > 0 then (if vertical then r else c) + 1
                else (if vertical then r else c) + d)
              (if d > 0 then (if vertical then r else c) + d
                else (if vertical then r else c) - 1) = [] then []
          else [Call.onCellsChanged
            (fillChanges props.data vertical r c source.value
              (if d > 0 then (if vertical then r else c) + 1
                else (if vertical then r else c) + d)
              (if d > 0 then (if vertical then r else c) + d
                else (if vertical then r else c) - 1)) none]) := by
  have htr : jsTruthy (some d) = true := by simp [jsTruthy, hd0]
  have htn : jsTruthy none = false := rfl
  apply onMouseUp_of_loop props state r c source _ hdrag _ hstart hsrc hchan
  · cases vertical with
    | true =>
      simp only [if_true] at htarget hcells ⊢
      have hi : state.copydownTarget.i.join = some d := by rw [htarget]; rfl
      have hj : state.copydownTarget.j.join = none := by rw [htarget]; rfl
      rw [hi, hj, htr, jsBitOr_left d hd1 hd2]
      simp only [if_true]
      by_cases hpos : d > 0
      · simp only [hpos, if_true] at hcells ⊢
        have hloop := copydownLoop_eq props.data true r c source.value d.toNat (r + 1) []
          (fun y h1 h2 => hcells y h1 (by omega))
        simp only [if_true, List.nil_append] at hloop
        rw [show r + 1 + (d.toNat : Int) - 1 = r + d by omega] at hloop
        rw [show (r + d - (r + 1) + 1).toNat = d.toNat by omega, hloop]
      · simp only [hpos, if_false] at hcells ⊢
        have hloop := copydownLoop_eq props.data true r c source.value (-d).toNat (r + d) []
          (fun y h1 h2 => hcells y h1 (by omega))
        simp only [if_true, List.nil_append] at hloop
        rw [show r + d + ((-d).toNat : Int) - 1 = r - 1 by omega] at hloop
        rw [show (r - 1 - (r + d) + 1).toNat = (-d).toNat by omega, hloop]
    | false =>
      simp only [Bool.false_eq_true, if_false] at htarget hcells ⊢
      have hi : state.copydownTarget.i.join = none := by rw [htarget]; rfl
      have hj : state.copydownTarget.j.join = some d := by rw [htarget]; rfl
      rw [hi, hj, htn, jsBitOr_right d hd1 hd2]
      simp only [Bool.false_eq_true, if_false]
      by_cases hpos : d > 0
      · simp only [hpos, if_true] at hcells ⊢
        have hloop := copydownLoop_eq props.data false r c source.value d.toNat (c + 1) []
          (fun y h1 h2 => hcells y h1 (by omega))
        simp only [Bool.false_eq_true, if_false, List.nil_append] at hloop
        rw [show c + 1 + (d.toNat : Int) - 1 = c + d by omega] at hloop
        rw [show (c + d - (c + 1) + 1).toNat = d.toNat by omega, hloop]
      · simp only [hpos, if_false] at hcells ⊢
        have hloop := copydownLoop_eq props.data false r c source.value (-d).toNat (c + d) []
          (fun y h1 h2 => hcells y h1 (by omega))
        simp only [Bool.false_eq_true, if_false, List.nil_append] at hloop
        rw [show c + d + ((-d).toNat : Int) - 1 = c - 1 by omega] at hloop
        rw [show (c - 1 - (c + d) + 1).toNat = (-d).toNat by omega, hloop]
  · rw [htarget]
    cases vertical <;> rfl

theorem copydown_matches_release_core (props : Props) (state : State) (rows cols : Nat)
    (r c i j : Int) (source : Cell)
    (hrect : Rectangular props.data rows cols)
    (hrows : rows ≤ 2147483648) (hcols : cols ≤ 2147483648)
    (hstart : state.start = some (Pos.ofInts r c))
    (hend : state.end_ = some (Pos.ofInts r c))
    (hsrc : cellAt props.data r c = some source)
    (hdrag : state.copydownDragging = true)
    (hhover : InBounds rows cols ⟨i, j⟩)
    (htarget : state.copydownTarget = calculateCopydownTarget state.start state.end_ i j) :
    (∀ p q, isCopydownTargeted state p q = true ↔ (⟨p, q⟩ : Loc) ∈ copydownVisited state) ∧
    (∀ l ∈ copydownVisited state, InBounds rows cols l) ∧
    (props.onCellsChanged = true →
      onMouseUp props state =
        Run.done
          ({ state with selecting := false, copydownDragging := false,
                        copydownTarget := CopydownTarget.empty },
            if updatesAt props.data source.value (copydownVisited state) = [] then []
            else [Call.onCellsChanged
              (updatesAt props.data source.value (copydownVisited state)) none])) := by
  have hsrcIn : InBounds rows cols ⟨r, c⟩ :=
    (cellAt_isSome_of_rect hrect ⟨r, c⟩).mp (by simp [hsrc])
  have hcell : ∀ x y : Int, 0 ≤ x → x < rows → 0 ≤ y → y < cols →
      (cellAt props.data x y).isSome = true :=
    fun x y h1 h2 h3 h4 => (cellAt_isSome_of_rect hrect ⟨x, y⟩).mpr ⟨h1, h2, h3, h4⟩
  unfold InBounds at hhover hsrcIn
  simp only at hhover hsrcIn
  obtain ⟨hi0, hi1, hj0, hj1⟩ := hhover
  obtain ⟨hr0, hr1, hc0, hc1⟩ := hsrcIn
  have hrowsZ : (rows : Int) ≤ 2147483648 := by exact_mod_cast hrows
  have hcolsZ : (cols : Int) ≤ 2147483648 := by exact_mod_cast hcols
  rw [hstart, hend] at htarget
  rcases calculateCopydownTarget_single r c i j with ⟨_, _, h3⟩ | ⟨h1, h3⟩ | ⟨h1, h3⟩
  · rw [h3] at htarget
    have hvis : copydownVisited state = [] := by
      simp [copydownVisited, htarget, CopydownTarget.isEmpty, CopydownTarget.empty]
    refine ⟨?_, ?_, ?_⟩
    · intro p q
      simp [hvis, isCopydownTargeted, htarget, CopydownTarget.isEmpty, CopydownTarget.empty]
    · intro l hl
      rw [hvis] at hl
      simp at hl
    · intro _
      rw [hvis]
      have hemp : state.copydownTarget.isEmpty = true := by rw [htarget]; rfl
      unfold onMouseUp
      simp only [hemp, Bool.not_true, Bool.and_false, Bool.false_eq_true, if_false,
        setState_reset, updatesAt, List.filterMap_nil, if_true]
  · rw [h3] at htarget
    have hd0 : i - r ≠ 0 := by omega
    obtain ⟨hvis, hhl⟩ := copydown_vertical state r c (i - r) hdrag hstart hend htarget hd0
      (by omega) (by omega)
    refine ⟨?_, ?_, ?_⟩
    · intro p q
      rw [hhl, hvis]
      simp only [List.mem_map, mem_span, Loc.mk.injEq]
      constructor
      · rintro ⟨rfl, h4, h5⟩
        exact ⟨p, ⟨h4, h5⟩, rfl, rfl⟩
      · rintro ⟨x, ⟨h4, h5⟩, rfl, rfl⟩
        exact ⟨rfl, h4, h5⟩
    · intro l hl
      rw [hvis] at hl
      simp only [List.mem_map, mem_span] at hl
      obtain ⟨x, ⟨h4, h5⟩, rfl⟩ := hl
      unfold InBounds
      simp only
      split at h4 <;> split at h5 <;> omega
    · intro hchan
      have hfill := onMouseUp_fill props state r c (i - r) source true hdrag hstart hsrc
        (by simpa using htarget) hd0 (by omega) (by omega) hchan
        (by
          intro x h4 h5
          simp only [if_true] at h4 h5 ⊢
          apply hcell x c _ _ hc0 hc1
          · split at h4 <;> omega
          · split at h5 <;> omega)
      simp only [if_true] at hfill
      rw [fillChanges_vertical] at hfill
      rw [hvis]
      exact hfill
  · rw [h3] at htarget
    have hd0 : j - c ≠ 0 := by omega
    obtain ⟨hvis, hhl⟩ := copydown_horizontal state r c (j - c) hdrag hstart hend htarget hd0
      (by omega) (by omega)
    refine ⟨?_, ?_, ?_⟩
    · intro p q
      rw [hhl, hvis]
      simp only [List.mem_map, mem_span, Loc.mk.injEq]
      constructor
      · rintro ⟨rfl, h4, h5⟩
        exact ⟨q, ⟨h4, h5⟩, rfl, rfl⟩
      · rintro ⟨x, ⟨h4, h5⟩, rfl, rfl⟩
        exact ⟨rfl, h4, h5⟩
    · intro l hl
      rw [hvis] at hl
      simp only [List.mem_map, mem_span] at hl
      obtain ⟨x, ⟨h4, h5⟩, rfl⟩ := hl
      unfold InBounds
      simp only
      split at h4 <;> split at h5 <;> omega
    · intro hchan
      have hfill := onMouseUp_fill props state r c (j - c) source false hdrag hstart hsrc
        (by simpa using htarget) hd0 (by omega) (by omega) hchan
        (by
          intro x h4 h5
          simp only [Bool.false_eq_true, if_false] at h4 h5 ⊢
          apply hcell r x hr0 hr1
          · split at h4 <;> omega
          · split at h5 <;> omega)
      simp only [Bool.false_eq_true, if_false] at hfill
      rw [fillChanges_horizontal] at hfill
      rw [hvis]
      exact hfill

theorem grid2x3_rect : Rectangular grid2x3 2 3 := by
  simp [Rectangular, grid2x3]

/-- C24, as amended: for the single selected cell `(r, c)` of a rectangular grid of at
most `2 ^ 31` rows and columns, holding `source`, and a copydown drag whose target comes
from hovering the existing cell `(i, j)`: the positions `(p, q)` with `isCopydownTargeted`
true are exactly the positions the loop of the release goes through; each of them is in
the grid; with `onCellsChanged` supplied the release resets the drag state and emits, as
one batch when there is any, the updates at the visited positions whose cell is not
read-only; and an update is among those exactly when its position is highlighted, it
carries the cell stored there, that cell is not read-only, and its value is the one of
`source`. -/
theorem isCopydownTargeted_matches_release (props : Props) (state : State) (rows cols : Nat)
    (r c i j : Int) (source : Cell)
    (hrect : Rectangular props.data rows cols)
    (hrows : rows ≤ 2147483648) (hcols : cols ≤ 2147483648)
    (hstart : state.start = some (Pos.ofInts r c))
    (hend : state.end_ = some (Pos.ofInts r c))
    (hsrc : cellAt props.data r c = some source)
    (hdrag : state.copydownDragging = true)
    (hhover : InBounds rows cols ⟨i, j⟩)
    (htarget : state.copydownTarget = calculateCopydownTarget state.start state.end_ i j) :
    (∀ p q, isCopydownTargeted state p q = true ↔ (⟨p, q⟩ : Loc) ∈ copydownVisited state) ∧
    (∀ l ∈ copydownVisited state, InBounds rows cols l) ∧
    (props.onCellsChanged = true →
      onMouseUp props state =
        Run.done
          ({ state with selecting := false, copydownDragging := false,
                        copydownTarget := CopydownTarget.empty },
            if updatesAt props.data source.value (copydownVisited state) = [] then []
            else [Call.onCellsChanged
              (updatesAt props.data source.value (copydownVisited state)) none])) ∧
    (∀ u, u ∈ updatesAt props.data source.value (copydownVisited state) ↔
      isCopydownTargeted state u.row u.col = true ∧
      cellAt props.data u.row u.col = some u.cell ∧ u.cell.readOnly = false ∧
      u.value = source.value) := by
  obtain ⟨h1, h2, h3⟩ := copydown_matches_release_core props state rows cols r c i j source
    hrect hrows hcols hstart hend hsrc hdrag hhover htarget
  refine ⟨h1, h2, h3, ?_⟩
  intro u
  rw [mem_updatesAt, h1]

theorem isCopydownTargeted_matches_release_witness :
    (onMouseOver (sampleProps grid2x3) (copydownState 0 0 CopydownTarget.empty) 0 2).1
      = copydownState 0 0 ⟨none, some (some 2)⟩ ∧
    copydownVisited (copydownState 0 0 ⟨none, some (some 2)⟩) = [⟨0, 1⟩, ⟨0, 2⟩] ∧
    onMouseUp (sampleProps grid2x3) (copydownState 0 0 ⟨none, some (some 2)⟩)
      = Run.done (selectionState 0 0 0 0,
          [Call.onCellsChanged [⟨mkCell ['b'], 0, 1, ['a']⟩] none]) ∧
    (sampleProps grid2x3).onCellsChanged = true ∧
    ((∀ p q, isCopydownTargeted (copydownState 0 0 ⟨none, some (some 2)⟩) p q = true ↔
        (⟨p, q⟩ : Loc) ∈ copydownVisited (copydownState 0 0 ⟨none, some (some 2)⟩)) ∧
      (∀ l ∈ copydownVisited (copydownState 0 0 ⟨none, some (some 2)⟩), InBounds 2 3 l) ∧
      ((sampleProps grid2x3).onCellsChanged = true →
        onMouseUp (sampleProps grid2x3) (copydownState 0 0 ⟨none, some (some 2)⟩) =
          Run.done
            ({ copydownState 0 0 ⟨none, some (some 2)⟩ with
                selecting := false, copydownDragging := false,
                copydownTarget := CopydownTarget.empty },
              if updatesAt (sampleProps grid2x3).data (mkCell ['a']).value
                  (copydownVisited (copydownState 0 0 ⟨none, some (some 2)⟩)) = [] then []
              else [Call.onCellsChanged
                (updatesAt (sampleProps grid2x3).data (mkCell ['a']).value
                  (copydownVisited (copydownState 0 0 ⟨none, some (some 2)⟩))) none])) ∧
      (∀ u, u ∈ updatesAt (sampleProps grid2x3).data (mkCell ['a']).value
            (copydownVisited (copydownState 0 0 ⟨none, some (some 2)⟩)) ↔
        isCopydownTargeted (copydownState 0 0 ⟨none, some (some 2)⟩) u.row u.col = true ∧
        cellAt (sampleProps grid2x3).data u.row u.col = some u.cell ∧
        u.cell.readOnly = false ∧ u.value = (mkCell ['a']).value)) :=
  ⟨by decide, by decide, by decide, rfl,
    isCopydownTargeted_matches_release (sampleProps grid2x3)
      (copydownState 0 0 ⟨none, some (some 2)⟩) 2 3 0 0 0 2 (mkCell ['a'])
      grid2x3_rect (by decide) (by decide) rfl rfl (by decide) rfl
      (by unfold InBounds; decide) rfl⟩

/-- C24 as stated fails: with no callback supplied, a copydown drag from `(0, 0)` over a
column of three cells, its target `{ i: 2 }` coming from a hover over `(2, 0)`, highlights
`(1, 0)` and `(2, 0)`, neither of them read-only, and the release throws instead of
emitting their updates. -/
theorem highlighted_cells_not_updated_without_channel :
    calculateCopydownTarget (some (Pos.ofInts 0 0)) (some (Pos.ofInts 0 0)) 2 0
      = ⟨some (some 2), none⟩ ∧
    isCopydownTargeted (copydownState 0 0 ⟨some (some 2), none⟩) 1 0 = true ∧
    isCopydownTargeted (copydownState 0 0 ⟨some (some 2), none⟩) 2 0 = true ∧
    updatesAt (noChannelProps gridColumn).data ['x']
        (copydownVisited (copydownState 0 0 ⟨some (some 2), none⟩))
      = [⟨mkCell ['y'], 1, 0, ['x']⟩, ⟨mkCell ['z'], 2, 0, ['x']⟩] ∧
    onMouseUp (noChannelProps gridColumn) (copydownState 0 0 ⟨some (some 2), none⟩)
      = Run.typeError := by
  decide

end DataSheet
